import Mathlib

/-!
Gamma scalper: levels book and hedge decision.

A shallow embedding of `src/gamma_scalper/levels.cpp`, of the controller of
`src/gamma_scalper/gamma_scalper.cpp` (the decision step and the callbacks of
the transport) and of the closed formulas of `src/pricing/black_scholes.cpp`,
with the properties of the specification stated over it.

Modelling conventions.

* `price_t`, `volume_t` (strong typedefs of `double`) and `double` are exact
  rationals: every finite double is a rational, and the arithmetic is taken
  without rounding, except where a property depends on the rounding. There the
  result of an operation is rounded by `to_double`, the rounding to the nearest
  binary64 value, ties to even, without overflow nor underflow: in the hedge
  size of `corrections_todo`, whose truncation to `int` reads the rounded
  product, and in `levels.update_levels_double`, the levels book with rounded
  subtractions, which agrees with `levels.update_levels` on whole volumes below
  2^53. A division by zero, whose floating-point result is infinite or NaN, is
  outside the model: the properties that depend on a quotient carry the
  hypothesis that the divisor is positive, and the hedge size is undefined when
  its divisor is 0.
* `int` is a mathematical integer; a conversion to `int` or an absolute value
  that leaves the 32-bit range is a failure.
* Dereferencing an absent `optional` is a failure of the operation (`none` in
  the levels book, `failure_t.undefined` in the controller).
* The current date and the pricing kernel are inputs of `evaluate`: the
  controller is verified for every implied volatility and every delta the
  kernel may answer.
* The closed formulas of the pricing kernel (the normal distribution function
  of Hart and the generalized Black-Scholes-Merton price) are defined over an
  ordered field with `std::exp`, `std::log` and `std::sqrt` as parameters, and
  their properties are proved over the reals with the real exponential,
  logarithm and square root.
* A callback returns the next state of the controller, or a fatal failure: the
  exception thrown by `report_error`, or undefined behaviour. The transport is
  the list of the messages handed to it and its two identifier counters.
* The map `m_positions` (a `std::unordered_map`) is an association list with
  one entry for a symbol, and the set `m_snapshots` a list without repetition.
  The order in which a loop visits the map is not determined by the program:
  it is an input `visit` of `on_message(instruments)`, the only callback that
  loops over the map, and the properties of that callback hold for every
  `visit` that answers a permutation of the entries (`is_visiting_order`). `substr (0, n)` is `String.take n`: the symbols are
  ASCII text.
* The three files of the auxiliary folder are fields of the `levels` state:
  the lines of the levels file, the running total of the PnL file, and the
  entries appended to the PnL log. The levels file and the PnL file are read
  back by the program: they hold the numbers their text denotes, and a `double`
  written with `operator<<` on a stream with default settings is written with
  six significant digits (`print_double`). The PnL log is never read back: its
  entries hold the values handed to the stream.
-/

namespace Deribit

/-! ## Basic types (`definitions/basic_types.h`, `definitions/instrument.h`) -/

/-- Order side, `enum class side_t`. -/
inductive side_t where
  | BUY
  | SELL
deriving DecidableEq, Repr

/-- Option kind, `enum class option_type_t`. -/
inductive option_type_t where
  | CALL
  | PUT
deriving DecidableEq, Repr

/-- Best bid and offer, every field optional. -/
structure BBO_t where
  bid_volume : Option ℚ
  bid : Option ℚ
  ask : Option ℚ
  ask_volume : Option ℚ
deriving DecidableEq, Repr

/-- Date and time of `boost::posix_time::ptime`: a day number and the seconds
within the day. -/
structure ptime where
  date : ℤ
  time_of_day : ℕ
deriving DecidableEq, Repr

/-- Instrument description, `struct instrument_t`. -/
structure instrument_t where
  symbol : String
  description : String
  type : String
  main_currency : String
  contract_multiplier : Option ℚ
  put_call : Option option_type_t
  strike_price : Option ℚ
  strike_currency : Option String
  maturity_date : Option ptime
  min_trade_volume : Option ℚ
  tick_size : Option ℚ
  bbo : Option BBO_t
deriving DecidableEq, Repr

/-! ## Text output of a `double` -/

/-- The decimal exponent of a positive number: the integer `e` with
`10^e ≤ x < 10^(e+1)`. -/
def decimal_exponent (x : ℚ) : ℤ :=
  if 1 ≤ x then (Nat.log 10 ⌊x⌋₊ : ℤ) else -(Nat.clog 10 ⌈1 / x⌉₊ : ℤ)

/-- Rounding to the nearest integer, halfway cases to the even one. -/
def round_half_even (x : ℚ) : ℤ :=
  if x - ⌊x⌋ < 1 / 2 then ⌊x⌋
  else if 1 / 2 < x - ⌊x⌋ then ⌊x⌋ + 1
  else if ⌊x⌋ % 2 = 0 then ⌊x⌋ else ⌊x⌋ + 1

/-- The number denoted by the text that `operator<<` writes for a `double` on a
stream with default settings (general format, precision 6): the value rounded
to six significant digits. -/
def print_double (x : ℚ) : ℚ :=
  if x = 0 then 0
  else
    let scale : ℚ := 10 ^ (decimal_exponent |x| - 5)
    (if x < 0 then -1 else 1) * round_half_even (|x| / scale) * scale

/-! ## Rounding to `double` -/

/-- The `double` nearest to a number: IEEE 754 binary64 with rounding to
nearest, halfway cases to the even significand. A number with binary exponent
`e` (`2^e ≤ |x| < 2^(e+1)`) is rounded to a multiple of `2^(e-52)`. The range of
the exponent is not bounded: overflow and subnormal numbers are outside the
model. -/
def to_double (x : ℚ) : ℚ :=
  if x = 0 then 0
  else
    let ulp : ℚ := 2 ^ (Int.log 2 |x| - 52)
    (if x < 0 then -1 else 1) * round_half_even (|x| / ulp) * ulp

/-! ## Levels book (`gamma_scalper/levels.h`, `gamma_scalper/levels.cpp`) -/

/-- Stack entry, `struct level_t`. -/
structure level_t where
  volume : ℚ
  price : ℚ
  side : side_t
deriving DecidableEq, Repr

/-- One line `<price>;<side>;<volume>` of the levels file. -/
structure level_line_t where
  price : ℚ
  side : ℤ
  volume : ℚ
deriving DecidableEq, Repr

/-- The values one call of `store_pnl` writes to the PnL log. -/
structure pnl_entry_t where
  paired_volume : ℚ
  front_price : ℚ
  top_value : ℚ
  report_price : ℚ
  report_value : ℚ
  report_side : side_t
  calculated_pnl : ℚ
deriving DecidableEq, Repr

/-- State of `class levels`: the deque `m_levels` (its front is the head of
the list), the sweetener, and the three files it owns. -/
structure levels where
  m_levels : List level_t
  m_price_sweetener : ℚ
  levels_file : List level_line_t
  pnl_file : ℚ
  pnl_log : List pnl_entry_t
deriving DecidableEq, Repr

/-- The line `store_levels` writes for a level: `price;side;volume` with the
side written 1 for BUY and 2 otherwise. -/
def level_t.to_line (level : level_t) : level_line_t :=
  { price := print_double level.price
    side := if level.side = side_t.BUY then 1 else 2
    volume := print_double level.volume }

/-- `levels::store_levels`: rewrites the levels file, one line per entry, in
the iteration order of the deque (front first). -/
def levels.store_levels (self : levels) : levels :=
  { self with levels_file := self.m_levels.map level_t.to_line }

/-- The level `load_levels` reads from a line. The side is
`static_cast<side_t>` of the integer: 1 is BUY and 2 is SELL; another integer
gives a value of `side_t` that is neither, which `side_t` does not hold here. -/
def level_line_t.to_level (line : level_line_t) : Option level_t :=
  if line.side = 1 then
    some { volume := line.volume, price := line.price, side := side_t.BUY }
  else if line.side = 2 then
    some { volume := line.volume, price := line.price, side := side_t.SELL }
  else none

/-- The levels read from the lines of a file, in file order. -/
def load_lines : List level_line_t → Option (List level_t)
  | [] => some []
  | line :: lines =>
    match line.to_level with
    | none => none
    | some level => (load_lines lines).map fun loaded => level :: loaded

/-- `levels::load_levels`: appends to `m_levels` one level per line of the
levels file, in file order (`push_back`). -/
def levels.load_levels (self : levels) : Option levels :=
  (load_lines self.levels_file).map fun loaded =>
    { self with m_levels := self.m_levels ++ loaded }

/-- The constructor `levels::levels`: an empty deque and the sweetener, then
`load_levels` on the files of the auxiliary folder. -/
def levels.create (levels_file : List level_line_t) (pnl_file : ℚ)
    (pnl_log : List pnl_entry_t) (price_sweetener : ℚ) : Option levels :=
  levels.load_levels
    { m_levels := [], m_price_sweetener := price_sweetener, levels_file := levels_file,
      pnl_file := pnl_file, pnl_log := pnl_log }

/-- `levels::store_pnl`: computes the PnL of a pairing, adds it to the total
read from the PnL file, writes the sum back and appends the trace to the PnL
log. -/
def levels.store_pnl (self : levels) (front_price report_price : ℚ)
    (report_side : side_t) (raw_paired_volume : ℚ) (future : instrument_t) :
    Option levels :=
  match future.contract_multiplier with
  | none => none
  | some contract_multiplier =>
    let paired_volume := raw_paired_volume * contract_multiplier
    let top_value := paired_volume / front_price
    let top_value := if report_side = side_t.SELL then top_value else -top_value
    let report_value := paired_volume / report_price
    let report_value :=
      if report_side = side_t.SELL then -report_value else report_value
    let calculated_pnl := report_value + top_value
    some { self with
      pnl_file := print_double (self.pnl_file + calculated_pnl)
      pnl_log := self.pnl_log ++
        [{ paired_volume := paired_volume
           front_price := front_price
           top_value := top_value
           report_price := report_price
           report_value := report_value
           report_side := report_side
           calculated_pnl := calculated_pnl }] }

/-- `levels::update_levels`: pushes the fill when the stack is empty or its
front has the side of the fill; otherwise pairs the fill with the front,
recursing on the next level when the fill exceeds the front. The two
subtractions of volumes are exact here; `levels.update_levels_double` is the
same function with the subtractions rounded to `double`. -/
def levels.update_levels (self : levels) (traded_volume traded_price : ℚ)
    (side : side_t) (future : instrument_t) : Option levels :=
  match h : self.m_levels with
  | [] =>
    some ({ self with
      m_levels := [{ volume := traded_volume, price := traded_price, side := side }]
      }).store_levels
  | front :: rest =>
    if front.side = side then
      some ({ self with
        m_levels :=
          { volume := traded_volume, price := traded_price, side := side } ::
            front :: rest }).store_levels
    else
      let front_volume := front.volume
      let front_price := front.price
      let filled_volume :=
        if front_volume < traded_volume then front_volume else traded_volume
      let remainder := front_volume - traded_volume
      let after_front : Option levels :=
        if remainder = 0 then
          some { self with m_levels := rest }
        else if remainder < 0 then
          levels.update_levels { self with m_levels := rest }
            (traded_volume - front_volume) traded_price side future
        else
          some { self with
            m_levels := { front with volume := traded_volume } :: rest }
      after_front.bind fun paired =>
        (paired.store_pnl front_price traded_price side filled_volume future).map
          levels.store_levels
termination_by self.m_levels.length
decreasing_by simp [h]

/-- `levels::update_levels` in `double` arithmetic: the two subtractions of
volumes, `front.volume -= traded_volume` and `traded_volume -= front_volume`,
are rounded to `double`, so that the tests `front.volume == 0` and
`front.volume < 0` see the rounded remainder. Everything else is
`update_levels`, with which it agrees whenever the subtractions are exact, as on
whole volumes below `2^53`. -/
def levels.update_levels_double (self : levels) (traded_volume traded_price : ℚ)
    (side : side_t) (future : instrument_t) : Option levels :=
  match h : self.m_levels with
  | [] =>
    some ({ self with
      m_levels := [{ volume := traded_volume, price := traded_price, side := side }]
      }).store_levels
  | front :: rest =>
    if front.side = side then
      some ({ self with
        m_levels :=
          { volume := traded_volume, price := traded_price, side := side } ::
            front :: rest }).store_levels
    else
      let front_volume := front.volume
      let front_price := front.price
      let filled_volume :=
        if front_volume < traded_volume then front_volume else traded_volume
      let remainder := to_double (front_volume - traded_volume)
      let after_front : Option levels :=
        if remainder = 0 then
          some { self with m_levels := rest }
        else if remainder < 0 then
          levels.update_levels_double { self with m_levels := rest }
            (to_double (traded_volume - front_volume)) traded_price side future
        else
          some { self with
            m_levels := { front with volume := traded_volume } :: rest }
      after_front.bind fun paired =>
        (paired.store_pnl front_price traded_price side filled_volume future).map
          levels.store_levels
termination_by self.m_levels.length
decreasing_by simp [h]

/-- A whole volume that a `double` holds exactly: a non-negative integer below
`2^53`. -/
def whole_volume (volume : ℚ) : Prop :=
  ∃ n : ℤ, volume = n ∧ 0 ≤ n ∧ n < 2 ^ 53

/-- `levels::get_price_to_use`. -/
def levels.get_price_to_use (self : levels) (side : side_t)
    (future : instrument_t) : Option ℚ :=
  match self.m_levels with
  | [] =>
    match future.bbo with
    | none => none
    | some bbo => if side = side_t.BUY then bbo.bid else bbo.ask
  | front :: _ =>
    if side = side_t.BUY then
      match future.contract_multiplier, future.bbo with
      | some contract_multiplier, some bbo =>
        match bbo.bid with
        | none => none
        | some bid =>
          let front_price := front.price - contract_multiplier * self.m_price_sweetener
          some (if bid < front_price then bid else front_price)
      | _, _ => none
    else
      match future.contract_multiplier, future.bbo with
      | some contract_multiplier, some bbo =>
        match bbo.ask with
        | none => none
        | some ask =>
          let front_price := front.price + contract_multiplier * self.m_price_sweetener
          some (if ask > front_price then ask else front_price)
      | _, _ => none

/-- `levels::get_volume_to_use`. -/
def levels.get_volume_to_use (self : levels) (side : side_t)
    (corrections_todo : ℚ) : ℚ :=
  match self.m_levels with
  | [] => corrections_todo
  | front :: _ =>
    if side = front.side then corrections_todo
    else if corrections_todo < front.volume then corrections_todo
    else front.volume

/-! ## Messages and transport (`definitions/*.h`, `quickfix/quickfix.cpp`) -/

/-- Position on one instrument, `struct position_t`. -/
structure position_t where
  symbol : String
  quantity : ℚ
  side : side_t
  settlement_price : ℚ
  underlying_end_price : ℚ
deriving DecidableEq, Repr

/-- Working order, `struct order_t`. -/
structure order_t where
  id : String
  original_id : String
  side : side_t
  order_price : ℚ
  full_volume : ℚ
  open_volume : ℚ
deriving DecidableEq, Repr

/-- Order status, `enum class order_status_t`. -/
inductive order_status_t where
  | NEW
  | PARTIAL
  | FILLED
  | CANCELED
  | REJECTED
deriving DecidableEq, Repr

/-- Order type, `enum class order_type_t`. -/
inductive order_type_t where
  | MARKET
  | LIMIT
deriving DecidableEq, Repr

/-- Volume type, `enum class volume_type_t`. -/
inductive volume_type_t where
  | CONTRACTS
deriving DecidableEq, Repr

/-- Execution report, `struct execution_report_t`: every field optional. -/
structure execution_report_t where
  order_id : Option String
  original_order_id : Option String
  order_status : Option order_status_t
  side : Option side_t
  transaction_time : Option ptime
  open_volume : Option ℚ
  executed_volume : Option ℚ
  order_volume : Option ℚ
  order_type : Option order_type_t
  reject_reason : Option ℤ
  symbol : Option String
  order_price : Option ℚ
  volume_type : Option volume_type_t
  contract_multiplier : Option ℚ
  average_execution_price : Option ℚ
  maximun_show_volume : Option ℚ
  implied_volatility : Option ℚ
  pegged_price : Option ℚ
  mass_status_request_type : Option ℤ
  mass_status_report_number : Option ℤ
deriving DecidableEq, Repr

/-- Side of a market update entry, `enum class market_side_t`. -/
inductive market_side_t where
  | BID
  | ASK
deriving DecidableEq, Repr

/-- Action of a market update entry, `enum class market_update_action_t`. -/
inductive market_update_action_t where
  | NEW
  | CHANGE
  | DELETE
deriving DecidableEq, Repr

/-- Entry of a market update, `struct market_update_level_t`. -/
structure market_update_level_t where
  update_type : market_update_action_t
  side : market_side_t
  level_volume : ℚ
  level_price : ℚ
deriving DecidableEq, Repr

/-- Market update, `struct market_update_t`. -/
structure market_update_t where
  symbol : String
  contract_multiplier : Option ℚ
  underlying_symbol : Option String
  underlying_mid_price : Option ℚ
  updates : List market_update_level_t
deriving DecidableEq, Repr

/-- A message handed by the transport to the session, with the fields the
transport sets on it. -/
inductive market_message_t where
  | request_positions (request_id : String)
  | request_instrument_list (request_id : String)
  | request_mass_status (order_id : String)
  | request_market_data (request_id : String) (symbol : String)
  | send_gtc_order (order_id : String) (symbol : String) (side : side_t)
      (order_price order_volume : ℚ)
  | send_cancel_order (order_id : String) (order_to_cancel : String)
  | send_mass_cancellation_order (order_id : String)
deriving DecidableEq, Repr

/-- State of `class quickfix` as the controller sees it: the two identifier
counters and the messages sent so far, oldest first. -/
structure quickfix where
  m_order_identifier : ℕ
  m_request_identifier : ℕ
  sent : List market_message_t
deriving DecidableEq, Repr

/-- `quickfix::send_gtc_order`: sends a good-till-cancel limit order and
returns its client order id, the decimal form of the order counter. -/
def quickfix.send_gtc_order (self : quickfix) (symbol : String) (order_side : side_t)
    (order_price order_volume : ℚ) : String × quickfix :=
  let order_id := toString self.m_order_identifier
  (order_id,
    { self with
      m_order_identifier := self.m_order_identifier + 1
      sent := self.sent ++
        [market_message_t.send_gtc_order order_id symbol order_side order_price
          order_volume] })

/-- `quickfix::send_cancel_order`. -/
def quickfix.send_cancel_order (self : quickfix) (order_to_cancel : String) : quickfix :=
  let order_id := toString self.m_order_identifier
  { self with
    m_order_identifier := self.m_order_identifier + 1
    sent := self.sent ++ [market_message_t.send_cancel_order order_id order_to_cancel] }

/-- `quickfix::send_mass_cancellation_order`. -/
def quickfix.send_mass_cancellation_order (self : quickfix) : quickfix :=
  let order_id := toString self.m_order_identifier
  { self with
    m_order_identifier := self.m_order_identifier + 1
    sent := self.sent ++ [market_message_t.send_mass_cancellation_order order_id] }

/-- `quickfix::request_positions`. -/
def quickfix.request_positions (self : quickfix) : quickfix :=
  let request_id := toString self.m_request_identifier
  { self with
    m_request_identifier := self.m_request_identifier + 1
    sent := self.sent ++ [market_message_t.request_positions request_id] }

/-- `quickfix::request_instrument_list`. -/
def quickfix.request_instrument_list (self : quickfix) : quickfix :=
  let request_id := toString self.m_request_identifier
  { self with
    m_request_identifier := self.m_request_identifier + 1
    sent := self.sent ++ [market_message_t.request_instrument_list request_id] }

/-- `quickfix::request_mass_status`: the request takes its id from the order
counter. -/
def quickfix.request_mass_status (self : quickfix) : quickfix :=
  let order_id := toString self.m_order_identifier
  { self with
    m_order_identifier := self.m_order_identifier + 1
    sent := self.sent ++ [market_message_t.request_mass_status order_id] }

/-- `quickfix::request_market_data`. -/
def quickfix.request_market_data (self : quickfix) (symbol : String) : quickfix :=
  let request_id := toString self.m_request_identifier
  { self with
    m_request_identifier := self.m_request_identifier + 1
    sent := self.sent ++ [market_message_t.request_market_data request_id symbol] }

/-! ## Strategy controller (`gamma_scalper/gamma_scalper.cpp`) -/

/-- A `double` that may be NaN. -/
inductive double_t where
  | nan
  | finite (value : ℚ)
deriving DecidableEq, Repr

/-- Unary minus of a `double`. -/
def double_t.neg : double_t → double_t
  | double_t.nan => double_t.nan
  | double_t.finite x => double_t.finite (-x)

/-- The sum `a + x` of a finite `a` and a `double`. -/
def double_t.add_to (a : ℚ) : double_t → double_t
  | double_t.nan => double_t.nan
  | double_t.finite x => double_t.finite (a + x)

/-- The difference `a - x` of a finite `a` and a `double`. -/
def double_t.sub_from (a : ℚ) : double_t → double_t
  | double_t.nan => double_t.nan
  | double_t.finite x => double_t.finite (a - x)

/-- The comparison `x > 0`, false on NaN. -/
def double_t.is_positive : double_t → Bool
  | double_t.nan => false
  | double_t.finite x => decide (0 < x)

/-- The comparison `x < 0`, false on NaN. -/
def double_t.is_negative : double_t → Bool
  | double_t.nan => false
  | double_t.finite x => decide (x < 0)

/-- The functions of the pricing kernel and of the C library the controller
calls, with their argument order: `std::exp`,
`black_scholes_implied_volatility (call_or_put, stock_price, strike_price,
time_to_expiration, risk_free_interest, cost_of_carry, option_market_price)`
and `black_scholes_delta (call_or_put, stock_price, strike_price,
risk_free_interest, time_to_expiration, cost_of_carry, volatility)`. -/
structure pricing_t where
  exp : ℚ → ℚ
  black_scholes_implied_volatility :
    option_type_t → ℚ → ℚ → ℚ → ℚ → ℚ → ℚ → Option double_t
  black_scholes_delta : option_type_t → ℚ → ℚ → ℚ → ℚ → ℚ → double_t → double_t

/-- How a callback can fail: an exception thrown by the code, or undefined
behaviour (an absent `optional` dereferenced, an integer out of range). -/
inductive failure_t where
  | runtime_error (message : String)
  | undefined
deriving DecidableEq, Repr

/-- Entry of `m_positions`, `struct position_info`. -/
structure position_info where
  position : position_t
  instrument : instrument_t
deriving DecidableEq, Repr

/-- State of `class gamma_scalper`. The map `m_positions` is an association
list and the set `m_snapshots` a list. -/
structure gamma_scalper where
  m_is_running : Bool
  m_market : quickfix
  m_positions : List (String × position_info)
  m_straddle_call : Option instrument_t
  m_straddle_put : Option instrument_t
  m_future : Option instrument_t
  m_levels : levels
  m_snapshots : List String
  m_delta_future : ℚ
  m_delta_call : ℚ
  m_delta_put : ℚ
  m_order : Option order_t
  m_mass_reports_incoming : ℤ
  m_interest_rate : ℚ
deriving DecidableEq, Repr

/-- Dereference of an `optional`: undefined when absent. -/
def deref {α : Type} : Option α → Except failure_t α
  | none => Except.error failure_t.undefined
  | some a => Except.ok a

/-- `details::get_price`: the mid price when bid and ask are present. -/
def details.get_price (bbo : Option BBO_t) : Option ℚ :=
  match bbo with
  | none => none
  | some bbo =>
    match bbo.ask, bbo.bid with
    | some ask, some bid => some ((ask + bid) * (1 / 2))
    | _, _ => none

/-- `details::get_call_price`: the mid of the call, or the put-call parity
value when only the put has a mid. -/
def details.get_call_price (kernel : pricing_t) (call_bbo put_bbo : Option BBO_t)
    (underlying_price : Option ℚ) (time_to_expiration strike interest_rate : ℚ) :
    Except failure_t (Option ℚ) :=
  match details.get_price call_bbo with
  | some call_price => Except.ok (some call_price)
  | none =>
    match details.get_price put_bbo with
    | none => Except.ok none
    | some put_price => do
      let S ← deref underlying_price
      let P := put_price * S
      let K := strike * kernel.exp (-interest_rate * time_to_expiration)
      Except.ok (some ((P + S - K) / S))

/-- `details::get_put_price`: the mid of the put, or the put-call parity value
when only the call has a mid. -/
def details.get_put_price (kernel : pricing_t) (call_bbo put_bbo : Option BBO_t)
    (underlying_price : Option ℚ) (time_to_expiration strike interest_rate : ℚ) :
    Except failure_t (Option ℚ) :=
  match details.get_price put_bbo with
  | some put_price => Except.ok (some put_price)
  | none =>
    match details.get_price call_bbo with
    | none => Except.ok none
    | some call_price => do
      let S ← deref underlying_price
      let C := call_price * S
      let K := strike * kernel.exp (-interest_rate * time_to_expiration)
      Except.ok (some ((C - S + K) / S))

/-- `details::get_delta`: implied volatility of the option price, then the
delta at that volatility; absent when the volatility is. -/
def details.get_delta (kernel : pricing_t) (call_or_put : option_type_t)
    (stock_price strike_price risk_free_interest time_to_expiration cost_of_carry
      raw_option_price : ℚ) : Option double_t :=
  let option_price := raw_option_price * stock_price
  match kernel.black_scholes_implied_volatility call_or_put stock_price strike_price
      time_to_expiration risk_free_interest cost_of_carry option_price with
  | none => none
  | some implied_volatility =>
    some (kernel.black_scholes_delta call_or_put stock_price strike_price
      risk_free_interest time_to_expiration cost_of_carry implied_volatility)

/-- The delta of a position: `m_positions[symbol]` with the sign of its side.
A symbol without entry gets a default entry, whose instrument has no contract
multiplier. -/
def gamma_scalper.signed_position (self : gamma_scalper) (symbol : String) :
    Except failure_t (ℚ × ℚ) :=
  match self.m_positions.lookup symbol with
  | none => Except.error failure_t.undefined
  | some info => do
    let contract_multiplier ← deref info.instrument.contract_multiplier
    let quantity_sign : ℚ := if info.position.side = side_t.BUY then 1 else -1
    Except.ok (info.position.quantity * quantity_sign, contract_multiplier)

/-- `gamma_scalper::update_deltas`: returns the reason for skipping the cycle,
if any, and the state with the cached deltas updated otherwise. -/
def gamma_scalper.update_deltas (self : gamma_scalper) (kernel : pricing_t)
    (time_to_expiration : ℚ) : Except failure_t (Option String × gamma_scalper) := do
  let future ← deref self.m_future
  match details.get_price future.bbo with
  | none => Except.ok (some "Missing underlying price", self)
  | some underlying_price =>
    let cost_of_carry := self.m_interest_rate
    let straddle_call ← deref self.m_straddle_call
    let straddle_put ← deref self.m_straddle_put
    let strike_price ← deref straddle_call.strike_price
    let call_price ← details.get_call_price kernel straddle_call.bbo straddle_put.bbo
      (some underlying_price) time_to_expiration strike_price self.m_interest_rate
    let put_price ← details.get_put_price kernel straddle_call.bbo straddle_put.bbo
      (some underlying_price) time_to_expiration strike_price self.m_interest_rate
    match call_price, put_price with
    | some call_price, some put_price =>
      let call_price := if call_price < 0 then 0 else call_price
      let put_price := if put_price < 0 then 0 else put_price
      let call_delta := details.get_delta kernel option_type_t.CALL underlying_price
        strike_price self.m_interest_rate time_to_expiration cost_of_carry call_price
      let put_delta := details.get_delta kernel option_type_t.PUT underlying_price
        strike_price self.m_interest_rate time_to_expiration cost_of_carry put_price
      let put_delta := put_delta.map double_t.neg
      let deltas : Option (double_t × double_t) :=
        match call_delta, put_delta with
        | none, none => none
        | none, some put_delta =>
          let put_delta := if put_delta.is_positive then double_t.finite 0 else put_delta
          some (double_t.add_to 1 put_delta, put_delta)
        | some call_delta, none =>
          let call_delta := if call_delta.is_negative then double_t.finite 0 else call_delta
          some (call_delta, double_t.sub_from 1 call_delta)
        | some call_delta, some put_delta => some (call_delta, put_delta)
      match deltas with
      | none => Except.ok (some "Missing both deltas", self)
      | some (double_t.finite call_delta, double_t.finite put_delta) =>
        let (future_quantity, future_multiplier) ← self.signed_position future.symbol
        let m_delta_future := (future_quantity * future_multiplier) / underlying_price
        let (call_quantity, call_multiplier) ← self.signed_position straddle_call.symbol
        let m_delta_call := call_delta * call_quantity * call_multiplier
        let (put_quantity, put_multiplier) ← self.signed_position straddle_put.symbol
        let m_delta_put := put_delta * put_quantity * put_multiplier
        Except.ok (none,
          { self with
            m_delta_future := m_delta_future
            m_delta_call := m_delta_call
            m_delta_put := m_delta_put })
      | some _ => Except.ok (some "Some delta is NaN", self)
    | _, _ => Except.ok (some "Missing prices", self)

/-- `std::round`: the nearest integer, halfway cases away from zero. -/
def round_half_away (x : ℚ) : ℤ :=
  if 0 ≤ x then ⌊x + 1 / 2⌋ else ⌈x - 1 / 2⌉

/-- `static_cast<int>` of a `double`: truncation toward zero, undefined when
the truncated value is not a 32-bit `int`. -/
def static_cast_int (x : ℚ) : Option ℤ :=
  let truncated : ℤ := if 0 ≤ x then ⌊x⌋ else ⌈x⌉
  if -2147483648 ≤ truncated ∧ truncated ≤ 2147483647 then some truncated else none

/-- `std::abs` of an `int`: undefined at the least `int`. -/
def abs_int (x : ℤ) : Option ℤ :=
  if x = -2147483648 then none else some |x|

/-- The hedge size computed by `evaluate`:
`static_cast<int>((static_cast<int>(std::round(total_delta / delta_per_future))
/ contract_multiplier) * contract_multiplier)`, the contract multiplier being a
`double`. The quotient by the contract multiplier and the product are rounded
to `double`: the conversion to `int` truncates, so that a product rounded below
the integer costs a whole unit of the hedge size. When `delta_per_future` is 0
in the model, the contract multiplier or the mid of the future is 0: the
floating-point quotient is then infinite or NaN and its conversion to `int`
undefined. -/
def corrections_todo (total_delta delta_per_future contract_multiplier : ℚ) : Option ℤ :=
  if delta_per_future = 0 then none
  else
    (static_cast_int (round_half_away (total_delta / delta_per_future))).bind fun raw =>
      static_cast_int
        (to_double (to_double ((raw : ℚ) / contract_multiplier) * contract_multiplier))

/-- First part of `gamma_scalper::evaluate`: the time to expiration, the update
of the deltas and the hedge size. Returns the state and the hedge size, absent
when the cycle is skipped. The current date is an input. -/
def gamma_scalper.evaluate_corrections (self : gamma_scalper) (kernel : pricing_t)
    (now : ptime) : Except failure_t (gamma_scalper × Option ℤ) := do
  let straddle_call ← deref self.m_straddle_call
  let maturity_date ← deref straddle_call.maturity_date
  let time_to_expiration : ℚ := ((maturity_date.date - now.date : ℤ) : ℚ) / 360
  if time_to_expiration < 0 then
    Except.error
      (failure_t.runtime_error "Straddles maturity was reached, stopping strategy")
  else
    match ← self.update_deltas kernel time_to_expiration with
    | (some _, skipped) => Except.ok (skipped, none)
    | (none, updated) =>
      let total_delta := updated.m_delta_put + updated.m_delta_call + updated.m_delta_future
      let future ← deref updated.m_future
      let contract_multiplier ← deref future.contract_multiplier
      let underlying_price ← deref (details.get_price future.bbo)
      let delta_per_future := contract_multiplier / underlying_price
      let corrections ←
        deref (corrections_todo total_delta delta_per_future contract_multiplier)
      Except.ok (updated, some corrections)

/-- Second part of `gamma_scalper::evaluate`, from `if (corrections_todo != 0)`
on: the reconciliation with the working order and the placement of the hedge
order. -/
def gamma_scalper.evaluate_order (self : gamma_scalper) (corrections_todo : ℤ) :
    Except failure_t gamma_scalper :=
  if corrections_todo ≠ 0 then
    let side := if corrections_todo < 0 then side_t.BUY else side_t.SELL
    match self.m_order with
    | some order =>
      if order.side ≠ side then
        Except.ok { self with m_market := self.m_market.send_cancel_order order.id }
      else Except.ok self
    | none => do
      let future ← deref self.m_future
      let price_to_use ← deref (self.m_levels.get_price_to_use side future)
      let size ← deref (abs_int corrections_todo)
      let volume_to_use := self.m_levels.get_volume_to_use side size
      let (order_id, market) :=
        self.m_market.send_gtc_order future.symbol side price_to_use volume_to_use
      Except.ok
        { self with
          m_market := market
          m_order := some
            { id := ""
              original_id := order_id
              side := side
              order_price := price_to_use
              full_volume := 0
              open_volume := volume_to_use } }
  else Except.ok self

/-- `gamma_scalper::evaluate`. -/
def gamma_scalper.evaluate (self : gamma_scalper) (kernel : pricing_t) (now : ptime) :
    Except failure_t gamma_scalper := do
  match ← self.evaluate_corrections kernel now with
  | (skipped, none) => Except.ok skipped
  | (updated, some corrections) => updated.evaluate_order corrections

/-! ## Callbacks of the controller (`gamma_scalper/gamma_scalper.cpp`) -/

/-- A fatal failure of a callback: what failed, and the state of the controller
when the callback is left (not meaningful after undefined behaviour). -/
structure fatal_t where
  failure : failure_t
  state : gamma_scalper
deriving DecidableEq, Repr

/-- `gamma_scalper::report_error`: prints the report, which dereferences
`m_straddle_call`, and throws `std::runtime_error`. -/
def gamma_scalper.report_error (self : gamma_scalper) (message : String) : fatal_t :=
  { failure :=
      if self.m_straddle_call.isSome then failure_t.runtime_error message
      else failure_t.undefined
    state := self }

/-- Dereference of an `optional` inside a callback. -/
def gamma_scalper.deref {α : Type} (self : gamma_scalper) :
    Option α → Except fatal_t α
  | none => Except.error { failure := failure_t.undefined, state := self }
  | some a => Except.ok a

/-- The constructor `gamma_scalper::gamma_scalper`, given the content of the
auxiliary folder and the values of `PriceSweetener` and `InterestRate`. -/
def gamma_scalper.create (levels_file : List level_line_t) (pnl_file : ℚ)
    (pnl_log : List pnl_entry_t) (price_sweetener interest_rate : ℚ) :
    Option gamma_scalper :=
  (levels.create levels_file pnl_file pnl_log price_sweetener).map fun m_levels =>
    { m_is_running := false
      m_market := { m_order_identifier := 0, m_request_identifier := 0, sent := [] }
      m_positions := []
      m_straddle_call := none
      m_straddle_put := none
      m_future := none
      m_levels := m_levels
      m_snapshots := []
      m_delta_future := 0
      m_delta_call := 0
      m_delta_put := 0
      m_order := none
      m_mass_reports_incoming := 0
      m_interest_rate := interest_rate }

/-- `gamma_scalper::on_logon`. -/
def gamma_scalper.on_logon (self : gamma_scalper) : gamma_scalper :=
  { self with m_market := self.m_market.request_positions }

/-- `gamma_scalper::on_logout`: clears the running flag and wakes the main
thread. -/
def gamma_scalper.on_logout (self : gamma_scalper) : gamma_scalper :=
  { self with m_is_running := false }

/-- `gamma_scalper::cancel_all_orders`. -/
def gamma_scalper.cancel_all_orders (self : gamma_scalper) : gamma_scalper :=
  match self.m_order with
  | none => self
  | some _ =>
    { self with
      m_market := self.m_market.send_mass_cancellation_order
      m_order := none }

/-- The three calls `m_market->request_market_data` for the symbols of the
future, the call and the put, in this order. -/
def gamma_scalper.request_market_data (self : gamma_scalper) :
    Except fatal_t gamma_scalper := do
  let future ← self.deref self.m_future
  let straddle_call ← self.deref self.m_straddle_call
  let straddle_put ← self.deref self.m_straddle_put
  Except.ok
    { self with
      m_market :=
        ((self.m_market.request_market_data future.symbol).request_market_data
          straddle_call.symbol).request_market_data straddle_put.symbol }

/-- `gamma_scalper::on_mass_status_report`. -/
def gamma_scalper.on_mass_status_report (self : gamma_scalper) (report_number : ℤ) :
    Except fatal_t gamma_scalper :=
  if report_number > 1 then
    Except.error
      (self.report_error
        ("We're expecting to have maximun 1 open orders. We are getting " ++
          toString report_number ++
          " which is not allowed. Exiting before something goes wrong"))
  else
    let counted := { self with m_mass_reports_incoming := report_number }
    if report_number = 0 then counted.request_market_data else Except.ok counted

/-- A value-initialised `instrument_t`: empty strings and absent optionals. -/
def instrument_t.empty : instrument_t :=
  { symbol := "", description := "", type := "", main_currency := "",
    contract_multiplier := none, put_call := none, strike_price := none,
    strike_currency := none, maturity_date := none, min_trade_volume := none,
    tick_size := none, bbo := none }

/-- The assignment `m_positions[symbol].position = position`: the entry of the
symbol is created, with an empty instrument, when there is none. -/
def set_position (positions : List (String × position_info)) (symbol : String)
    (position : position_t) : List (String × position_info) :=
  match positions with
  | [] => [(symbol, { position := position, instrument := instrument_t.empty })]
  | (key, info) :: rest =>
    if key = symbol then (key, { info with position := position }) :: rest
    else (key, info) :: set_position rest symbol position

/-- The assignments `m_positions[symbol].instrument = instrument` and
`m_positions[symbol].position = position` together. -/
def set_position_info (positions : List (String × position_info)) (symbol : String)
    (info : position_info) : List (String × position_info) :=
  match positions with
  | [] => [(symbol, info)]
  | (key, old) :: rest =>
    if key = symbol then (key, info) :: rest
    else (key, old) :: set_position_info rest symbol info

/-- `gamma_scalper::on_message(optional<positions_list_t>)`. -/
def gamma_scalper.on_message_positions (self : gamma_scalper)
    (positions : Option (List position_t)) : Except fatal_t gamma_scalper :=
  let cleared := { self with m_positions := [] }
  match positions with
  | none => Except.error (cleared.report_error "No positions retrieved. Stopping strategy")
  | some positions =>
    Except.ok
      { cleared with
        m_positions :=
          positions.foldl (fun filled position =>
            set_position filled position.symbol position) []
        m_market := cleared.m_market.request_instrument_list }

/-- An order in which a loop visits the entries of the unordered map
`m_positions`: the standard library leaves it unspecified, so that it is any
rearrangement of the entries. -/
def is_visiting_order
    (visit : List (String × position_info) → List (String × position_info)) : Prop :=
  ∀ positions, (visit positions).Perm positions

/-- The loop of `on_message(optional<instruments_list_t>)` over `m_positions`:
each position gets its instrument, which becomes the call, the put or the
future of the strategy. `done` holds the entries already visited and the last
argument the entries still to visit, in the order in which the loop visits
them. -/
def gamma_scalper.attach_instruments (instruments : List instrument_t) :
    gamma_scalper → List (String × position_info) → List (String × position_info) →
      Except fatal_t gamma_scalper
  | self, done, [] => Except.ok { self with m_positions := done }
  | self, done, (symbol, info) :: rest =>
    match instruments.find? (fun instrument => instrument.symbol == symbol) with
    | none =>
      Except.error
        (({ self with m_positions := done ++ (symbol, info) :: rest }).report_error
          ("There's no instrument information for instrument's position" ++ symbol ++
            ". Exiting before something goes wrong"))
    | some instrument =>
      let visited := done ++ [(symbol, { info with instrument := instrument })]
      if instrument.type = "OPT" then
        match instrument.put_call with
        | none =>
          Except.error
            { failure := failure_t.undefined
              state := { self with m_positions := visited ++ rest } }
        | some put_call =>
          if put_call = option_type_t.CALL then
            gamma_scalper.attach_instruments instruments
              { self with m_straddle_call := some instrument } visited rest
          else
            gamma_scalper.attach_instruments instruments
              { self with m_straddle_put := some instrument } visited rest
      else
        gamma_scalper.attach_instruments instruments
          { self with m_future := some instrument } visited rest

/-- The search of the hedge instrument in `on_message(instruments)` when no
position is on a future: the instrument named by the first 11 characters of the
call symbol, else the perpetual of the first 3 characters. -/
def gamma_scalper.find_future (self : gamma_scalper) (instruments : List instrument_t)
    (straddle_call : instrument_t) : Except fatal_t instrument_t :=
  let future_symbol := straddle_call.symbol.take 11
  match instruments.find? (fun instrument => instrument.symbol == future_symbol) with
  | some fitting_future => Except.ok fitting_future
  | none =>
    let perpetual_symbol := future_symbol.take 3 ++ "-PERPETUAL"
    match instruments.find? (fun instrument => instrument.symbol == perpetual_symbol) with
    | some perpetual => Except.ok perpetual
    | none =>
      Except.error
        (self.report_error
          ("Impossible to find the Perpetual (" ++ perpetual_symbol ++
            "). Exiting before something wrong happens"))

/-- `gamma_scalper::on_message(optional<instruments_list_t>)`. The loop over
`m_positions` visits an unordered map: `visit` gives the order of the visit, an
input of the callback like the date of `evaluate`. -/
def gamma_scalper.on_message_instruments (self : gamma_scalper)
    (visit : List (String × position_info) → List (String × position_info))
    (instruments : Option (List instrument_t)) : Except fatal_t gamma_scalper :=
  match instruments with
  | none =>
    Except.error
      (self.report_error
        ("No instruments where retrieved. This is not a what " ++
          "is supposed to happen. Exiting before something goes wrong"))
  | some instruments => do
    let attached ←
      gamma_scalper.attach_instruments instruments self [] (visit self.m_positions)
    match attached.m_straddle_call, attached.m_straddle_put with
    | some straddle_call, some straddle_put =>
      if straddle_call.main_currency ≠ straddle_put.main_currency ∨
          straddle_call.maturity_date ≠ straddle_put.maturity_date ∨
          straddle_call.strike_price ≠ straddle_put.strike_price then
        Except.error
          (attached.report_error
            ("The straddle is not correct. " ++ straddle_call.symbol ++ " and " ++
              straddle_put.symbol ++ " are not allowed to be together"))
      else
        match attached.m_future with
        | some _ =>
          Except.ok { attached with m_market := attached.m_market.request_mass_status }
        | none => do
          let future ← attached.find_future instruments straddle_call
          Except.ok
            { attached with
              m_future := some future
              m_positions :=
                set_position_info attached.m_positions future.symbol
                  { instrument := future
                    position :=
                      { symbol := future.symbol, quantity := 0, side := side_t.BUY,
                        settlement_price := 0, underlying_end_price := 0 } }
              m_market := attached.m_market.request_mass_status }
    | _, _ =>
      Except.error
        (attached.report_error
          ("After getting the instrument list, impossible to determine the " ++
            "straddle. This should never happen!"))

/-- `details::update_filled_volume`: the order takes the cumulative executed
volume of the report and the report is left with the increment. -/
def details.update_filled_volume (order : order_t) (report : execution_report_t) :
    Option (order_t × execution_report_t) :=
  match report.executed_volume with
  | none => none
  | some executed_volume =>
    let filled := executed_volume - order.full_volume
    some ({ order with full_volume := executed_volume },
      { report with executed_volume := some filled })

/-- `gamma_scalper::update_position`, called with a report that has a
symbol. -/
def gamma_scalper.update_position (self : gamma_scalper) (report : execution_report_t) :
    Except fatal_t gamma_scalper := do
  let symbol ← self.deref report.symbol
  match self.m_positions.lookup symbol, report.average_execution_price, report.side,
      report.executed_volume with
  | some info, some average_execution_price, some side, some executed_volume =>
    let filled_volume := if side = side_t.BUY then executed_volume else -executed_volume
    let signed_quantity :=
      if info.position.side = side_t.BUY then info.position.quantity
      else -info.position.quantity
    let new_quantity := signed_quantity + filled_volume
    let future ← self.deref self.m_future
    let underlying_price ← self.deref (details.get_price future.bbo)
    let position : position_t :=
      { info.position with
        quantity := |new_quantity|
        side := if new_quantity ≥ 0 then side_t.BUY else side_t.SELL
        settlement_price := average_execution_price
        underlying_end_price := underlying_price }
    let updated := { self with m_positions := set_position self.m_positions symbol position }
    let m_levels ← updated.deref
      (updated.m_levels.update_levels executed_volume average_execution_price side future)
    Except.ok { updated with m_levels := m_levels }
  | _, _, _, _ => Except.ok self

/-- The test of `on_message(execution_report_t)` for a report of an order sent
by the strategy: the working order when the report carries its id or its
original id. -/
def gamma_scalper.matching_order (self : gamma_scalper) (report : execution_report_t) :
    Option order_t :=
  match self.m_order with
  | none => none
  | some order =>
    if report.order_id = some order.id ∨
        report.original_order_id = some order.original_id then some order
    else none

/-- `gamma_scalper::on_message(execution_report_t)`. -/
def gamma_scalper.on_message_execution_report (self : gamma_scalper)
    (report : execution_report_t) : Except fatal_t gamma_scalper :=
  if self.m_mass_reports_incoming > 0 then do
    let id ← self.deref report.order_id
    let original_id ← self.deref report.original_order_id
    let side ← self.deref report.side
    let order_price ← self.deref report.order_price
    let full_volume ← self.deref report.executed_volume
    let open_volume ← self.deref report.open_volume
    let recovered :=
      { self with
        m_order := some
          { id := id, original_id := original_id, side := side, order_price := order_price,
            full_volume := full_volume, open_volume := open_volume }
        m_mass_reports_incoming := self.m_mass_reports_incoming - 1 }
    if recovered.m_mass_reports_incoming = 0 then recovered.request_market_data
    else Except.ok recovered
  else
    match report.symbol with
    | none => Except.ok self
    | some _ =>
      match self.matching_order report with
      | some order => do
        let order_status ← self.deref report.order_status
        match order_status with
        | order_status_t.FILLED =>
          let (filled_order, increment) ←
            self.deref (details.update_filled_volume order report)
          let updated ←
            gamma_scalper.update_position { self with m_order := some filled_order }
              increment
          Except.ok { updated with m_order := none }
        | order_status_t.CANCELED => Except.ok { self with m_order := none }
        | order_status_t.REJECTED => Except.ok { self with m_order := none }
        | order_status_t.PARTIAL =>
          let id ← self.deref report.order_id
          let renamed := { self with m_order := some { order with id := id } }
          let (filled_order, increment) ←
            renamed.deref (details.update_filled_volume { order with id := id } report)
          gamma_scalper.update_position { self with m_order := some filled_order }
            increment
        | order_status_t.NEW =>
          let id ← self.deref report.order_id
          Except.ok { self with m_order := some { order with id := id } }
      | none => do
        let order_status ← self.deref report.order_status
        match order_status with
        | order_status_t.FILLED => self.update_position report
        | order_status_t.PARTIAL => self.update_position report
        | _ => Except.ok self

/-- The BBO that `on_message(market_update_t)` builds from the entries of an
update: each entry sets the price and volume of its side. -/
def target_bbo (updates : List market_update_level_t) : BBO_t :=
  updates.foldl
    (fun bbo update_component =>
      if update_component.side = market_side_t.BID then
        { bbo with
          bid_volume := some update_component.level_volume
          bid := some update_component.level_price }
      else
        { bbo with
          ask_volume := some update_component.level_volume
          ask := some update_component.level_price })
    { bid_volume := none, bid := none, ask := none, ask_volume := none }

/-- The part of `on_message(market_update_t)` that attaches the BBO to the
future, the call or the put by symbol; absent when the update is for another
symbol. -/
def gamma_scalper.attach_bbo (self : gamma_scalper) (update : market_update_t) :
    Except fatal_t (Option gamma_scalper) := do
  let future ← self.deref self.m_future
  if update.symbol = future.symbol then
    Except.ok
      (some { self with m_future := some { future with bbo := some (target_bbo update.updates) } })
  else
    let straddle_call ← self.deref self.m_straddle_call
    if update.symbol = straddle_call.symbol then
      Except.ok
        (some
          { self with
            m_straddle_call :=
              some { straddle_call with bbo := some (target_bbo update.updates) } })
    else
      let straddle_put ← self.deref self.m_straddle_put
      if update.symbol = straddle_put.symbol then
        Except.ok
          (some
            { self with
              m_straddle_put :=
                some { straddle_put with bbo := some (target_bbo update.updates) } })
      else Except.ok none

/-- The call of `evaluate` from a callback: a failure leaves the callback with
the state at the call. -/
def gamma_scalper.call_evaluate (self : gamma_scalper) (kernel : pricing_t) (now : ptime) :
    Except fatal_t gamma_scalper :=
  match self.evaluate kernel now with
  | Except.ok evaluated => Except.ok evaluated
  | Except.error failure => Except.error { failure := failure, state := self }

/-- `gamma_scalper::on_message(market_update_t)`. The set `m_snapshots` is a
list without repetition. -/
def gamma_scalper.on_message_market_update (self : gamma_scalper) (kernel : pricing_t)
    (now : ptime) (update : market_update_t) : Except fatal_t gamma_scalper :=
  if update.updates.length > 2 then
    Except.error
      (self.report_error "Received an bbo with more than two legs. This is wrong")
  else do
    match ← self.attach_bbo update with
    | none => Except.ok self
    | some attached =>
      if attached.m_snapshots.length < 3 then
        let counted :=
          { attached with
            m_snapshots :=
              if update.symbol ∈ attached.m_snapshots then attached.m_snapshots
              else attached.m_snapshots ++ [update.symbol] }
        if counted.m_snapshots.length < 3 then Except.ok counted
        else counted.call_evaluate kernel now
      else attached.call_evaluate kernel now

/-- A callback of `quickfix_user` received by the controller; `other` stands
for the callbacks `gamma_scalper` does not override (mass cancel report, cancel
reject, text). A market update comes with the date read by `evaluate`, and an
instrument list with the order in which the loop of the callback visits the
positions. -/
inductive callback_t where
  | on_logon
  | on_logout
  | on_mass_status_report (report_number : ℤ)
  | on_message_instruments
      (visit : List (String × position_info) → List (String × position_info))
      (instruments : Option (List instrument_t))
  | on_message_positions (positions : Option (List position_t))
  | on_message_execution_report (report : execution_report_t)
  | on_message_market_update (update : market_update_t) (now : ptime)
  | other

/-- The controller after one callback. -/
def gamma_scalper.deliver (self : gamma_scalper) (kernel : pricing_t) :
    callback_t → Except fatal_t gamma_scalper
  | callback_t.on_logon => Except.ok self.on_logon
  | callback_t.on_logout => Except.ok self.on_logout
  | callback_t.on_mass_status_report report_number =>
    self.on_mass_status_report report_number
  | callback_t.on_message_instruments visit instruments =>
    self.on_message_instruments visit instruments
  | callback_t.on_message_positions positions => self.on_message_positions positions
  | callback_t.on_message_execution_report report =>
    self.on_message_execution_report report
  | callback_t.on_message_market_update update now =>
    self.on_message_market_update kernel now update
  | callback_t.other => Except.ok self

/-- The controller after a sequence of callbacks; a fatal failure ends the
run. -/
def gamma_scalper.run_callbacks (self : gamma_scalper) (kernel : pricing_t) :
    List callback_t → Except fatal_t gamma_scalper
  | [] => Except.ok self
  | callback :: callbacks =>
    match self.deliver kernel callback with
    | Except.error fatal => Except.error fatal
    | Except.ok next => next.run_callbacks kernel callbacks

/-! ## Notions used to state the properties of the controller -/

/-- A message is a new order (`send_gtc_order`). -/
def is_gtc_order : market_message_t → Bool
  | market_message_t.send_gtc_order _ _ _ _ _ => true
  | _ => false

/-- A message is a cancel request (`send_cancel_order`). -/
def is_cancel_order : market_message_t → Bool
  | market_message_t.send_cancel_order _ _ => true
  | _ => false

/-! ## Notions used to state the properties of the levels book -/

/-- The entry `store_pnl` appends to the PnL log for a pairing, given the
contract multiplier of the future. -/
def pnl_entry (front_price report_price : ℚ) (report_side : side_t)
    (raw_paired_volume contract_multiplier : ℚ) : pnl_entry_t :=
  { paired_volume := raw_paired_volume * contract_multiplier
    front_price := front_price
    top_value :=
      if report_side = side_t.SELL then raw_paired_volume * contract_multiplier / front_price
      else -(raw_paired_volume * contract_multiplier / front_price)
    report_price := report_price
    report_value :=
      if report_side = side_t.SELL then -(raw_paired_volume * contract_multiplier / report_price)
      else raw_paired_volume * contract_multiplier / report_price
    report_side := report_side
    calculated_pnl :=
      (if report_side = side_t.SELL then
          -(raw_paired_volume * contract_multiplier / report_price)
        else raw_paired_volume * contract_multiplier / report_price) +
        (if report_side = side_t.SELL then
          raw_paired_volume * contract_multiplier / front_price
        else -(raw_paired_volume * contract_multiplier / front_price)) }

/-- The effect of one `store_pnl` on the PnL files: the entry is added to the
running total, written with six digits, and appended to the log. -/
def levels.add_pnl (self : levels) (entry : pnl_entry_t) : levels :=
  { self with
    pnl_file := print_double (self.pnl_file + entry.calculated_pnl)
    pnl_log := self.pnl_log ++ [entry] }

/-- All the entries of a stack have the same side. -/
def homogeneous (l : List level_t) : Prop :=
  ∀ a ∈ l, ∀ b ∈ l, a.side = b.side

instance (l : List level_t) : Decidable (homogeneous l) := by
  unfold homogeneous; infer_instance

/-- A fill handed to `update_levels`: volume, price and side. -/
structure fill_t where
  volume : ℚ
  price : ℚ
  side : side_t
deriving DecidableEq, Repr

/-- A sequence of `update_levels` calls, one per fill, in order. -/
def levels.update_levels_seq (self : levels) (future : instrument_t) :
    List fill_t → Option levels
  | [] => some self
  | fill :: fills =>
    (self.update_levels fill.volume fill.price fill.side future).bind fun next =>
      next.update_levels_seq future fills

/-- Signed volume of a fill: a BUY counts `+volume`, a SELL counts `-volume`. -/
def signed_volume (fill : fill_t) : ℚ :=
  if fill.side = side_t.BUY then fill.volume else -fill.volume

/-- Signed sum of the volumes of a sequence of fills. -/
def net_volume (fills : List fill_t) : ℚ :=
  (fills.map signed_volume).sum

/-- A pairing of an incoming fill with one level: the paired volume, the price
of the BUY and the price of the SELL. -/
structure pairing_t where
  paired : ℚ
  buy_price : ℚ
  sell_price : ℚ
deriving DecidableEq, Repr

/-- The levels paired by a fill `(v, p, s)`, in the words of the specification:
while the front has the opposite side, `paired = min (front volume) (remaining
incoming volume)`, and the next level is paired with what remains only when the
incoming volume exceeds the front. -/
def pairings (p : ℚ) (s : side_t) : List level_t → ℚ → List pairing_t
  | [], _ => []
  | front :: rest, v =>
    if front.side = s then []
    else
      { paired := min front.volume v
        buy_price := if s = side_t.BUY then p else front.price
        sell_price := if s = side_t.BUY then front.price else p } ::
        (if front.volume < v then pairings p s rest (v - front.volume) else [])

/-- The PnL the specification assigns to a list of pairings:
the sum of `paired * contract_multiplier * (1/buy_price - 1/sell_price)`. -/
def paired_pnl (contract_multiplier : ℚ) (l : List pairing_t) : ℚ :=
  (l.map fun x => x.paired * contract_multiplier * (1 / x.buy_price - 1 / x.sell_price)).sum

/-- The price `price_to_use` of the specification, for a future whose bid, ask
and contract multiplier are present. -/
def price_to_use_reference (l : List level_t) (sweetener : ℚ) (side : side_t)
    (bid ask contract_multiplier : ℚ) : ℚ :=
  match l with
  | [] => if side = side_t.BUY then bid else ask
  | front :: _ =>
    if side = side_t.BUY then min bid (front.price - contract_multiplier * sweetener)
    else max ask (front.price + contract_multiplier * sweetener)

/-- A perpetual future with contract multiplier 10 and the given best bid and
ask, used to evaluate the definitions on concrete inputs. -/
def perpetual (bid ask : ℚ) : instrument_t :=
  { symbol := "BTC-PERPETUAL", description := "", type := "PERP", main_currency := "BTC",
    contract_multiplier := some 10, put_call := none, strike_price := none,
    strike_currency := none, maturity_date := none, min_trade_volume := none,
    tick_size := none,
    bbo := some { bid_volume := some 1, bid := some bid, ask := some ask, ask_volume := some 1 } }

/-- A levels book holding the given stack, with the levels file that stores it
and empty PnL files. -/
def levels_of (stack : List level_t) (sweetener : ℚ) : levels :=
  { m_levels := stack, m_price_sweetener := sweetener,
    levels_file := stack.map level_t.to_line, pnl_file := 0, pnl_log := [] }

/-- A pricing kernel that answers every request with the volatility 1/2 and
with the given deltas, used to evaluate the controller on concrete inputs. -/
def constant_kernel (call_delta put_delta : ℚ) : pricing_t :=
  { exp := fun _ => 1
    black_scholes_implied_volatility := fun _ _ _ _ _ _ _ => some (double_t.finite (1 / 2))
    black_scholes_delta := fun call_or_put _ _ _ _ _ _ =>
      double_t.finite (if call_or_put = option_type_t.CALL then call_delta else put_delta) }

/-- An option of the straddle of the end-to-end scenarios: strike 3500,
maturity on day 30, contract multiplier 10, market 0.10 / 0.12. -/
def straddle_option (symbol : String) (put_call : option_type_t) : instrument_t :=
  { symbol := symbol, description := "", type := "OPT", main_currency := "BTC",
    contract_multiplier := some 10, put_call := some put_call, strike_price := some 3500,
    strike_currency := some "USD", maturity_date := some { date := 30, time_of_day := 0 },
    min_trade_volume := none, tick_size := none,
    bbo := some { bid_volume := some 1, bid := some (1 / 10), ask := some (3 / 25),
                  ask_volume := some 1 } }

/-- The controller in steady state for the end-to-end scenarios: long one call
and one put, flat on the future, with the given market of the future, working
order and levels stack. -/
def straddle_state (bid ask : ℚ) (order : Option order_t) (stack : List level_t) :
    gamma_scalper :=
  { m_is_running := true
    m_market := { m_order_identifier := 0, m_request_identifier := 3, sent := [] }
    m_positions :=
      [("BTC-PERPETUAL",
          { position := { symbol := "BTC-PERPETUAL", quantity := 0, side := side_t.BUY,
                          settlement_price := 0, underlying_end_price := 0 }
            instrument := perpetual bid ask }),
        ("BTC-C",
          { position := { symbol := "BTC-C", quantity := 1, side := side_t.BUY,
                          settlement_price := 0, underlying_end_price := 0 }
            instrument := straddle_option "BTC-C" option_type_t.CALL }),
        ("BTC-P",
          { position := { symbol := "BTC-P", quantity := 1, side := side_t.BUY,
                          settlement_price := 0, underlying_end_price := 0 }
            instrument := straddle_option "BTC-P" option_type_t.PUT })]
    m_straddle_call := some (straddle_option "BTC-C" option_type_t.CALL)
    m_straddle_put := some (straddle_option "BTC-P" option_type_t.PUT)
    m_future := some (perpetual bid ask)
    m_levels := levels_of stack (1 / 2)
    m_snapshots := ["BTC-PERPETUAL", "BTC-C", "BTC-P"]
    m_delta_future := 0
    m_delta_call := 0
    m_delta_put := 0
    m_order := order
    m_mass_reports_incoming := 0
    m_interest_rate := 0 }

/-- The working order of scenario 5: a BUY of 50. -/
def working_buy : order_t :=
  { id := "7", original_id := "7", side := side_t.BUY, order_price := 3590,
    full_volume := 0, open_volume := 50 }

/-- The state of scenario 5 before the future has a market. -/
def no_market_state : gamma_scalper :=
  { straddle_state 3599 3601 (some working_buy) [] with
    m_future := some { perpetual 3599 3601 with bbo := none } }

/-! ## Notions used to state the properties of the execution reports -/

/-- The controller after a sequence of execution reports; a fatal failure ends
the run. -/
def gamma_scalper.run_reports (self : gamma_scalper) :
    List execution_report_t → Except fatal_t gamma_scalper
  | [] => Except.ok self
  | report :: reports =>
    match self.on_message_execution_report report with
    | Except.error fatal => Except.error fatal
    | Except.ok next => next.run_reports reports

/-- The quantity of a position with the sign of its side, BUY positive and SELL
negative: the `signed_quantity` of `update_position`. -/
def position_t.signed_quantity (position : position_t) : ℚ :=
  if position.side = side_t.BUY then position.quantity else -position.quantity

/-- The reports of the fills of one working order on `symbol`: PARTIAL reports
followed by one FILLED report, each matching the order (whose id is `id` when the
report arrives, a PARTIAL report giving the order its own order id) and carrying
the symbol, the side, an average execution price and a cumulative executed
volume. -/
def fill_reports (symbol : String) (side : side_t) (original_id : String) :
    String → List execution_report_t → Prop
  | _, [] => False
  | id, report :: rest =>
    report.symbol = some symbol ∧ report.side = some side ∧
      (report.order_id = some id ∨ report.original_order_id = some original_id) ∧
      report.average_execution_price.isSome ∧ report.executed_volume.isSome ∧
      if rest = [] then report.order_status = some order_status_t.FILLED
      else
        report.order_status = some order_status_t.PARTIAL ∧
          ∃ new_id, report.order_id = some new_id ∧
            fill_reports symbol side original_id new_id rest

/-- The fills that a sequence of reports with cumulative executed volumes stands
for: each report counts for the increment of its cumulative volume over the one
of the report before it (over `previous` for the first), at its average
execution price. -/
def increments (previous : ℚ) : List execution_report_t → List fill_t
  | [] => []
  | report :: rest =>
    match report.executed_volume, report.average_execution_price, report.side with
    | some cumulative, some price, some side =>
      { volume := cumulative - previous, price := price, side := side } ::
        increments cumulative rest
    | _, _, _ => increments previous rest

/-- The cumulative executed volume of the last report that carries one, and
`previous` when there is none. -/
def last_cumulative (previous : ℚ) : List execution_report_t → ℚ
  | [] => previous
  | report :: rest =>
    match report.executed_volume with
    | some cumulative => last_cumulative cumulative rest
    | none => last_cumulative previous rest

/-- A report of the working order of scenario 5, filled at its price up to the
given cumulative executed volume. -/
def working_buy_report (status : order_status_t) (executed_volume : ℚ) :
    execution_report_t :=
  { order_id := some "7", original_order_id := some "7", order_status := some status,
    side := some side_t.BUY, transaction_time := none,
    open_volume := some (50 - executed_volume), executed_volume := some executed_volume,
    order_volume := some 50, order_type := some order_type_t.LIMIT, reject_reason := none,
    symbol := some "BTC-PERPETUAL", order_price := some 3590, volume_type := none,
    contract_multiplier := none, average_execution_price := some 3590,
    maximun_show_volume := none, implied_volatility := none, pegged_price := none,
    mass_status_request_type := none, mass_status_report_number := none }

/-! ## Notions used to state the properties of the start of a run -/

/-- The call of a straddle listed with the symbols of the exchange. -/
def listed_call : instrument_t :=
  straddle_option "BTC-28JUN19-3500-C" option_type_t.CALL

/-- The put of a straddle listed with the symbols of the exchange. -/
def listed_put : instrument_t :=
  straddle_option "BTC-28JUN19-3500-P" option_type_t.PUT

/-- A position of the given quantity, bought, on the given symbol. -/
def long_position (symbol : String) (quantity : ℚ) : position_t :=
  { symbol := symbol, quantity := quantity, side := side_t.BUY, settlement_price := 0,
    underlying_end_price := 0 }

/-! ## Notions used to state the properties of the market-data ticks -/

/-- The hedge size decided by the `evaluate` cycle that a market update runs on
a controller that has the three snapshots: absent when the update is ignored or
undefined and when the cycle is skipped or fails. -/
def gamma_scalper.tick_decision (self : gamma_scalper) (kernel : pricing_t) (now : ptime)
    (update : market_update_t) : Option ℤ :=
  match self.attach_bbo update with
  | Except.ok (some attached) =>
    match attached.evaluate_corrections kernel now with
    | Except.ok (_, decision) => decision
    | Except.error _ => none
  | _ => none

/-- The callbacks of a sequence of market-data ticks, each an update with the
date read by its cycle. -/
def tick_callbacks (ticks : List (market_update_t × ptime)) : List callback_t :=
  ticks.map fun tick => callback_t.on_message_market_update tick.1 tick.2

/-- Every tick of the sequence, delivered in order from the given state, has at
most two entries and yields a hedge decision that is not 0 and whose side is
not the side of the order. -/
def opposite_ticks (kernel : pricing_t) (order : order_t) :
    gamma_scalper → List (market_update_t × ptime) → Prop
  | _, [] => True
  | self, tick :: ticks =>
    tick.1.updates.length ≤ 2 ∧
      (∃ corrections, self.tick_decision kernel tick.2 tick.1 = some corrections ∧
        corrections ≠ 0 ∧
        order.side ≠ (if corrections < 0 then side_t.BUY else side_t.SELL)) ∧
      ∀ next, self.on_message_market_update kernel tick.2 tick.1 = Except.ok next →
        opposite_ticks kernel order next ticks

/-- A market update of the perpetual: one bid and one ask of volume 1. -/
def perpetual_tick (bid ask : ℚ) : market_update_t :=
  { symbol := "BTC-PERPETUAL", contract_multiplier := none, underlying_symbol := none,
    underlying_mid_price := none,
    updates :=
      [{ update_type := market_update_action_t.NEW, side := market_side_t.BID,
         level_volume := 1, level_price := bid },
        { update_type := market_update_action_t.NEW, side := market_side_t.ASK,
          level_volume := 1, level_price := ask }] }

/-! ## Notions used to state the warmup gate -/

/-- The symbol is the symbol of the future, of the call or of the put of the
controller: the test that `on_message(market_update_t)` makes on an update. -/
def gamma_scalper.follows (self : gamma_scalper) (symbol : String) : Prop :=
  self.m_future.map instrument_t.symbol = some symbol ∨
    self.m_straddle_call.map instrument_t.symbol = some symbol ∨
    self.m_straddle_put.map instrument_t.symbol = some symbol

instance (self : gamma_scalper) (symbol : String) : Decidable (self.follows symbol) := by
  unfold gamma_scalper.follows
  infer_instance

/-- The symbol that a callback brings to the gate: the symbol of a market update
that is, when the update is delivered, the symbol of the future, the call or the
put; no symbol for any other callback. -/
def gamma_scalper.followed_update (self : gamma_scalper) : callback_t → List String
  | callback_t.on_message_market_update update _ =>
    if self.follows update.symbol then [update.symbol] else []
  | _ => []

/-- The symbols for which a sequence of callbacks, delivered in order from the
given state, brings a market update while the symbol is the one of the future,
the call or the put. -/
def gamma_scalper.followed_updates (self : gamma_scalper) (kernel : pricing_t) :
    List callback_t → List String
  | [] => []
  | callback :: callbacks =>
    self.followed_update callback ++
      match self.deliver kernel callback with
      | Except.ok next => next.followed_updates kernel callbacks
      | Except.error _ => []

/-- A hedge order or a cancel request is among the messages sent. -/
def hedge_sent (market : quickfix) : Prop :=
  ∃ message ∈ market.sent, is_gtc_order message = true ∨ is_cancel_order message = true

/-- The call of a second straddle, of a later maturity. -/
def second_call : instrument_t :=
  straddle_option "BTC-27SEP19-3500-C" option_type_t.CALL

/-- The put of the second straddle. -/
def second_put : instrument_t :=
  straddle_option "BTC-27SEP19-3500-P" option_type_t.PUT

/-- An instrument as the instrument list carries it: without a market. -/
def listed (instrument : instrument_t) : instrument_t :=
  { instrument with bbo := none }

/-- The instrument list of the exchange: the two straddles and the
perpetual. -/
def instrument_list : List instrument_t :=
  [listed listed_call, listed listed_put, listed second_call, listed second_put,
    listed (perpetual 3599 3601)]

/-- A market update of an option: the market 0.10 / 0.12 of the end-to-end
scenarios. -/
def option_tick (symbol : String) : market_update_t :=
  { symbol := symbol, contract_multiplier := none, underlying_symbol := none,
    underlying_mid_price := none,
    updates :=
      [{ update_type := market_update_action_t.NEW, side := market_side_t.BID,
         level_volume := 1, level_price := 1 / 10 },
        { update_type := market_update_action_t.NEW, side := market_side_t.ASK,
          level_volume := 1, level_price := 3 / 25 }] }

/-- The start of a run on the first straddle, up to the market updates of the
perpetual and of the call. -/
def first_straddle_callbacks
    (visit : List (String × position_info) → List (String × position_info)) :
    List callback_t :=
  [callback_t.on_logon,
    callback_t.on_message_positions
      (some [long_position "BTC-28JUN19-3500-C" 1, long_position "BTC-28JUN19-3500-P" 1]),
    callback_t.on_message_instruments visit (some instrument_list),
    callback_t.on_mass_status_report 0,
    callback_t.on_message_market_update (perpetual_tick 3599 3601) ⟨0, 0⟩,
    callback_t.on_message_market_update (option_tick "BTC-28JUN19-3500-C") ⟨0, 0⟩]

/-- The positions and the instruments arrive again, the positions now on the
second straddle and on the perpetual, followed by the market update of the
perpetual. -/
def second_straddle_callbacks
    (visit : List (String × position_info) → List (String × position_info)) :
    List callback_t :=
  [callback_t.on_message_positions
      (some [long_position "BTC-27SEP19-3500-C" 1, long_position "BTC-27SEP19-3500-P" 1,
        long_position "BTC-PERPETUAL" 0]),
    callback_t.on_message_instruments visit (some instrument_list),
    callback_t.on_mass_status_report 0,
    callback_t.on_message_market_update (perpetual_tick 3599 3601) ⟨0, 0⟩]

/-! ## Notions used to state the properties of a market update -/

/-- The last entry of the given side in the entries of a market update, if
any. -/
def last_entry (side : market_side_t) :
    List market_update_level_t → Option market_update_level_t
  | [] => none
  | update_component :: rest =>
    match last_entry side rest with
    | some entry => some entry
    | none => if update_component.side = side then some update_component else none

/-! ## Notions used to state the properties of fills on the options -/

/-- A report of a complete fill of a manual order on the call of the end-to-end
scenarios: 1 bought at 0.11. -/
def call_fill_report : execution_report_t :=
  { order_id := some "manual", original_order_id := some "manual",
    order_status := some order_status_t.FILLED, side := some side_t.BUY,
    transaction_time := none, open_volume := some 0, executed_volume := some 1,
    order_volume := some 1, order_type := some order_type_t.LIMIT, reject_reason := none,
    symbol := some "BTC-C", order_price := some (11 / 100), volume_type := none,
    contract_multiplier := none, average_execution_price := some (11 / 100),
    maximun_show_volume := none, implied_volatility := none, pegged_price := none,
    mass_status_request_type := none, mass_status_report_number := none }

/-! ## Notions used to state the sign of the deltas -/

/-- A pricing kernel for which the implied volatility of the call, of the put,
or of both exists, and which answers with the given deltas; used to evaluate
`update_deltas` on concrete inputs. -/
def one_sided_kernel (call_delta put_delta : Option ℚ) : pricing_t :=
  { exp := fun _ => 1
    black_scholes_implied_volatility := fun call_or_put _ _ _ _ _ _ =>
      if call_or_put = option_type_t.CALL then
        call_delta.map fun _ => double_t.finite (1 / 2)
      else put_delta.map fun _ => double_t.finite (1 / 2)
    black_scholes_delta := fun call_or_put _ _ _ _ _ _ =>
      double_t.finite
        (if call_or_put = option_type_t.CALL then call_delta.getD 0 else put_delta.getD 0) }

/-! ## Pricing kernel (`pricing/black_scholes.cpp`)

The functions of the pricing kernel over an ordered field, the functions
`std::exp`, `std::log` and `std::sqrt` of the C library being parameters: over
the rationals the definitions can be evaluated, and over the reals, with the
real exponential, logarithm and square root, they are the arithmetic of the
source taken without rounding. -/

/-- `details::cummulative_normal_distribution_hart`. -/
def details.cummulative_normal_distribution_hart {α : Type} [LinearOrderedField α]
    (exp : α → α) (x : α) : α :=
  let y := |x|
  let a1 : α := 0.0352624965998911
  let a2 : α := 0.700383064443688
  let a3 : α := 6.37396220353165
  let a4 : α := 33.912866078383
  let a5 : α := 112.079291497871
  let a6 : α := 221.213596169931
  let a7 : α := 220.206867912376
  let b1 : α := 0.0883883476483184
  let b2 : α := 1.75566716318264
  let b3 : α := 16.064177579207
  let b4 : α := 86.7807322029461
  let b5 : α := 296.564248779674
  let b6 : α := 637.333633378831
  let b7 : α := 793.826512519948
  let b8 : α := 440.413735824752
  if y > 37 then 0
  else
    let exponential := exp (-(y * y) / 2)
    let cnd :=
      if y < 7.07106781186547 then
        let sum_a := ((((((a1 * y + a2) * y + a3) * y + a4) * y + a5) * y + a6) * y + a7)
        let sum_b :=
          (((((((b1 * y + b2) * y + b3) * y + b4) * y + b5) * y + b6) * y + b7) * y + b8)
        exponential * (sum_a / sum_b)
      else
        let sum_a := y + 1 / (y + 2 / (y + 3 / (y + 4 / (y + 0.65))))
        exponential / (sum_a * 2.506628274631)
    if x > 0 then 1 - cnd else cnd

/-- `details::black_scholes_d1`. -/
def details.black_scholes_d1 {α : Type} [LinearOrderedField α] (log sqrt : α → α)
    (stock_price strike_price time_to_expiration cost_of_carry volatility : α) : α :=
  (log (stock_price / strike_price) +
      ((cost_of_carry + ((volatility * volatility) / 2)) * time_to_expiration)) /
    (volatility * sqrt time_to_expiration)

/-- `details::black_scholes_d2`. -/
def details.black_scholes_d2 {α : Type} [LinearOrderedField α] (sqrt : α → α)
    (time_to_expiration volatility d1 : α) : α :=
  d1 - (volatility * sqrt time_to_expiration)

/-- `generalized_black_scholes_merton`; the option type is CALL or PUT, so the
branch that throws is not reached. -/
def generalized_black_scholes_merton {α : Type} [LinearOrderedField α]
    (exp log sqrt : α → α) (call_or_put : option_type_t)
    (stock_price strike_price risk_free_interest time_to_expiration cost_of_carry
      volatility : α) : α :=
  let d1 :=
    details.black_scholes_d1 log sqrt stock_price strike_price time_to_expiration
      cost_of_carry volatility
  let d2 := details.black_scholes_d2 sqrt time_to_expiration volatility d1
  if option_type_t.CALL = call_or_put then
    (stock_price * exp ((cost_of_carry - risk_free_interest) * time_to_expiration) *
        details.cummulative_normal_distribution_hart exp d1) -
      (strike_price * exp ((-risk_free_interest) * time_to_expiration) *
        details.cummulative_normal_distribution_hart exp d2)
  else
    (strike_price * exp ((-risk_free_interest) * time_to_expiration) *
        details.cummulative_normal_distribution_hart exp (-d2)) -
      (stock_price * exp ((cost_of_carry - risk_free_interest) * time_to_expiration) *
        details.cummulative_normal_distribution_hart exp (-d1))

/-! ## Notions used to state the effect of the hedge -/

/-- The state that a sequence of callbacks leaves; the state of the failure when
the run fails. -/
def gamma_scalper.after (self : gamma_scalper) (kernel : pricing_t)
    (callbacks : List callback_t) : gamma_scalper :=
  match self.run_callbacks kernel callbacks with
  | Except.ok final => final
  | Except.error fatal => fatal.state

/-- The controller as `create` leaves it with empty files in the auxiliary
folder, price sweetener 1/2 and interest rate 0. -/
def initial_state : gamma_scalper :=
  { m_is_running := false
    m_market := { m_order_identifier := 0, m_request_identifier := 0, sent := [] }
    m_positions := []
    m_straddle_call := none
    m_straddle_put := none
    m_future := none
    m_levels := levels_of [] (1 / 2)
    m_snapshots := []
    m_delta_future := 0
    m_delta_call := 0
    m_delta_put := 0
    m_order := none
    m_mass_reports_incoming := 0
    m_interest_rate := 0 }

/-! ## Notions used to state the properties of the logout -/

/-- A message is a mass cancellation (`send_mass_cancellation_order`). -/
def is_mass_cancellation_order : market_message_t → Bool
  | market_message_t.send_mass_cancellation_order _ => true
  | _ => false

/-- The mass cancellations among the messages sent so far, oldest first. -/
def mass_cancellations (market : quickfix) : List market_message_t :=
  market.sent.filter is_mass_cancellation_order

/-! # Theorems -/

/-! ## Unfolding of `update_levels` -/

theorem update_levels_nil (self : levels) (v p : ℚ) (s : side_t) (fut : instrument_t)
    (h : self.m_levels = []) :
    self.update_levels v p s fut =
      some ({ self with m_levels := [{ volume := v, price := p, side := s }] }).store_levels := by
  unfold levels.update_levels
  split
  · rfl
  · simp_all

theorem update_levels_same (self : levels) (v p : ℚ) (s : side_t) (fut : instrument_t)
    (front : level_t) (rest : List level_t)
    (h : self.m_levels = front :: rest) (hs : front.side = s) :
    self.update_levels v p s fut =
      some ({ self with
        m_levels := { volume := v, price := p, side := s } :: front :: rest }).store_levels := by
  unfold levels.update_levels
  split
  · simp_all
  · rename_i f r h2
    rw [h] at h2
    cases h2
    simp [hs]

theorem update_levels_opposite (self : levels) (v p : ℚ) (s : side_t) (fut : instrument_t)
    (front : level_t) (rest : List level_t)
    (h : self.m_levels = front :: rest) (hs : front.side ≠ s) :
    self.update_levels v p s fut =
      ((if front.volume - v = 0 then some { self with m_levels := rest }
        else if front.volume - v < 0 then
          levels.update_levels { self with m_levels := rest } (v - front.volume) p s fut
        else some { self with m_levels := { front with volume := v } :: rest }).bind
        fun paired =>
          (paired.store_pnl front.price p s (if front.volume < v then front.volume else v)
            fut).map levels.store_levels) := by
  conv_lhs => unfold levels.update_levels
  split
  · simp_all
  · rename_i f r h2
    rw [h] at h2
    cases h2
    simp only [hs, if_false]

theorem update_levels_mk_nil (sw : ℚ) (lf : List level_line_t) (pf : ℚ)
    (pl : List pnl_entry_t) (v p : ℚ) (s : side_t) (fut : instrument_t) :
    levels.update_levels ⟨[], sw, lf, pf, pl⟩ v p s fut =
      some (levels.store_levels ⟨[⟨v, p, s⟩], sw, lf, pf, pl⟩) :=
  update_levels_nil _ v p s fut rfl

theorem update_levels_mk_cons (front : level_t) (rest : List level_t) (sw : ℚ)
    (lf : List level_line_t) (pf : ℚ) (pl : List pnl_entry_t) (v p : ℚ) (s : side_t)
    (fut : instrument_t) :
    levels.update_levels ⟨front :: rest, sw, lf, pf, pl⟩ v p s fut =
      if front.side = s then
        some (levels.store_levels ⟨⟨v, p, s⟩ :: front :: rest, sw, lf, pf, pl⟩)
      else
        (if front.volume - v = 0 then some ⟨rest, sw, lf, pf, pl⟩
          else if front.volume - v < 0 then
            levels.update_levels ⟨rest, sw, lf, pf, pl⟩ (v - front.volume) p s fut
          else some ⟨⟨v, front.price, front.side⟩ :: rest, sw, lf, pf, pl⟩).bind
          fun paired =>
            (paired.store_pnl front.price p s (if front.volume < v then front.volume else v)
              fut).map levels.store_levels := by
  by_cases hs : front.side = s
  · rw [if_pos hs]; exact update_levels_same _ v p s fut front rest rfl hs
  · rw [if_neg hs]; exact update_levels_opposite _ v p s fut front rest rfl hs

theorem store_pnl_some (self : levels) (fp rp : ℚ) (s : side_t) (raw : ℚ)
    (fut : instrument_t) (cm : ℚ) (hcm : fut.contract_multiplier = some cm) :
    self.store_pnl fp rp s raw fut = some (self.add_pnl (pnl_entry fp rp s raw cm)) := by
  simp [levels.store_pnl, hcm, levels.add_pnl, pnl_entry]

@[simp]
theorem store_levels_m_levels (self : levels) :
    self.store_levels.m_levels = self.m_levels := rfl

@[simp]
theorem store_levels_pnl_log (self : levels) :
    self.store_levels.pnl_log = self.pnl_log := rfl

@[simp]
theorem store_levels_pnl_file (self : levels) :
    self.store_levels.pnl_file = self.pnl_file := rfl

@[simp]
theorem add_pnl_m_levels (self : levels) (entry : pnl_entry_t) :
    (self.add_pnl entry).m_levels = self.m_levels := rfl

@[simp]
theorem add_pnl_pnl_log (self : levels) (entry : pnl_entry_t) :
    (self.add_pnl entry).pnl_log = self.pnl_log ++ [entry] := rfl

@[simp]
theorem add_pnl_pnl_file (self : levels) (entry : pnl_entry_t) :
    (self.add_pnl entry).pnl_file = print_double (self.pnl_file + entry.calculated_pnl) :=
  rfl

/-! ## Homogeneity -/

theorem homogeneous_tail {a : level_t} {l : List level_t} (h : homogeneous (a :: l)) :
    homogeneous l := fun x hx y hy =>
  h x (List.mem_cons_of_mem _ hx) y (List.mem_cons_of_mem _ hy)

theorem homogeneous_push {a x : level_t} {l : List level_t} (h : homogeneous (a :: l))
    (hx : x.side = a.side) : homogeneous (x :: a :: l) := by
  intro u hu w hw
  have key : ∀ z ∈ x :: a :: l, z.side = a.side := by
    intro z hz
    rcases List.mem_cons.1 hz with rfl | hz
    · exact hx
    · exact h z hz a (List.mem_cons_self _ _)
  rw [key u hu, key w hw]

theorem homogeneous_set_volume {a : level_t} {l : List level_t} (v : ℚ)
    (h : homogeneous (a :: l)) : homogeneous ({ a with volume := v } :: l) := by
  intro u hu w hw
  have key : ∀ z ∈ ({ a with volume := v } : level_t) :: l, z.side = a.side := by
    intro z hz
    rcases List.mem_cons.1 hz with rfl | hz
    · rfl
    · exact h z (List.mem_cons_of_mem _ hz) a (List.mem_cons_self _ _)
  rw [key u hu, key w hw]

theorem update_levels_keeps_homogeneous (fut : instrument_t) (cm : ℚ)
    (hcm : fut.contract_multiplier = some cm) (p : ℚ) (s : side_t) :
    ∀ (l : List level_t) (self : levels) (v : ℚ), self.m_levels = l → homogeneous l →
      ∃ next, self.update_levels v p s fut = some next ∧ homogeneous next.m_levels := by
  intro l
  induction l with
  | nil =>
    intro self v h _
    refine ⟨_, update_levels_nil self v p s fut h, ?_⟩
    intro a ha b hb
    simp at ha hb
    rw [ha, hb]
  | cons front rest ih =>
    intro self v h hom
    by_cases hs : front.side = s
    · refine ⟨_, update_levels_same self v p s fut front rest h hs, ?_⟩
      exact homogeneous_push hom hs.symm
    · rw [update_levels_opposite self v p s fut front rest h hs]
      by_cases h0 : front.volume - v = 0
      · simp only [h0, if_true, Option.some_bind, store_pnl_some _ _ _ _ _ _ _ hcm,
          Option.map_some']
        exact ⟨_, rfl, homogeneous_tail hom⟩
      · by_cases hneg : front.volume - v < 0
        · obtain ⟨mid, hmid, hhom⟩ :=
            ih { self with m_levels := rest } (v - front.volume) rfl (homogeneous_tail hom)
          simp only [h0, hneg, if_true, if_false, hmid, Option.some_bind,
            store_pnl_some _ _ _ _ _ _ _ hcm, Option.map_some']
          exact ⟨_, rfl, hhom⟩
        · simp only [h0, hneg, if_false, Option.some_bind,
            store_pnl_some _ _ _ _ _ _ _ hcm, Option.map_some']
          exact ⟨_, rfl, homogeneous_set_volume v hom⟩

/-- C1. Homogeneity of the levels stack: from a stack whose entries share a
side (the empty stack is one), every finite sequence of `update_levels` calls
with positive volumes, on a future whose contract multiplier is present, runs to
completion and leaves a stack whose entries all share a side; fills that spill
through several levels are sequences like any other. -/
theorem update_levels_seq_homogeneous (self : levels) (future : instrument_t) (cm : ℚ)
    (hcm : future.contract_multiplier = some cm) (fills : List fill_t)
    (hpos : ∀ fill ∈ fills, 0 < fill.volume) (hom : homogeneous self.m_levels) :
    ∃ final, self.update_levels_seq future fills = some final ∧
      homogeneous final.m_levels := by
  induction fills generalizing self with
  | nil => exact ⟨self, rfl, hom⟩
  | cons fill fills ih =>
    obtain ⟨next, hnext, hhom⟩ :=
      update_levels_keeps_homogeneous future cm hcm fill.price fill.side self.m_levels self
        fill.volume rfl hom
    obtain ⟨final, hfinal, hfin⟩ :=
      ih next (fun f hf => hpos f (List.mem_cons_of_mem _ hf)) hhom
    refine ⟨final, ?_, hfin⟩
    simp only [levels.update_levels_seq, hnext, Option.some_bind, hfinal]

/-- C1, on a concrete input: two BUY fills followed by a SELL fill that
consumes the first level and spills into the second. -/
theorem update_levels_seq_homogeneous_witness :
    (perpetual 3390 3400).contract_multiplier = some 10 ∧
      (∀ fill ∈ [(⟨10, 100, side_t.BUY⟩ : fill_t), ⟨5, 110, side_t.BUY⟩,
          ⟨12, 120, side_t.SELL⟩], 0 < fill.volume) ∧
      homogeneous (levels_of [] 0).m_levels ∧
      ∃ final, (levels_of [] 0).update_levels_seq (perpetual 3390 3400)
          [⟨10, 100, side_t.BUY⟩, ⟨5, 110, side_t.BUY⟩, ⟨12, 120, side_t.SELL⟩] =
            some final ∧
        homogeneous final.m_levels :=
  ⟨rfl, by simp, by simp [levels_of, homogeneous],
    update_levels_seq_homogeneous (levels_of [] 0) (perpetual 3390 3400) 10 rfl _ (by simp)
      (by simp [levels_of, homogeneous])⟩

/-! ## Empty stack and flat exposure -/

/-- C2. The code at the failing input: after BUY 10, SELL 3, SELL 3 from the
empty stack the stack is empty although the signed sum of the fills is 4; after
BUY 10, SELL 3, SELL 7 the stack holds a SELL entry of volume 4 although the
signed sum is 0. The SELL 3 overwrites the front volume 10 with 3 instead of
leaving the remainder 7. -/
theorem update_levels_seq_empty_not_flat :
    (((levels_of [] 0).update_levels_seq (perpetual 3390 3400)
        [⟨10, 100, side_t.BUY⟩, ⟨3, 100, side_t.SELL⟩, ⟨3, 100, side_t.SELL⟩]).map
          levels.m_levels = some [] ∧
      net_volume [⟨10, 100, side_t.BUY⟩, ⟨3, 100, side_t.SELL⟩, ⟨3, 100, side_t.SELL⟩] = 4) ∧
    (((levels_of [] 0).update_levels_seq (perpetual 3390 3400)
        [⟨10, 100, side_t.BUY⟩, ⟨3, 100, side_t.SELL⟩, ⟨7, 100, side_t.SELL⟩]).map
          levels.m_levels = some [⟨4, 100, side_t.SELL⟩] ∧
      net_volume [⟨10, 100, side_t.BUY⟩, ⟨3, 100, side_t.SELL⟩, ⟨7, 100, side_t.SELL⟩] = 0) := by
  refine ⟨⟨?_, ?_⟩, ?_, ?_⟩
  · norm_num +decide [levels.update_levels_seq, update_levels_mk_nil, update_levels_mk_cons,
      levels.store_pnl, levels.store_levels, levels_of, perpetual]
  · norm_num +decide [net_volume, signed_volume]
  · norm_num +decide [levels.update_levels_seq, update_levels_mk_nil, update_levels_mk_cons,
      levels.store_pnl, levels.store_levels, levels_of, perpetual]
  · norm_num +decide [net_volume, signed_volume]

/-! ## Realized PnL -/

theorem filled_volume_eq_min (a b : ℚ) : (if a < b then a else b) = min a b := by
  by_cases h : a < b
  · rw [if_pos h, min_eq_left h.le]
  · rw [if_neg h, min_eq_right (not_lt.1 h)]

theorem pnl_entry_calculated_pnl (s : side_t) (raw cm fp p : ℚ) :
    (pnl_entry fp p s raw cm).calculated_pnl =
      raw * cm * (1 / (if s = side_t.BUY then p else fp) -
        1 / (if s = side_t.BUY then fp else p)) := by
  cases s
  · simp only [pnl_entry, if_neg (show ¬ side_t.BUY = side_t.SELL by decide), if_true]
    ring
  · simp only [pnl_entry, if_neg (show ¬ side_t.SELL = side_t.BUY by decide), if_true]
    ring

theorem update_levels_emits_paired_pnl (fut : instrument_t) (cm : ℚ)
    (hcm : fut.contract_multiplier = some cm) (p : ℚ) (s : side_t) :
    ∀ (l : List level_t) (self : levels) (v : ℚ), self.m_levels = l →
      ∃ next emitted, self.update_levels v p s fut = some next ∧
        next.pnl_log = self.pnl_log ++ emitted ∧
        next.pnl_file =
          emitted.foldl (fun total entry => print_double (total + entry.calculated_pnl))
            self.pnl_file ∧
        (emitted.map pnl_entry_t.calculated_pnl).sum = paired_pnl cm (pairings p s l v) := by
  intro l
  induction l with
  | nil =>
    intro self v h
    exact ⟨_, [], update_levels_nil self v p s fut h, by simp, by simp,
      by simp [pairings, paired_pnl]⟩
  | cons front rest ih =>
    intro self v h
    by_cases hs : front.side = s
    · exact ⟨_, [], update_levels_same self v p s fut front rest h hs, by simp, by simp,
        by simp [pairings, paired_pnl, hs]⟩
    · rw [update_levels_opposite self v p s fut front rest h hs, filled_volume_eq_min]
      have hexp : ∀ tail : List pairing_t,
          paired_pnl cm
            ({ paired := min front.volume v
               buy_price := if s = side_t.BUY then p else front.price
               sell_price := if s = side_t.BUY then front.price else p } :: tail) =
          (pnl_entry front.price p s (min front.volume v) cm).calculated_pnl +
            paired_pnl cm tail := by
        intro tail
        simp only [paired_pnl, List.map_cons, List.sum_cons, pnl_entry_calculated_pnl]
      by_cases h0 : front.volume - v = 0
      · have hlt : ¬ front.volume < v := by
          have : front.volume = v := by linarith
          rw [this]; exact lt_irrefl _
        simp only [h0, if_true, Option.some_bind, store_pnl_some _ _ _ _ _ _ _ hcm,
          Option.map_some']
        refine ⟨_, [pnl_entry front.price p s (min front.volume v) cm], rfl, rfl, ?_, ?_⟩
        · simp
        · simp only [pairings, if_neg hs, if_neg hlt, hexp]
          simp [paired_pnl]
      · by_cases hneg : front.volume - v < 0
        · have hlt : front.volume < v := by linarith
          obtain ⟨mid, em, hmid, hlog, hfile, hsum⟩ :=
            ih { self with m_levels := rest } (v - front.volume) rfl
          simp only [h0, hneg, if_true, if_false, hmid, Option.some_bind,
            store_pnl_some _ _ _ _ _ _ _ hcm, Option.map_some']
          refine ⟨_, em ++ [pnl_entry front.price p s (min front.volume v) cm], rfl, ?_, ?_, ?_⟩
          · simp [hlog]
          · simp [hfile]
          · simp only [pairings, if_neg hs, if_pos hlt, hexp, ← hsum]
            simp [add_comm]
        · have hlt : ¬ front.volume < v := by
            intro hc; apply hneg; linarith
          simp only [h0, hneg, if_false, Option.some_bind,
            store_pnl_some _ _ _ _ _ _ _ hcm, Option.map_some']
          refine ⟨_, [pnl_entry front.price p s (min front.volume v) cm], rfl, rfl, ?_, ?_⟩
          · simp
          · simp only [pairings, if_neg hs, if_neg hlt, hexp]
            simp [paired_pnl]

/-- C3. PnL conservation: for every `update_levels` call with positive prices
(the fill price and the prices of the levels), on a future whose contract
multiplier is present, the call returns and the PnL values it emits through
`store_pnl` (recursive calls included) add up to the sum over the paired levels
of `paired * contract_multiplier * (1/buy_price - 1/sell_price)`; the total of
the PnL file is updated entry by entry, each new total written with six
significant digits. The positivity of the prices keeps the call where the exact
division of the model is the division of the source. -/
theorem update_levels_pnl_conservation (self : levels) (v p : ℚ) (s : side_t)
    (future : instrument_t) (cm : ℚ) (hcm : future.contract_multiplier = some cm)
    (_hp : 0 < p) (_hprices : ∀ level ∈ self.m_levels, 0 < level.price) :
    ∃ next emitted, self.update_levels v p s future = some next ∧
      next.pnl_log = self.pnl_log ++ emitted ∧
      (emitted.map pnl_entry_t.calculated_pnl).sum =
        paired_pnl cm (pairings p s self.m_levels v) ∧
      next.pnl_file =
        emitted.foldl (fun total entry => print_double (total + entry.calculated_pnl))
          self.pnl_file := by
  obtain ⟨next, emitted, h1, h2, h3, h4⟩ :=
    update_levels_emits_paired_pnl future cm hcm p s self.m_levels self v rfl
  exact ⟨next, emitted, h1, h2, h4, h3⟩

/-- C3, on a concrete input: a SELL of 12 at 120 against the BUY levels
5 at 110 and 10 at 100 pairs 5 and then 7. -/
theorem update_levels_pnl_conservation_witness :
    (perpetual 3390 3400).contract_multiplier = some 10 ∧ (0 : ℚ) < 120 ∧
      (∀ level ∈ (levels_of [⟨5, 110, side_t.BUY⟩, ⟨10, 100, side_t.BUY⟩] 0).m_levels,
        0 < level.price) ∧
      pairings 120 side_t.SELL [⟨5, 110, side_t.BUY⟩, ⟨10, 100, side_t.BUY⟩] 12 =
        [⟨5, 110, 120⟩, ⟨7, 100, 120⟩] ∧
      ∃ next emitted,
        (levels_of [⟨5, 110, side_t.BUY⟩, ⟨10, 100, side_t.BUY⟩] 0).update_levels 12 120
          side_t.SELL (perpetual 3390 3400) = some next ∧
        next.pnl_log =
          (levels_of [⟨5, 110, side_t.BUY⟩, ⟨10, 100, side_t.BUY⟩] 0).pnl_log ++ emitted ∧
        (emitted.map pnl_entry_t.calculated_pnl).sum =
          paired_pnl 10 (pairings 120 side_t.SELL
            (levels_of [⟨5, 110, side_t.BUY⟩, ⟨10, 100, side_t.BUY⟩] 0).m_levels 12) ∧
        next.pnl_file =
          emitted.foldl (fun total entry => print_double (total + entry.calculated_pnl))
            (levels_of [⟨5, 110, side_t.BUY⟩, ⟨10, 100, side_t.BUY⟩] 0).pnl_file :=
  ⟨rfl, by norm_num, by simp [levels_of],
    by norm_num +decide [pairings],
    update_levels_pnl_conservation _ 12 120 side_t.SELL (perpetual 3390 3400) 10 rfl
      (by norm_num) (by simp [levels_of])⟩

/-! ## Scenario 3: the second hedge crosses the first -/

/-- C4, counterexample. With the stack holding the single SELL entry
`{860, 3600}` and contract multiplier 10, a BUY fill of 860 at 3400 empties the
stack and emits the single PnL entry `860*10*(1/3400 - 1/3600)`, a gain, which
is not the claimed `860*10*(1/3600 - 1/3400)`. -/
theorem scenario_3_pnl_sign_counterexample :
    ((levels_of [⟨860, 3600, side_t.SELL⟩] 0).update_levels 860 3400 side_t.BUY
        (perpetual 3390 3400)).map (fun next =>
          (next.m_levels, next.pnl_log.map pnl_entry_t.calculated_pnl)) =
        some ([], [860 * 10 * (1 / 3400 - 1 / 3600)]) ∧
      (860 * 10 * (1 / 3400 - 1 / 3600) : ℚ) ≠ 860 * 10 * (1 / 3600 - 1 / 3400) := by
  constructor
  · norm_num +decide [update_levels_mk_nil, update_levels_mk_cons, levels.store_pnl,
      levels.store_levels, levels_of, perpetual]
  · norm_num

/-- C4, amended. With the stack holding the single SELL entry `{860, 3600}` and
contract multiplier 10, for every fill price `p > 0` a BUY fill of volume 860
at `p` pairs 860, emits exactly one PnL entry, equal to
`860*10*(1/p - 1/3600)`, adds it to the PnL total (written with six
significant digits), and leaves the stack empty. -/
theorem scenario_3_second_hedge (self : levels) (future : instrument_t) (p : ℚ)
    (hstack : self.m_levels = [⟨860, 3600, side_t.SELL⟩])
    (hcm : future.contract_multiplier = some 10) (hp : 0 < p) :
    ∃ next entry, self.update_levels 860 p side_t.BUY future = some next ∧
      next.m_levels = [] ∧
      next.pnl_log = self.pnl_log ++ [entry] ∧
      entry.paired_volume = 860 * 10 ∧
      entry.calculated_pnl = 860 * 10 * (1 / p - 1 / 3600) ∧
      next.pnl_file = print_double (self.pnl_file + 860 * 10 * (1 / p - 1 / 3600)) := by
  have hp0 : p ≠ 0 := ne_of_gt hp
  rw [update_levels_opposite self 860 p side_t.BUY future _ _ hstack (by decide)]
  simp only [sub_self, if_true, Option.some_bind, store_pnl_some _ _ _ _ _ _ _ hcm,
    Option.map_some', lt_irrefl, if_false]
  refine ⟨_, pnl_entry 3600 p side_t.BUY 860 10, rfl, rfl, rfl, rfl, ?_, ?_⟩
  · rw [pnl_entry_calculated_pnl]; simp
  · simp only [store_levels_pnl_file, add_pnl_pnl_file, pnl_entry_calculated_pnl]
    simp

/-- C4 amended, on a concrete input: the fill price 3400. -/
theorem scenario_3_second_hedge_witness :
    (levels_of [⟨860, 3600, side_t.SELL⟩] 0).m_levels = [⟨860, 3600, side_t.SELL⟩] ∧
      (perpetual 3390 3400).contract_multiplier = some 10 ∧ (0 : ℚ) < 3400 ∧
      ∃ next entry,
        (levels_of [⟨860, 3600, side_t.SELL⟩] 0).update_levels 860 3400 side_t.BUY
          (perpetual 3390 3400) = some next ∧
        next.m_levels = [] ∧
        next.pnl_log = (levels_of [⟨860, 3600, side_t.SELL⟩] 0).pnl_log ++ [entry] ∧
        entry.paired_volume = 860 * 10 ∧
        entry.calculated_pnl = 860 * 10 * (1 / 3400 - 1 / 3600) ∧
        next.pnl_file =
          print_double ((levels_of [⟨860, 3600, side_t.SELL⟩] 0).pnl_file +
            860 * 10 * (1 / 3400 - 1 / 3600)) :=
  ⟨rfl, rfl, by norm_num,
    scenario_3_second_hedge _ (perpetual 3390 3400) 3400 rfl rfl (by norm_num)⟩

/-! ## Price and volume of a hedge order -/

theorem get_price_to_use_eq_reference (self : levels) (side : side_t)
    (future : instrument_t) (bbo : BBO_t) (bid ask cm : ℚ)
    (hbbo : future.bbo = some bbo) (hbid : bbo.bid = some bid) (hask : bbo.ask = some ask)
    (hcm : future.contract_multiplier = some cm) :
    self.get_price_to_use side future =
      some (price_to_use_reference self.m_levels self.m_price_sweetener side bid ask cm) := by
  unfold levels.get_price_to_use price_to_use_reference
  cases hl : self.m_levels with
  | nil =>
    by_cases hs : side = side_t.BUY <;> simp [hbbo, hbid, hask, hs]
  | cons front rest =>
    by_cases hs : side = side_t.BUY
    · simp only [hbbo, hbid, hcm, hs, if_true]
      rw [filled_volume_eq_min]
    · simp only [hbbo, hask, hcm, hs, if_false]
      congr 1
      by_cases h : ask > front.price + cm * self.m_price_sweetener
      · rw [if_pos h, max_eq_left (le_of_lt h)]
      · rw [if_neg h, max_eq_right (not_lt.1 h)]

/-- C6. `get_price_to_use` equals its reference definition for every stack and
every future whose bid and ask are present (and whose contract multiplier is
present when the stack is not empty, where the formula uses it): on the empty
stack the bid for BUY and the ask for SELL; otherwise
`min bid (front.price - contract_multiplier*sweetener)` for BUY and
`max ask (front.price + contract_multiplier*sweetener)` for SELL, whatever the
side of the front entry. Hence the BUY price is at most the bid and the SELL
price at least the ask. -/
theorem get_price_to_use_reference_and_bounds (self : levels) (side : side_t)
    (future : instrument_t) (bbo : BBO_t) (bid ask cm : ℚ)
    (hbbo : future.bbo = some bbo) (hbid : bbo.bid = some bid) (hask : bbo.ask = some ask)
    (hcm : self.m_levels ≠ [] → future.contract_multiplier = some cm) :
    ∃ price, self.get_price_to_use side future = some price ∧
      price = (match self.m_levels with
        | [] => if side = side_t.BUY then bid else ask
        | front :: _ =>
          if side = side_t.BUY then min bid (front.price - cm * self.m_price_sweetener)
          else max ask (front.price + cm * self.m_price_sweetener)) ∧
      (side = side_t.BUY → price ≤ bid) ∧ (side = side_t.SELL → ask ≤ price) := by
  have hrun : self.get_price_to_use side future =
      some (price_to_use_reference self.m_levels self.m_price_sweetener side bid ask cm) := by
    cases hl : self.m_levels with
    | nil =>
      unfold levels.get_price_to_use price_to_use_reference
      rw [hl]
      by_cases hs : side = side_t.BUY <;> simp [hbbo, hbid, hask, hs]
    | cons front rest =>
      rw [← hl]
      exact get_price_to_use_eq_reference self side future bbo bid ask cm hbbo hbid hask
        (hcm (by rw [hl]; exact List.cons_ne_nil _ _))
  refine ⟨_, hrun, rfl, ?_, ?_⟩
  · intro hs
    unfold price_to_use_reference
    cases self.m_levels with
    | nil => simp [hs]
    | cons front rest => simp [hs]
  · intro hs
    unfold price_to_use_reference
    cases self.m_levels with
    | nil => simp [hs]
    | cons front rest => simp [hs]

/-- C6, on a concrete input: a BUY against a BUY front at 3300 with bid 3390,
sweetener 1/2 and contract multiplier 10 is priced `min 3390 (3300 - 5)`. -/
theorem get_price_to_use_reference_and_bounds_witness :
    (perpetual 3390 3400).bbo = some ⟨some 1, some 3390, some 3400, some 1⟩ ∧
      (⟨some 1, some 3390, some 3400, some 1⟩ : BBO_t).bid = some 3390 ∧
      (⟨some 1, some 3390, some 3400, some 1⟩ : BBO_t).ask = some 3400 ∧
      (perpetual 3390 3400).contract_multiplier = some 10 ∧
      ∃ price,
        (levels_of [⟨7, 3300, side_t.BUY⟩] (1 / 2)).get_price_to_use side_t.BUY
          (perpetual 3390 3400) = some price ∧
        price = (match (levels_of [⟨7, 3300, side_t.BUY⟩] (1 / 2)).m_levels with
          | [] => if side_t.BUY = side_t.BUY then 3390 else 3400
          | front :: _ =>
            if side_t.BUY = side_t.BUY then
              min 3390 (front.price - 10 * (levels_of [⟨7, 3300, side_t.BUY⟩] (1 / 2)).m_price_sweetener)
            else
              max 3400 (front.price + 10 * (levels_of [⟨7, 3300, side_t.BUY⟩] (1 / 2)).m_price_sweetener)) ∧
        (side_t.BUY = side_t.BUY → price ≤ 3390) ∧ (side_t.BUY = side_t.SELL → 3400 ≤ price) :=
  ⟨rfl, rfl, rfl, rfl,
    get_price_to_use_reference_and_bounds _ side_t.BUY (perpetual 3390 3400) _ 3390 3400 10
      rfl rfl rfl (fun _ => rfl)⟩

/-- C7. `get_volume_to_use side c` is `c` when the stack is empty or its front
has the same side, and `min c front.volume` otherwise; so it never exceeds `c`
and, against a front of the opposite side, never exceeds the volume of the
front. -/
theorem get_volume_to_use_spec (self : levels) (side : side_t) (c : ℚ) :
    self.get_volume_to_use side c =
        (match self.m_levels with
          | [] => c
          | front :: _ => if front.side = side then c else min c front.volume) ∧
      self.get_volume_to_use side c ≤ c ∧
      ∀ front rest, self.m_levels = front :: rest → front.side ≠ side →
        self.get_volume_to_use side c ≤ front.volume := by
  unfold levels.get_volume_to_use
  cases self.m_levels with
  | nil => simp
  | cons front rest =>
    by_cases hs : side = front.side
    · simp [hs]
    · have hs2 : ¬ front.side = side := fun h => hs h.symm
      simp only [hs, hs2, if_false, filled_volume_eq_min]
      refine ⟨trivial, min_le_left _ _, ?_⟩
      intro f r hfr _
      cases hfr
      exact min_le_right _ _

/-- C7, on a concrete input: a BUY of 30 against a SELL front of volume 20 is
cut to 20. -/
theorem get_volume_to_use_spec_witness :
    (levels_of [⟨20, 3600, side_t.SELL⟩] 0).get_volume_to_use side_t.BUY 30 = 20 ∧
      (levels_of [⟨20, 3600, side_t.SELL⟩] 0).get_volume_to_use side_t.BUY 30 ≤
        (⟨20, 3600, side_t.SELL⟩ : level_t).volume :=
  ⟨by
      rw [(get_volume_to_use_spec (levels_of [⟨20, 3600, side_t.SELL⟩] 0) side_t.BUY 30).1]
      norm_num +decide [levels_of],
    (get_volume_to_use_spec (levels_of [⟨20, 3600, side_t.SELL⟩] 0) side_t.BUY 30).2.2
      ⟨20, 3600, side_t.SELL⟩ [] rfl (by decide)⟩

/-! ## A hedge never crosses the previous one at a loss -/

theorem get_volume_to_use_opposite (self : levels) (side : side_t) (c : ℚ)
    (front : level_t) (rest : List level_t) (hstack : self.m_levels = front :: rest)
    (hside : front.side ≠ side) :
    self.get_volume_to_use side c = min c front.volume := by
  unfold levels.get_volume_to_use
  rw [hstack]
  simp only [if_neg (fun h : side = front.side => hside h.symm), filled_volume_eq_min]

theorem update_levels_within_front (self : levels) (v p : ℚ) (s : side_t)
    (fut : instrument_t) (cm : ℚ) (front : level_t) (rest : List level_t)
    (hstack : self.m_levels = front :: rest) (hside : front.side ≠ s)
    (hcm : fut.contract_multiplier = some cm) (hv : v ≤ front.volume) :
    ∃ next, self.update_levels v p s fut = some next ∧
      next.pnl_log = self.pnl_log ++ [pnl_entry front.price p s v cm] := by
  rw [update_levels_opposite self v p s fut front rest hstack hside]
  have hlt : ¬ front.volume < v := not_lt.2 hv
  have hneg : ¬ front.volume - v < 0 := by
    intro h; apply hlt; linarith
  by_cases h0 : front.volume - v = 0
  · simp only [h0, if_true, if_neg hlt, Option.some_bind, store_pnl_some _ _ _ _ _ _ _ hcm,
      Option.map_some']
    exact ⟨_, rfl, rfl⟩
  · simp only [h0, hneg, if_false, if_neg hlt, Option.some_bind,
      store_pnl_some _ _ _ _ _ _ _ hcm, Option.map_some']
    exact ⟨_, rfl, rfl⟩

/-- C5. For every non-empty homogeneous stack whose front has side opposite to
`s` and price > 0, with sweetener >= 0, contract multiplier > 0 and a positive
resulting price, a fill of side `s` at price `get_price_to_use s future` and
volume `get_volume_to_use s c` (`c > 0`) applied through `update_levels` emits
exactly one PnL entry, and it is >= 0; a BUY hedge price is at most
`front.price - contract_multiplier*sweetener` and a SELL hedge price at least
`front.price + contract_multiplier*sweetener`. The volume of the front is a
volume of the book, hence not negative. -/
theorem hedge_fill_never_at_a_loss (self : levels) (s : side_t) (future : instrument_t)
    (cm c price : ℚ) (front : level_t) (rest : List level_t)
    (hstack : self.m_levels = front :: rest) (_hom : homogeneous self.m_levels)
    (hside : front.side ≠ s) (hfront : 0 < front.price) (hvolume : 0 ≤ front.volume)
    (hsweetener : 0 ≤ self.m_price_sweetener)
    (hcm : future.contract_multiplier = some cm) (hcmpos : 0 < cm)
    (hprice : self.get_price_to_use s future = some price) (hpos : 0 < price)
    (hc : 0 < c) :
    (∃ next entry,
        self.update_levels (self.get_volume_to_use s c) price s future = some next ∧
        next.pnl_log = self.pnl_log ++ [entry] ∧ 0 ≤ entry.calculated_pnl) ∧
      (s = side_t.BUY → price ≤ front.price - cm * self.m_price_sweetener) ∧
      (s = side_t.SELL → front.price + cm * self.m_price_sweetener ≤ price) := by
  have hmargin : 0 ≤ cm * self.m_price_sweetener := mul_nonneg hcmpos.le hsweetener
  have hbuy : s = side_t.BUY → price ≤ front.price - cm * self.m_price_sweetener := by
    intro hs
    unfold levels.get_price_to_use at hprice
    rw [hstack] at hprice
    simp only [hs, if_true, hcm] at hprice
    split at hprice
    · rename_i cm2 bbo h1 h2
      cases h1
      split at hprice
      · exact absurd hprice (by simp)
      · rw [filled_volume_eq_min] at hprice
        cases hprice
        exact min_le_right _ _
    · exact absurd hprice (by simp)
  have hsell : s = side_t.SELL → front.price + cm * self.m_price_sweetener ≤ price := by
    intro hs
    unfold levels.get_price_to_use at hprice
    rw [hstack] at hprice
    simp only [hs, if_neg (show ¬ side_t.SELL = side_t.BUY by decide), hcm] at hprice
    split at hprice
    · rename_i cm2 bbo h1 h2
      cases h1
      split at hprice
      · exact absurd hprice (by simp)
      · rename_i ask hask
        cases hprice
        by_cases h : ask > front.price + cm * self.m_price_sweetener
        · rw [if_pos h]; exact le_of_lt h
        · rw [if_neg h]
    · exact absurd hprice (by simp)
  refine ⟨?_, hbuy, hsell⟩
  have hvol : self.get_volume_to_use s c = min c front.volume :=
    get_volume_to_use_opposite self s c front rest hstack hside
  have hv0 : 0 ≤ min c front.volume := le_min hc.le hvolume
  obtain ⟨next, hnext, hlog⟩ :=
    update_levels_within_front self (min c front.volume) price s future cm front rest hstack
      hside hcm (min_le_right _ _)
  refine ⟨next, _, by rw [hvol]; exact hnext, hlog, ?_⟩
  rw [pnl_entry_calculated_pnl]
  apply mul_nonneg (mul_nonneg hv0 hcmpos.le)
  cases s with
  | BUY =>
    have h1 : price ≤ front.price := by linarith [hbuy rfl]
    simp only [if_true, sub_nonneg]
    exact one_div_le_one_div_of_le hpos h1
  | SELL =>
    have h1 : front.price ≤ price := by linarith [hsell rfl]
    simp only [if_neg (show ¬ side_t.SELL = side_t.BUY by decide), sub_nonneg]
    exact one_div_le_one_div_of_le hfront h1

/-- C5, on a concrete input: the SELL entry `{860, 3600}` of scenario 3,
sweetener 1/2, contract multiplier 10, bid 3400 and a BUY correction of 500. -/
theorem hedge_fill_never_at_a_loss_witness :
    (levels_of [⟨860, 3600, side_t.SELL⟩] (1 / 2)).m_levels = [⟨860, 3600, side_t.SELL⟩] ∧
      homogeneous (levels_of [⟨860, 3600, side_t.SELL⟩] (1 / 2)).m_levels ∧
      (levels_of [⟨860, 3600, side_t.SELL⟩] (1 / 2)).get_price_to_use side_t.BUY
        (perpetual 3400 3401) = some 3400 ∧
      (∃ next entry,
        (levels_of [⟨860, 3600, side_t.SELL⟩] (1 / 2)).update_levels
          ((levels_of [⟨860, 3600, side_t.SELL⟩] (1 / 2)).get_volume_to_use side_t.BUY 500)
          3400 side_t.BUY (perpetual 3400 3401) = some next ∧
        next.pnl_log = (levels_of [⟨860, 3600, side_t.SELL⟩] (1 / 2)).pnl_log ++ [entry] ∧
        0 ≤ entry.calculated_pnl) ∧
      (side_t.BUY = side_t.BUY → (3400 : ℚ) ≤
        (⟨860, 3600, side_t.SELL⟩ : level_t).price -
          10 * (levels_of [⟨860, 3600, side_t.SELL⟩] (1 / 2)).m_price_sweetener) ∧
      (side_t.BUY = side_t.SELL →
        (⟨860, 3600, side_t.SELL⟩ : level_t).price +
          10 * (levels_of [⟨860, 3600, side_t.SELL⟩] (1 / 2)).m_price_sweetener ≤ (3400 : ℚ)) :=
  have hprice : (levels_of [⟨860, 3600, side_t.SELL⟩] (1 / 2)).get_price_to_use side_t.BUY
      (perpetual 3400 3401) = some 3400 := by
    norm_num +decide [levels.get_price_to_use, levels_of, perpetual]
  ⟨rfl, by simp [levels_of, homogeneous], hprice,
    hedge_fill_never_at_a_loss (levels_of [⟨860, 3600, side_t.SELL⟩] (1 / 2)) side_t.BUY
      (perpetual 3400 3401) 10 500 3400 ⟨860, 3600, side_t.SELL⟩ [] rfl
      (by simp [levels_of, homogeneous]) (by decide) (by norm_num) (by norm_num)
      (by norm_num [levels_of]) rfl (by norm_num) hprice (by norm_num) (by norm_num)⟩

/-! ## Rounding to `double` -/

theorem round_half_even_intCast (z : ℤ) : round_half_even (z : ℚ) = z := by
  unfold round_half_even
  rw [Int.floor_intCast, sub_self, if_pos (by norm_num)]

theorem binary_exponent_of_bounds (x : ℚ) (e : ℤ) (h1 : (2 : ℚ) ^ e ≤ x)
    (h2 : x < (2 : ℚ) ^ (e + 1)) : Int.log 2 x = e := by
  have hx : 0 < x := lt_of_lt_of_le (zpow_pos (by norm_num) e) h1
  apply le_antisymm
  · have h := (Int.lt_zpow_iff_log_lt (by norm_num : 1 < 2) hx).1
      (show x < ((2 : ℕ) : ℚ) ^ (e + 1) by exact_mod_cast h2)
    omega
  · exact (Int.zpow_le_iff_le_log (by norm_num : 1 < 2) hx).1
      (show ((2 : ℕ) : ℚ) ^ e ≤ x by exact_mod_cast h1)

theorem round_half_even_of_lt (x : ℚ) (n : ℤ) (h1 : (n : ℚ) ≤ x) (h2 : x - n < 1 / 2) :
    round_half_even x = n := by
  have hf : ⌊x⌋ = n := by
    rw [Int.floor_eq_iff]
    constructor
    · exact h1
    · linarith
  unfold round_half_even
  rw [hf, if_pos h2]

theorem round_half_even_of_gt (x : ℚ) (n : ℤ) (h1 : 1 / 2 < x - n) (h2 : x < n + 1) :
    round_half_even x = n + 1 := by
  have hf : ⌊x⌋ = n := by
    rw [Int.floor_eq_iff]
    constructor
    · linarith
    · exact h2
  unfold round_half_even
  rw [hf, if_neg (not_lt.2 (le_of_lt h1)), if_pos h1]

theorem round_half_even_tie_even (x : ℚ) (n : ℤ) (h : x - n = 1 / 2) (heven : n % 2 = 0) :
    round_half_even x = n := by
  have hf : ⌊x⌋ = n := by
    rw [Int.floor_eq_iff]
    constructor <;> linarith
  unfold round_half_even
  rw [hf, if_neg (by rw [h]; exact lt_irrefl _), if_neg (by rw [h]; exact lt_irrefl _),
    if_pos heven]

theorem round_half_even_tie_odd (x : ℚ) (n : ℤ) (h : x - n = 1 / 2) (hodd : n % 2 ≠ 0) :
    round_half_even x = n + 1 := by
  have hf : ⌊x⌋ = n := by
    rw [Int.floor_eq_iff]
    constructor <;> linarith
  unfold round_half_even
  rw [hf, if_neg (by rw [h]; exact lt_irrefl _), if_neg (by rw [h]; exact lt_irrefl _),
    if_neg hodd]

/-- The rounding of a positive number of binary exponent `e`. -/
theorem to_double_of_bounds (x : ℚ) (e m : ℤ) (h1 : (2 : ℚ) ^ e ≤ x)
    (h2 : x < (2 : ℚ) ^ (e + 1)) (hm : round_half_even (x / 2 ^ (e - 52)) = m) :
    to_double x = m * 2 ^ (e - 52) := by
  have hx : 0 < x := lt_of_lt_of_le (zpow_pos (by norm_num) e) h1
  unfold to_double
  simp only [if_neg (ne_of_gt hx), if_neg (not_lt.2 hx.le), abs_of_pos hx, one_mul,
    binary_exponent_of_bounds x e h1 h2, hm]

theorem to_double_neg (x : ℚ) : to_double (-x) = -to_double x := by
  unfold to_double
  rcases lt_trichotomy x 0 with h | h | h
  · have h1 : ¬ -x < 0 := by linarith
    simp only [neg_eq_zero, ne_of_lt h, if_false, abs_neg, h, if_true, h1]
    ring
  · subst h
    simp
  · have h1 : -x < 0 := by linarith
    have h2 : ¬ x < 0 := by linarith
    simp only [neg_eq_zero, ne_of_gt h, if_false, abs_neg, h1, if_true, h2]
    ring

/-- An integer of less than 54 bits is a `double`. -/
theorem to_double_intCast (n : ℤ) (h : |n| < 2 ^ 53) : to_double (n : ℚ) = n := by
  have key : ∀ k : ℤ, 0 < k → k < 2 ^ 53 → to_double (k : ℚ) = k := by
    intro k hk0 hk
    have hkq : (0 : ℚ) < k := by exact_mod_cast hk0
    have hlog0 : 0 ≤ Int.log 2 (k : ℚ) :=
      (Int.zpow_le_iff_le_log (by norm_num : 1 < 2) hkq).1
        (by simp only [zpow_zero]; exact_mod_cast hk0)
    have hlog52 : Int.log 2 (k : ℚ) < 53 :=
      (Int.lt_zpow_iff_log_lt (by norm_num : 1 < 2) hkq).1
        (by
          have : ((2 : ℕ) : ℚ) ^ (53 : ℤ) = ((2 ^ 53 : ℤ) : ℚ) := by norm_num
          rw [this]
          exact_mod_cast hk)
    obtain ⟨d, hd⟩ : ∃ d : ℕ, Int.log 2 (k : ℚ) - 52 = -(d : ℤ) :=
      ⟨(52 - Int.log 2 (k : ℚ)).toNat, by omega⟩
    have hscale : (k : ℚ) / 2 ^ (Int.log 2 (k : ℚ) - 52) = ((k * 2 ^ d : ℤ) : ℚ) := by
      rw [hd, zpow_neg, zpow_natCast]
      push_cast
      field_simp
    unfold to_double
    simp only [if_neg (ne_of_gt hkq), if_neg (not_lt.2 hkq.le), abs_of_pos hkq, one_mul]
    rw [hscale, round_half_even_intCast, hd, zpow_neg, zpow_natCast]
    push_cast
    field_simp
  rcases lt_trichotomy n 0 with hn | hn | hn
  · have h1 := key (-n) (by omega) (by rw [abs_of_neg hn] at h; exact h)
    have h2 : to_double (-(n : ℚ)) = -(n : ℚ) := by exact_mod_cast h1
    rw [to_double_neg] at h2
    linarith
  · subst hn
    simp [to_double]
  · exact key n hn (by rw [abs_of_pos hn] at h; exact h)

theorem static_cast_int_intCast (z : ℤ) (h1 : -2147483648 ≤ z) (h2 : z ≤ 2147483647) :
    static_cast_int (z : ℚ) = some z := by
  unfold static_cast_int
  by_cases h : (0 : ℚ) ≤ (z : ℚ)
  · simp only [h, if_true, Int.floor_intCast, h1, h2, and_self]
  · simp only [h, if_false, Int.ceil_intCast, h1, h2, and_self, if_true]

theorem round_half_away_intCast (z : ℤ) : round_half_away (z : ℚ) = z := by
  unfold round_half_away
  by_cases h : (0 : ℚ) ≤ (z : ℚ)
  · rw [if_pos h, Int.floor_eq_iff]
    constructor <;> norm_num
  · rw [if_neg h, Int.ceil_eq_iff]
    constructor <;> norm_num

theorem to_double_864_div_10 :
    to_double (864 / 10) = 6079859496950170 * 2 ^ (-46 : ℤ) := by
  have h := to_double_of_bounds (864 / 10) 6 (6079859496950169 + 1) (by norm_num)
    (by norm_num) (round_half_even_of_gt _ 6079859496950169 (by norm_num) (by norm_num))
  rw [h]
  norm_num

/-- Dividing 864 by the multiplier 10 and multiplying by it again, in `double`
arithmetic, gives 864. -/
theorem round_trip_864 : to_double (to_double (((864 : ℤ) : ℚ) / 10) * 10) = ((864 : ℤ) : ℚ) := by
  have hq : (((864 : ℤ) : ℚ) / 10) = 864 / 10 := by norm_num
  rw [hq, to_double_864_div_10]
  have h := to_double_of_bounds (6079859496950170 * 2 ^ (-46 : ℤ) * 10) 9 7599824371187712
    (by norm_num) (by norm_num)
    (round_half_even_tie_even _ 7599824371187712 (by norm_num) (by norm_num))
  rw [h]
  norm_num

/-- Dividing 30 by the multiplier 10 and multiplying by it again, in `double`
arithmetic, gives 30. -/
theorem round_trip_30 : to_double (to_double (((30 : ℤ) : ℚ) / 10) * 10) = ((30 : ℤ) : ℚ) := by
  have hq : (((30 : ℤ) : ℚ) / 10) = ((3 : ℤ) : ℚ) := by norm_num
  rw [hq, to_double_intCast 3 (by norm_num)]
  have hp : ((3 : ℤ) : ℚ) * 10 = ((30 : ℤ) : ℚ) := by norm_num
  rw [hp, to_double_intCast 30 (by norm_num)]

/-- When the division by the contract multiplier, a `double`, is undone by the
multiplication, both rounded to `double`, the hedge size is the rounded
quotient itself. -/
theorem corrections_todo_eq_raw (total_delta delta_per_future cm : ℚ) (raw : ℤ)
    (hraw : total_delta / delta_per_future = raw) (hdelta : delta_per_future ≠ 0)
    (hround : to_double (to_double ((raw : ℚ) / cm) * cm) = raw)
    (h1 : -2147483648 ≤ raw) (h2 : raw ≤ 2147483647) :
    corrections_todo total_delta delta_per_future cm = some raw := by
  unfold corrections_todo
  rw [if_neg hdelta, hraw, round_half_away_intCast, static_cast_int_intCast raw h1 h2,
    Option.some_bind, hround, static_cast_int_intCast raw h1 h2]

theorem evaluate_corrections_eq (self updated : gamma_scalper) (kernel : pricing_t)
    (now maturity_date : ptime) (straddle_call future : instrument_t) (cm mid : ℚ)
    (corrections : ℤ) (hcall : self.m_straddle_call = some straddle_call)
    (hmaturity : straddle_call.maturity_date = some maturity_date)
    (hnow : ¬ (((maturity_date.date - now.date : ℤ) : ℚ) / 360 < 0))
    (hdeltas : self.update_deltas kernel (((maturity_date.date - now.date : ℤ) : ℚ) / 360) =
      Except.ok (none, updated))
    (hfuture : updated.m_future = some future) (hcm : future.contract_multiplier = some cm)
    (hmid : details.get_price future.bbo = some mid)
    (hcorrections :
      corrections_todo (updated.m_delta_put + updated.m_delta_call + updated.m_delta_future)
        (cm / mid) cm = some corrections) :
    self.evaluate_corrections kernel now = Except.ok (updated, some corrections) := by
  simp only [gamma_scalper.evaluate_corrections, hcall, hmaturity, deref, bind, Except.bind,
    hnow, if_false, hdeltas, hfuture, hcm, hmid, hcorrections]

theorem scenario_5_deltas (self : gamma_scalper)
    (hfuture : self.m_future = some (perpetual 3599 3601))
    (hcall : self.m_straddle_call = some (straddle_option "BTC-C" option_type_t.CALL))
    (hput : self.m_straddle_put = some (straddle_option "BTC-P" option_type_t.PUT))
    (hpositions : self.m_positions = (straddle_state 3599 3601 none []).m_positions)
    (hrate : self.m_interest_rate = 0) :
    self.update_deltas (constant_kernel (1 / 120) 0) ((((30 : ℤ) - 0 : ℤ) : ℚ) / 360) =
      Except.ok (none,
        { self with m_delta_future := 0, m_delta_call := 1 / 12, m_delta_put := 0 }) := by
  simp [gamma_scalper.update_deltas, hfuture, hcall, hput, hpositions, hrate, straddle_state,
    deref, bind, Except.bind, straddle_option, perpetual, details.get_price,
    details.get_call_price, details.get_put_price, details.get_delta, constant_kernel,
    double_t.neg, gamma_scalper.signed_position, List.lookup]
  norm_num

theorem scenario_2_deltas :
    (straddle_state 3599 3601 none []).update_deltas (constant_kernel (62 / 100) (38 / 100))
        ((((30 : ℤ) - 0 : ℤ) : ℚ) / 360) =
      Except.ok (none,
        { straddle_state 3599 3601 none [] with
          m_delta_future := 0, m_delta_call := 31 / 5, m_delta_put := -19 / 5 }) := by
  simp [gamma_scalper.update_deltas, straddle_state, deref, bind, Except.bind,
    straddle_option, perpetual, details.get_price, details.get_call_price,
    details.get_put_price, details.get_delta, constant_kernel, double_t.neg,
    gamma_scalper.signed_position, List.lookup]
  norm_num

theorem scenario_2_corrections :
    (straddle_state 3599 3601 none []).evaluate_corrections
        (constant_kernel (62 / 100) (38 / 100)) ⟨0, 0⟩ =
      Except.ok
        ({ straddle_state 3599 3601 none [] with
            m_delta_future := 0, m_delta_call := 31 / 5, m_delta_put := -19 / 5 },
          some 864) :=
  evaluate_corrections_eq _ _ _ ⟨0, 0⟩ ⟨30, 0⟩ (straddle_option "BTC-C" option_type_t.CALL)
    (perpetual 3599 3601) 10 3600 864 rfl rfl (by norm_num) scenario_2_deltas rfl rfl
    (by norm_num [details.get_price, perpetual])
    (corrections_todo_eq_raw _ _ _ 864 (by norm_num) (by norm_num) round_trip_864
      (by norm_num) (by norm_num))

/-- C8. The code at the failing input, scenario 2 of the specification: total
delta 2.4 and delta per future 10/3600 give `raw = 864`; with contract
multiplier 10 the hedge size computed by `evaluate` is 864, not the multiple
`floor (864/10) * 10 = 860`, and the order sent is SELL 864. -/
theorem corrections_todo_not_rounded_to_multiplier :
    round_half_away ((12 / 5 : ℚ) / (10 / 3600)) = 864 ∧
      corrections_todo (12 / 5) (10 / 3600) 10 = some 864 ∧
      ⌊((864 : ℤ) : ℚ) / 10⌋ * 10 = 860 ∧
      ((straddle_state 3599 3601 none []).evaluate (constant_kernel (62 / 100) (38 / 100))
          ⟨0, 0⟩).toOption.map (fun final => final.m_market.sent) =
        some [market_message_t.send_gtc_order "0" "BTC-PERPETUAL" side_t.SELL 3601 864] := by
  refine ⟨?_, ?_, ?_, ?_⟩
  · have h : ((12 / 5 : ℚ) / (10 / 3600)) = ((864 : ℤ) : ℚ) := by norm_num
    rw [h, round_half_away_intCast]
  · exact corrections_todo_eq_raw _ _ _ 864 (by norm_num) (by norm_num) round_trip_864
      (by norm_num) (by norm_num)
  · have h : ⌊((864 : ℤ) : ℚ) / 10⌋ = 86 := by
      rw [Int.floor_eq_iff]; constructor <;> norm_num
    rw [h]; norm_num
  · simp only [gamma_scalper.evaluate, scenario_2_corrections, bind, Except.bind]
    norm_num +decide [gamma_scalper.evaluate_order, straddle_state, deref, bind, Except.bind,
      levels.get_price_to_use, levels.get_volume_to_use, levels_of, perpetual, abs_int,
      quickfix.send_gtc_order, Except.toOption]

/-! ## Frame of the delta update -/

theorem update_deltas_frame (self st : gamma_scalper) (kernel : pricing_t) (t : ℚ)
    (r : Option String) (h : self.update_deltas kernel t = Except.ok (r, st)) :
    st = { self with
      m_delta_future := st.m_delta_future, m_delta_call := st.m_delta_call,
      m_delta_put := st.m_delta_put } := by
  unfold gamma_scalper.update_deltas at h
  simp only [bind, Except.bind] at h
  repeat' split at h
  all_goals first
    | (cases h; done)
    | (simp only [Except.ok.injEq, Prod.mk.injEq] at h
       obtain ⟨h1, h2⟩ := h
       subst h2; subst h1; simp)

theorem deref_eq_ok {α : Type} {o : Option α} {a : α} (h : deref o = Except.ok a) :
    o = some a := by
  cases o with
  | none => cases h
  | some b => cases h; rfl

theorem evaluate_corrections_frame (self updated : gamma_scalper) (kernel : pricing_t)
    (now : ptime) (decision : Option ℤ)
    (h : self.evaluate_corrections kernel now = Except.ok (updated, decision)) :
    updated = { self with
        m_delta_future := updated.m_delta_future, m_delta_call := updated.m_delta_call,
        m_delta_put := updated.m_delta_put } ∧
      (decision ≠ none → ∃ future cm mid, self.m_future = some future ∧
        future.contract_multiplier = some cm ∧ details.get_price future.bbo = some mid) := by
  unfold gamma_scalper.evaluate_corrections at h
  simp only [bind, Except.bind] at h
  split at h
  · cases h
  · split at h
    · cases h
    · split at h
      · cases h
      · split at h
        · cases h
        · rename_i x res hres
          split at h
          · rename_i msg skipped
            simp only [Except.ok.injEq, Prod.mk.injEq] at h
            obtain ⟨h1, h2⟩ := h
            subst h1; subst h2
            exact ⟨update_deltas_frame _ _ _ _ _ hres, fun hc => absurd rfl hc⟩
          · rename_i upd
            have hf := update_deltas_frame _ _ _ _ _ hres
            split at h
            · cases h
            · rename_i future hfut
              split at h
              · cases h
              · rename_i cm hcm
                split at h
                · cases h
                · rename_i mid hmid
                  split at h
                  · cases h
                  · simp only [Except.ok.injEq, Prod.mk.injEq] at h
                    obtain ⟨h1, h2⟩ := h
                    subst h1
                    refine ⟨hf, fun _ =>
                      ⟨future, cm, mid, ?_, deref_eq_ok hcm, deref_eq_ok hmid⟩⟩
                    have := deref_eq_ok hfut
                    rw [hf] at this
                    exact this

theorem get_price_some (bbo : Option BBO_t) (mid : ℚ) (h : details.get_price bbo = some mid) :
    ∃ b bid ask, bbo = some b ∧ b.bid = some bid ∧ b.ask = some ask := by
  unfold details.get_price at h
  cases bbo with
  | none => cases h
  | some b =>
    cases hb : b.bid with
    | none => simp [hb] at h
    | some bid =>
      cases ha : b.ask with
      | none => simp [ha] at h
      | some ask => exact ⟨b, bid, ask, rfl, hb, ha⟩

/-! ## Order placement -/

/-- C9. Order placement: when `evaluate` reaches the decision with no working
order and a hedge size `c` different from 0 (whose absolute value is an `int`),
it returns, having sent exactly one GTC order on the future symbol with
side BUY if `c < 0` else SELL, price `get_price_to_use side future` and volume
`get_volume_to_use side |c|`, and having recorded a working order whose
`original_id` is the id returned by the transport, with `open_volume` that
volume, `full_volume` 0, and the same side and price. -/
theorem evaluate_places_hedge_order (self updated : gamma_scalper) (kernel : pricing_t)
    (now : ptime) (c : ℤ)
    (hcorr : self.evaluate_corrections kernel now = Except.ok (updated, some c))
    (horder : self.m_order = none) (hc : c ≠ 0) (hmin : c ≠ -2147483648) :
    ∃ future price,
      self.m_future = some future ∧
      self.m_levels.get_price_to_use (if c < 0 then side_t.BUY else side_t.SELL) future =
        some price ∧
      self.evaluate kernel now = Except.ok
        { updated with
          m_market :=
            (self.m_market.send_gtc_order future.symbol
              (if c < 0 then side_t.BUY else side_t.SELL) price
              (self.m_levels.get_volume_to_use (if c < 0 then side_t.BUY else side_t.SELL)
                ((|c| : ℤ) : ℚ))).2
          m_order := some
            { id := ""
              original_id :=
                (self.m_market.send_gtc_order future.symbol
                  (if c < 0 then side_t.BUY else side_t.SELL) price
                  (self.m_levels.get_volume_to_use
                    (if c < 0 then side_t.BUY else side_t.SELL) ((|c| : ℤ) : ℚ))).1
              side := if c < 0 then side_t.BUY else side_t.SELL
              order_price := price
              full_volume := 0
              open_volume :=
                self.m_levels.get_volume_to_use (if c < 0 then side_t.BUY else side_t.SELL)
                  ((|c| : ℤ) : ℚ) } } ∧
      (self.m_market.send_gtc_order future.symbol
          (if c < 0 then side_t.BUY else side_t.SELL) price
          (self.m_levels.get_volume_to_use (if c < 0 then side_t.BUY else side_t.SELL)
            ((|c| : ℤ) : ℚ))).2.sent =
        self.m_market.sent ++
          [market_message_t.send_gtc_order (toString self.m_market.m_order_identifier)
            future.symbol (if c < 0 then side_t.BUY else side_t.SELL) price
            (self.m_levels.get_volume_to_use (if c < 0 then side_t.BUY else side_t.SELL)
              ((|c| : ℤ) : ℚ))] := by
  obtain ⟨hframe, hfut⟩ := evaluate_corrections_frame self updated kernel now _ hcorr
  obtain ⟨future, cm, mid, hfuture, hcm, hmid⟩ := hfut (by simp)
  obtain ⟨bbo, bid, ask, hbbo, hbid, hask⟩ := get_price_some _ _ hmid
  have hprice := get_price_to_use_eq_reference self.m_levels
    (if c < 0 then side_t.BUY else side_t.SELL) future bbo bid ask cm hbbo hbid hask hcm
  refine ⟨future, _, hfuture, hprice, ?_, rfl⟩
  have h1 : updated.m_order = none := by rw [hframe]; exact horder
  have h2 : updated.m_future = some future := by rw [hframe]; exact hfuture
  have h3 : updated.m_levels = self.m_levels := by rw [hframe]
  have h4 : updated.m_market = self.m_market := by rw [hframe]
  simp only [gamma_scalper.evaluate, hcorr, bind, Except.bind, gamma_scalper.evaluate_order,
    hc, ne_eq, not_false_eq_true, if_true, h1, h2, h3, h4, deref, hprice, abs_int, hmin,
    if_false]

/-- C9, on a concrete input: scenario 2 of the specification, where the deltas
0.62 and -0.38 on a flat future with mid 3600 give the hedge size 864. -/
theorem evaluate_places_hedge_order_witness :
    (straddle_state 3599 3601 none []).evaluate_corrections
        (constant_kernel (62 / 100) (38 / 100)) ⟨0, 0⟩ =
      Except.ok
        ({ straddle_state 3599 3601 none [] with
            m_delta_future := 0, m_delta_call := 31 / 5, m_delta_put := -19 / 5 },
          some 864) ∧
      (straddle_state 3599 3601 none []).m_order = none ∧
      ((straddle_state 3599 3601 none []).evaluate (constant_kernel (62 / 100) (38 / 100))
          ⟨0, 0⟩).toOption.map (fun final => (final.m_market.sent, final.m_order)) =
        some ([market_message_t.send_gtc_order "0" "BTC-PERPETUAL" side_t.SELL 3601 864],
          some { id := "", original_id := "0", side := side_t.SELL, order_price := 3601,
                 full_volume := 0, open_volume := 864 }) := by
  refine ⟨scenario_2_corrections, rfl, ?_⟩
  obtain ⟨future, price, hfuture, hprice, hrun, _⟩ :=
    evaluate_places_hedge_order (straddle_state 3599 3601 none []) _
      (constant_kernel (62 / 100) (38 / 100)) ⟨0, 0⟩ 864 scenario_2_corrections rfl
      (by decide) (by decide)
  have hf : future = perpetual 3599 3601 := by
    have : (straddle_state 3599 3601 none []).m_future = some (perpetual 3599 3601) := rfl
    rw [this] at hfuture
    exact (Option.some.inj hfuture).symm
  subst hf
  have hp : price = 3601 := by
    have : (straddle_state 3599 3601 none []).m_levels.get_price_to_use
        (if (864 : ℤ) < 0 then side_t.BUY else side_t.SELL) (perpetual 3599 3601) =
          some 3601 := by
      norm_num +decide [levels.get_price_to_use, straddle_state, levels_of, perpetual]
    rw [this] at hprice
    exact (Option.some.inj hprice).symm
  subst hp
  rw [hrun]
  norm_num +decide [Except.toOption, quickfix.send_gtc_order, straddle_state,
    levels.get_volume_to_use, levels_of, perpetual]

/-! ## At most one working order -/

theorem evaluate_with_working_order (self updated : gamma_scalper) (kernel : pricing_t)
    (now : ptime) (decision : Option ℤ) (order : order_t)
    (hcorr : self.evaluate_corrections kernel now = Except.ok (updated, decision))
    (horder : self.m_order = some order) :
    ∃ final new, self.evaluate kernel now = Except.ok final ∧ final.m_order = some order ∧
      final.m_market.sent = self.m_market.sent ++ new ∧
      (new = [] ∨ new = [market_message_t.send_cancel_order
        (toString self.m_market.m_order_identifier) order.id]) ∧
      (decision = none → new = []) ∧
      (∀ c, decision = some c →
        (c = 0 ∨ order.side = (if c < 0 then side_t.BUY else side_t.SELL) → new = []) ∧
        (c ≠ 0 → order.side ≠ (if c < 0 then side_t.BUY else side_t.SELL) →
          new = [market_message_t.send_cancel_order
            (toString self.m_market.m_order_identifier) order.id])) := by
  obtain ⟨hframe, _⟩ := evaluate_corrections_frame self updated kernel now _ hcorr
  have h1 : updated.m_order = some order := by rw [hframe]; exact horder
  have h4 : updated.m_market = self.m_market := by rw [hframe]
  have hnothing : self.evaluate kernel now = Except.ok updated →
      (∀ c, decision = some c →
        c = 0 ∨ order.side = (if c < 0 then side_t.BUY else side_t.SELL)) →
      ∃ final new, self.evaluate kernel now = Except.ok final ∧ final.m_order = some order ∧
        final.m_market.sent = self.m_market.sent ++ new ∧
        (new = [] ∨ new = [market_message_t.send_cancel_order
          (toString self.m_market.m_order_identifier) order.id]) ∧
        (decision = none → new = []) ∧
        (∀ c, decision = some c →
          (c = 0 ∨ order.side = (if c < 0 then side_t.BUY else side_t.SELL) → new = []) ∧
          (c ≠ 0 → order.side ≠ (if c < 0 then side_t.BUY else side_t.SELL) →
            new = [market_message_t.send_cancel_order
              (toString self.m_market.m_order_identifier) order.id])) := by
    intro hrun hdec
    refine ⟨updated, [], hrun, h1, by rw [h4, List.append_nil], Or.inl rfl, fun _ => rfl, ?_⟩
    intro c hdc
    refine ⟨fun _ => rfl, fun hc hs => ?_⟩
    rcases hdec c hdc with h | h
    · exact absurd h hc
    · exact absurd h hs
  cases decision with
  | none =>
    apply hnothing
    · simp only [gamma_scalper.evaluate, hcorr, bind, Except.bind]
    · intro c hdc; cases hdc
  | some c =>
    by_cases hc : c = 0
    · apply hnothing
      · simp only [gamma_scalper.evaluate, hcorr, bind, Except.bind,
          gamma_scalper.evaluate_order, hc, ne_eq, not_true_eq_false, if_false]
      · intro d hdc; cases hdc; exact Or.inl hc
    · by_cases hs : order.side = (if c < 0 then side_t.BUY else side_t.SELL)
      · apply hnothing
        · simp only [gamma_scalper.evaluate, hcorr, bind, Except.bind,
            gamma_scalper.evaluate_order, hc, ne_eq, not_false_eq_true, if_true, h1, hs,
            not_true_eq_false, if_false]
        · intro d hdc; cases hdc; exact Or.inr hs
      · refine ⟨{ updated with m_market := updated.m_market.send_cancel_order order.id },
          _, ?_, h1, ?_, Or.inr rfl, (fun h => by cases h), ?_⟩
        · simp only [gamma_scalper.evaluate, hcorr, bind, Except.bind,
            gamma_scalper.evaluate_order, hc, ne_eq, not_false_eq_true, if_true, h1, hs]
        · simp only [h4, quickfix.send_cancel_order]
        · intro d hdc
          cases hdc
          refine ⟨fun h => ?_, fun _ _ => rfl⟩
          rcases h with h | h
          · exact absurd h hc
          · exact absurd h hs

/-- C10. At most one working order. In every controller state in which
`evaluate` reaches the decision (the hedge size `decision`, absent when the
cycle is skipped): a new hedge order is among the messages sent only if no
working order is recorded; when a working order is recorded, `evaluate`
returns, leaves the working-order record unchanged, sends no new order, sends
nothing at all if the decided side equals the side of the working order (or if
the hedge size is 0 or the cycle skipped), and sends exactly one cancel, for
the id of the working order, if the sides differ. -/
theorem evaluate_at_most_one_working_order (self updated : gamma_scalper)
    (kernel : pricing_t) (now : ptime) (decision : Option ℤ)
    (hcorr : self.evaluate_corrections kernel now = Except.ok (updated, decision)) :
    (∀ final new, self.evaluate kernel now = Except.ok final →
        final.m_market.sent = self.m_market.sent ++ new →
        (∃ m ∈ new, is_gtc_order m = true) → self.m_order = none) ∧
      (∀ order, self.m_order = some order →
        ∃ final new, self.evaluate kernel now = Except.ok final ∧
          final.m_order = some order ∧
          final.m_market.sent = self.m_market.sent ++ new ∧
          (∀ m ∈ new, is_gtc_order m = false) ∧
          (decision = none → new = []) ∧
          (∀ c, decision = some c →
            (c = 0 ∨ order.side = (if c < 0 then side_t.BUY else side_t.SELL) → new = []) ∧
            (c ≠ 0 → order.side ≠ (if c < 0 then side_t.BUY else side_t.SELL) →
              new = [market_message_t.send_cancel_order
                (toString self.m_market.m_order_identifier) order.id]))) := by
  have hsecond : ∀ order, self.m_order = some order →
      ∃ final new, self.evaluate kernel now = Except.ok final ∧
        final.m_order = some order ∧
        final.m_market.sent = self.m_market.sent ++ new ∧
        (∀ m ∈ new, is_gtc_order m = false) ∧
        (decision = none → new = []) ∧
        (∀ c, decision = some c →
          (c = 0 ∨ order.side = (if c < 0 then side_t.BUY else side_t.SELL) → new = []) ∧
          (c ≠ 0 → order.side ≠ (if c < 0 then side_t.BUY else side_t.SELL) →
            new = [market_message_t.send_cancel_order
              (toString self.m_market.m_order_identifier) order.id])) := by
    intro order horder
    obtain ⟨final, new, hrun, hkeep, hsent, hshape, hnone, hsome⟩ :=
      evaluate_with_working_order self updated kernel now decision order hcorr horder
    refine ⟨final, new, hrun, hkeep, hsent, ?_, hnone, hsome⟩
    intro m hm
    rcases hshape with h | h
    · rw [h] at hm; cases hm
    · rw [h, List.mem_singleton] at hm
      rw [hm]; rfl
  refine ⟨?_, hsecond⟩
  intro final new hrun hsent hgtc
  cases horder : self.m_order with
  | none => rfl
  | some order =>
    exfalso
    obtain ⟨final2, new2, hrun2, _, hsent2, hno, _⟩ := hsecond order horder
    rw [hrun] at hrun2
    cases hrun2
    rw [hsent] at hsent2
    have hnew : new = new2 := List.append_cancel_left hsent2
    obtain ⟨m, hm, hmg⟩ := hgtc
    rw [hnew] at hm
    rw [hno m hm] at hmg
    cases hmg

theorem scenario_5_corrections :
    (straddle_state 3599 3601
        (some { id := "7", original_id := "7", side := side_t.BUY, order_price := 3590,
                full_volume := 0, open_volume := 50 }) []).evaluate_corrections
        (constant_kernel (1 / 120) 0) ⟨0, 0⟩ =
      Except.ok
        ({ straddle_state 3599 3601
              (some { id := "7", original_id := "7", side := side_t.BUY, order_price := 3590,
                      full_volume := 0, open_volume := 50 }) [] with
            m_delta_future := 0, m_delta_call := 1 / 12, m_delta_put := 0 },
          some 30) :=
  evaluate_corrections_eq _ _ _ ⟨0, 0⟩ ⟨30, 0⟩ (straddle_option "BTC-C" option_type_t.CALL)
    (perpetual 3599 3601) 10 3600 30 rfl rfl (by norm_num)
    (scenario_5_deltas _ rfl rfl rfl rfl rfl) rfl rfl
    (by norm_num [details.get_price, perpetual])
    (corrections_todo_eq_raw _ _ _ 30 (by norm_num) (by norm_num) round_trip_30
      (by norm_num) (by norm_num))

/-- C10, on a concrete input: scenario 5 of the specification. A working BUY of
50 exists and the tick indicates SELL 30: one cancel for the id of the working
order is sent, no new order, and the working order is kept. -/
theorem evaluate_at_most_one_working_order_witness :
    (straddle_state 3599 3601
        (some { id := "7", original_id := "7", side := side_t.BUY, order_price := 3590,
                full_volume := 0, open_volume := 50 }) []).evaluate_corrections
        (constant_kernel (1 / 120) 0) ⟨0, 0⟩ =
      Except.ok
        ({ straddle_state 3599 3601
              (some { id := "7", original_id := "7", side := side_t.BUY, order_price := 3590,
                      full_volume := 0, open_volume := 50 }) [] with
            m_delta_future := 0, m_delta_call := 1 / 12, m_delta_put := 0 },
          some 30) ∧
      ∃ final,
        (straddle_state 3599 3601
          (some { id := "7", original_id := "7", side := side_t.BUY, order_price := 3590,
                  full_volume := 0, open_volume := 50 }) []).evaluate
          (constant_kernel (1 / 120) 0) ⟨0, 0⟩ = Except.ok final ∧
        final.m_order =
          some { id := "7", original_id := "7", side := side_t.BUY, order_price := 3590,
                 full_volume := 0, open_volume := 50 } ∧
        final.m_market.sent = [market_message_t.send_cancel_order "0" "7"] := by
  refine ⟨scenario_5_corrections, ?_⟩
  obtain ⟨final, new, hrun, hkeep, hsent, _, _, hsome⟩ :=
    (evaluate_at_most_one_working_order _ _ (constant_kernel (1 / 120) 0) ⟨0, 0⟩ _
      scenario_5_corrections).2 _ rfl
  refine ⟨final, hrun, hkeep, ?_⟩
  rw [hsent, (hsome 30 rfl).2 (by decide) (by decide)]
  rfl

/-! ## A skipped cycle has no side effects -/

theorem update_deltas_error_unchanged (self skipped : gamma_scalper) (kernel : pricing_t)
    (t : ℚ) (reason : String)
    (h : self.update_deltas kernel t = Except.ok (some reason, skipped)) : skipped = self := by
  unfold gamma_scalper.update_deltas at h
  simp only [bind, Except.bind] at h
  repeat' split at h
  all_goals first
    | (cases h; done)
    | (simp only [Except.ok.injEq, Prod.mk.injEq] at h
       obtain ⟨h1, h2⟩ := h
       first
         | (cases h1; done)
         | exact h2.symm)

/-- C15. A skipped computation has no side effects: whenever `update_deltas`
reports an error (whatever the reason: underlying mid absent, call or put price
absent after the parity fallback, both deltas absent, a NaN delta) in an
`evaluate` whose maturity is not passed, `evaluate` returns and leaves the
whole state of the controller unchanged: no order and no cancel is sent, and
the working order, the positions, the levels book and the cached deltas are
the same. -/
theorem evaluate_skipped_no_side_effects (self skipped : gamma_scalper) (kernel : pricing_t)
    (now : ptime) (straddle_call : instrument_t) (maturity_date : ptime) (reason : String)
    (hcall : self.m_straddle_call = some straddle_call)
    (hmaturity : straddle_call.maturity_date = some maturity_date)
    (hnow : now.date ≤ maturity_date.date)
    (herror : self.update_deltas kernel (((maturity_date.date - now.date : ℤ) : ℚ) / 360) =
      Except.ok (some reason, skipped)) :
    self.evaluate kernel now = Except.ok self ∧
      ∀ final, self.evaluate kernel now = Except.ok final →
        final.m_market.sent = self.m_market.sent ∧ final.m_order = self.m_order ∧
        final.m_positions = self.m_positions ∧ final.m_levels = self.m_levels ∧
        final.m_delta_future = self.m_delta_future ∧
        final.m_delta_call = self.m_delta_call ∧ final.m_delta_put = self.m_delta_put := by
  have hskip := update_deltas_error_unchanged self skipped kernel _ reason herror
  subst hskip
  have htime : ¬ (((maturity_date.date - now.date : ℤ) : ℚ) / 360 < 0) := by
    have h0 : (0 : ℚ) ≤ ((maturity_date.date - now.date : ℤ) : ℚ) := by
      exact_mod_cast sub_nonneg.2 hnow
    have : (0 : ℚ) ≤ ((maturity_date.date - now.date : ℤ) : ℚ) / 360 :=
      div_nonneg h0 (by norm_num)
    exact not_lt.2 this
  have hrun : skipped.evaluate kernel now = Except.ok skipped := by
    simp only [gamma_scalper.evaluate, gamma_scalper.evaluate_corrections, hcall, hmaturity,
      deref, bind, Except.bind, htime, if_false, herror]
  refine ⟨hrun, ?_⟩
  intro final hfinal
  rw [hrun] at hfinal
  cases hfinal
  exact ⟨rfl, rfl, rfl, rfl, rfl, rfl, rfl⟩

/-- C15, on a concrete input: the future has no BBO, `update_deltas` reports
the missing underlying price, and `evaluate` changes nothing although a working
order is recorded. -/
theorem evaluate_skipped_no_side_effects_witness :
    no_market_state.update_deltas (constant_kernel (62 / 100) (38 / 100))
        ((((⟨30, 0⟩ : ptime).date - (⟨0, 0⟩ : ptime).date : ℤ) : ℚ) / 360) =
      Except.ok (some "Missing underlying price", no_market_state) ∧
    no_market_state.evaluate (constant_kernel (62 / 100) (38 / 100)) ⟨0, 0⟩ =
      Except.ok no_market_state :=
  have herror : no_market_state.update_deltas (constant_kernel (62 / 100) (38 / 100))
      ((((⟨30, 0⟩ : ptime).date - (⟨0, 0⟩ : ptime).date : ℤ) : ℚ) / 360) =
        Except.ok (some "Missing underlying price", no_market_state) := by
    simp [gamma_scalper.update_deltas, no_market_state, straddle_state, deref, bind,
      Except.bind, perpetual, details.get_price]
  ⟨herror,
    (evaluate_skipped_no_side_effects no_market_state no_market_state
      (constant_kernel (62 / 100) (38 / 100)) ⟨0, 0⟩
      (straddle_option "BTC-C" option_type_t.CALL) ⟨30, 0⟩ "Missing underlying price"
      rfl rfl (by decide) herror).1⟩

/-! ## Six significant digits -/

theorem decimal_exponent_of_bounds (x : ℚ) (e : ℕ) (h1 : (10 : ℚ) ^ e ≤ x)
    (h2 : x < (10 : ℚ) ^ (e + 1)) : decimal_exponent x = e := by
  have hx1 : (1 : ℚ) ≤ x := le_trans (one_le_pow₀ (by norm_num)) h1
  have hx0 : (0 : ℚ) ≤ x := le_trans zero_le_one hx1
  unfold decimal_exponent
  rw [if_pos hx1]
  congr 1
  apply Nat.log_eq_of_pow_le_of_lt_pow
  · apply Nat.le_floor
    push_cast
    exact h1
  · rw [Nat.floor_lt hx0]
    push_cast
    exact h2

theorem print_double_of_pos (x : ℚ) (hx : 0 < x) :
    print_double x =
      round_half_even (x / 10 ^ (decimal_exponent x - 5)) * 10 ^ (decimal_exponent x - 5) := by
  unfold print_double
  simp only [if_neg (ne_of_gt hx), if_neg (not_lt.2 hx.le), abs_of_pos hx, one_mul]

/-- A number of at most six significant digits is written as it is. -/
theorem print_double_six_digits (x : ℚ) (e : ℕ) (m : ℤ) (h1 : (10 : ℚ) ^ e ≤ x)
    (h2 : x < (10 : ℚ) ^ (e + 1)) (hm : x / 10 ^ ((e : ℤ) - 5) = m) :
    print_double x = x := by
  have hx : 0 < x := lt_of_lt_of_le (pow_pos (by norm_num) e) h1
  rw [print_double_of_pos x hx, decimal_exponent_of_bounds x e h1 h2, hm,
    round_half_even_intCast, ← hm]
  exact div_mul_cancel₀ x (zpow_ne_zero _ (by norm_num))

theorem print_double_10012_26 : print_double (1001226 / 100) = 100123 / 10 := by
  have hf : ⌊(1001226 : ℚ) / 10⌋ = 100122 := by
    rw [Int.floor_eq_iff]; constructor <;> norm_num
  have hr : round_half_even ((1001226 : ℚ) / 10) = 100123 := by
    unfold round_half_even
    rw [hf]
    norm_num
  rw [print_double_of_pos _ (by norm_num),
    decimal_exponent_of_bounds (1001226 / 100) 4 (by norm_num) (by norm_num)]
  have hs : (1001226 / 100 : ℚ) / 10 ^ (((4 : ℕ) : ℤ) - 5) = 1001226 / 10 := by norm_num
  rw [hs, hr]
  norm_num

/-! ## Persistence of the levels -/

theorem load_lines_map_to_line (stack : List level_t) :
    load_lines (stack.map level_t.to_line) =
      some (stack.map fun level =>
        { volume := print_double level.volume, price := print_double level.price,
          side := level.side }) := by
  induction stack with
  | nil => rfl
  | cons level stack ih =>
    cases hside : level.side <;>
      simp [load_lines, level_t.to_line, level_line_t.to_level, hside, ih]

theorem load_lines_valid (file : List level_line_t)
    (hvalid : ∀ line ∈ file, line.side = 1 ∨ line.side = 2) :
    ∃ loaded, load_lines file = some loaded ∧
      loaded.map level_t.to_line =
        file.map fun line =>
          { price := print_double line.price, side := line.side,
            volume := print_double line.volume } := by
  induction file with
  | nil => exact ⟨[], rfl, rfl⟩
  | cons line file ih =>
    obtain ⟨loaded, hloaded, hmap⟩ := ih (fun l hl => hvalid l (List.mem_cons_of_mem _ hl))
    rcases hvalid line (List.mem_cons_self _ _) with h | h
    · refine ⟨⟨line.volume, line.price, side_t.BUY⟩ :: loaded, ?_, ?_⟩
      · simp [load_lines, level_line_t.to_level, h, hloaded]
      · simp [level_t.to_line, hmap, h]
    · refine ⟨⟨line.volume, line.price, side_t.SELL⟩ :: loaded, ?_, ?_⟩
      · simp [load_lines, level_line_t.to_level, h, hloaded]
      · simp [level_t.to_line, hmap, h]

/-- C16, counterexample. The levels file with the single line
`10012.26;1;10` is valid; `load_levels` followed by `store_levels` writes the
line `10012.3;1;10`: the price is written with six significant digits. -/
theorem load_store_precision_counterexample :
    ((levels.create [{ price := 1001226 / 100, side := 1, volume := 10 }] 0 [] 0).map
        fun loaded => loaded.store_levels.levels_file) =
      some [{ price := 100123 / 10, side := 1, volume := 10 }] ∧
    ([{ price := 100123 / 10, side := 1, volume := 10 }] : List level_line_t) ≠
      [{ price := 1001226 / 100, side := 1, volume := 10 }] := by
  constructor
  · have h10 : print_double 10 = 10 :=
      print_double_six_digits 10 1 100000 (by norm_num) (by norm_num) (by norm_num)
    simp [levels.create, levels.load_levels, load_lines, level_line_t.to_level,
      levels.store_levels, level_t.to_line, print_double_10012_26, h10]
  · intro h
    have hp := congrArg (fun l : List level_line_t => l.map level_line_t.price) h
    simp at hp
    norm_num at hp

/-- C16, amended. Round-trip persistence: for every levels file whose lines
have a side 1 or 2 and a price and a volume of at most six significant digits
(numbers that `operator<<` writes as they are), loading it with `load_levels`
and writing the result with `store_levels` reproduces the same file: same
number of lines, same order, same price, side and volume on each line. -/
theorem load_store_round_trip (file : List level_line_t) (pnl_file : ℚ)
    (pnl_log : List pnl_entry_t) (price_sweetener : ℚ)
    (hvalid : ∀ line ∈ file, (line.side = 1 ∨ line.side = 2) ∧
      print_double line.price = line.price ∧ print_double line.volume = line.volume) :
    ∃ loaded, levels.create file pnl_file pnl_log price_sweetener = some loaded ∧
      loaded.m_levels.length = file.length ∧
      loaded.store_levels.levels_file = file := by
  obtain ⟨stack, hstack, hmap⟩ := load_lines_valid file (fun l hl => (hvalid l hl).1)
  refine ⟨⟨stack, price_sweetener, file, pnl_file, pnl_log⟩,
    by simp [levels.create, levels.load_levels, hstack], ?_, ?_⟩
  · have := congrArg List.length hmap
    simpa using this
  · simp only [levels.store_levels, hmap]
    conv_rhs => rw [← List.map_id file]
    apply List.map_congr_left
    intro line hline
    obtain ⟨_, hp, hv⟩ := hvalid line hline
    simp [hp, hv]

/-- C16 amended, on a concrete input: the file written for the levels
BUY 5 at 110 over BUY 10 at 100. -/
theorem load_store_round_trip_witness :
    ∃ loaded,
      levels.create [{ price := 110, side := 1, volume := 5 },
        { price := 100, side := 1, volume := 10 }] 0 [] 0 = some loaded ∧
      loaded.m_levels.length =
        ([{ price := 110, side := 1, volume := 5 },
          { price := 100, side := 1, volume := 10 }] : List level_line_t).length ∧
      loaded.store_levels.levels_file =
        [{ price := 110, side := 1, volume := 5 }, { price := 100, side := 1, volume := 10 }] :=
  load_store_round_trip _ 0 [] 0 (by
    have h5 : print_double 5 = 5 :=
      print_double_six_digits 5 0 500000 (by norm_num) (by norm_num) (by norm_num)
    have h10 : print_double 10 = 10 :=
      print_double_six_digits 10 1 100000 (by norm_num) (by norm_num) (by norm_num)
    have h100 : print_double 100 = 100 :=
      print_double_six_digits 100 2 100000 (by norm_num) (by norm_num) (by norm_num)
    have h110 : print_double 110 = 110 :=
      print_double_six_digits 110 2 110000 (by norm_num) (by norm_num) (by norm_num)
    simp [h5, h10, h100, h110])

/-- C17, counterexample. After BUY 10 at 100 and then BUY 5 at 110 from the
empty stack, the front of the stack is the entry at 110, the most recently
pushed, and `store_levels` has written it on the first line of the levels
file; the oldest entry, at 100, is on the last line. -/
theorem store_levels_order_counterexample :
    ((levels_of [] 0).update_levels_seq (perpetual 3390 3400)
        [⟨10, 100, side_t.BUY⟩, ⟨5, 110, side_t.BUY⟩]).map
        (fun stored => (stored.m_levels, stored.levels_file)) =
      some ([⟨5, 110, side_t.BUY⟩, ⟨10, 100, side_t.BUY⟩],
        [{ price := 110, side := 1, volume := 5 }, { price := 100, side := 1, volume := 10 }]) := by
  have h5 : print_double 5 = 5 :=
    print_double_six_digits 5 0 500000 (by norm_num) (by norm_num) (by norm_num)
  have h10 : print_double 10 = 10 :=
    print_double_six_digits 10 1 100000 (by norm_num) (by norm_num) (by norm_num)
  have h100 : print_double 100 = 100 :=
    print_double_six_digits 100 2 100000 (by norm_num) (by norm_num) (by norm_num)
  have h110 : print_double 110 = 110 :=
    print_double_six_digits 110 2 110000 (by norm_num) (by norm_num) (by norm_num)
  norm_num +decide [levels.update_levels_seq, update_levels_mk_nil, update_levels_mk_cons,
    levels.store_levels, levels_of, level_t.to_line, h5, h10, h100, h110]

/-- C17, amended. Persistence order: `store_levels` writes the stack from the
front to the bottom, one line per entry: the front entry (the most recently
pushed, the one used by `get_price_to_use`) is on the first line and the oldest
entry on the last line. `load_levels` appends the lines in file order, so the
first line becomes the front; a stack that was stored is loaded in the same
order, with the same sides and with its prices and volumes as written. -/
theorem store_levels_front_first (self : levels) :
    self.store_levels.levels_file = self.m_levels.map level_t.to_line ∧
      (∀ front rest, self.m_levels = front :: rest →
        self.store_levels.levels_file.head? = some front.to_line) ∧
      (∀ oldest, self.m_levels.getLast? = some oldest →
        self.store_levels.levels_file.getLast? = some oldest.to_line) ∧
      (∀ loaded, self.load_levels = some loaded →
        ∃ read, load_lines self.levels_file = some read ∧
          loaded.m_levels = self.m_levels ++ read) ∧
      (levels.create self.store_levels.levels_file self.pnl_file self.pnl_log
          self.m_price_sweetener).map levels.m_levels =
        some (self.m_levels.map fun level =>
          { volume := print_double level.volume, price := print_double level.price,
            side := level.side }) := by
  refine ⟨rfl, ?_, ?_, ?_, ?_⟩
  · intro front rest h
    simp [levels.store_levels, h]
  · intro oldest h
    simp [levels.store_levels, List.getLast?_map, h]
  · intro loaded h
    unfold levels.load_levels at h
    cases hread : load_lines self.levels_file with
    | none => simp [hread] at h
    | some read =>
      refine ⟨read, rfl, ?_⟩
      simp [hread] at h
      rw [← h]
  · simp [levels.create, levels.load_levels, levels.store_levels, load_lines_map_to_line]

/-- C17 amended, on a concrete input: the stack BUY 5 at 110 over BUY 10 at
100. -/
theorem store_levels_front_first_witness :
    (levels_of [⟨5, 110, side_t.BUY⟩, ⟨10, 100, side_t.BUY⟩] 0).store_levels.levels_file.head? =
        some (⟨5, 110, side_t.BUY⟩ : level_t).to_line ∧
      (levels_of [⟨5, 110, side_t.BUY⟩, ⟨10, 100, side_t.BUY⟩] 0).store_levels.levels_file.getLast? =
        some (⟨10, 100, side_t.BUY⟩ : level_t).to_line :=
  ⟨(store_levels_front_first _).2.1 _ _ rfl, (store_levels_front_first _).2.2.1 _ rfl⟩

/-! ## Recovery of the open order -/

theorem request_market_data_ok (self : gamma_scalper)
    (future straddle_call straddle_put : instrument_t)
    (hfuture : self.m_future = some future) (hcall : self.m_straddle_call = some straddle_call)
    (hput : self.m_straddle_put = some straddle_put) :
    ∃ market, self.request_market_data = Except.ok { self with m_market := market } ∧
      market.sent = self.m_market.sent ++
        [market_message_t.request_market_data
            (toString self.m_market.m_request_identifier) future.symbol,
          market_message_t.request_market_data
            (toString (self.m_market.m_request_identifier + 1)) straddle_call.symbol,
          market_message_t.request_market_data
            (toString (self.m_market.m_request_identifier + 1 + 1)) straddle_put.symbol] :=
  ⟨((self.m_market.request_market_data future.symbol).request_market_data
      straddle_call.symbol).request_market_data straddle_put.symbol, by
      simp only [gamma_scalper.request_market_data, gamma_scalper.deref, hfuture, hcall, hput,
        bind, Except.bind],
    by simp [quickfix.request_market_data]⟩

/-- C18. Open-order recovery handshake, for a controller whose future, call and
put are known. `on_mass_status_report n` fails fatally iff `n > 1`, with a
runtime error and the state, the pending-report counter included, as it was.
For `n = 0` it requests market data for exactly the future, the call and the
put, in this order. For `n = 1` it requests nothing and waits for one report:
the next execution report that carries id, original id, side, order price,
executed volume and open volume is consumed as the recovered working order
(`full_volume` the cumulative executed volume of the report, `open_volume` its
open volume), after which the three market-data requests are sent; the report
changes neither the positions nor the levels book. -/
theorem mass_status_handshake (self : gamma_scalper)
    (future straddle_call straddle_put : instrument_t)
    (hfuture : self.m_future = some future) (hcall : self.m_straddle_call = some straddle_call)
    (hput : self.m_straddle_put = some straddle_put) :
    (∀ n : ℤ, (∃ fatal, self.on_mass_status_report n = Except.error fatal) ↔ n > 1) ∧
      (∀ (n : ℤ) fatal, self.on_mass_status_report n = Except.error fatal →
        (∃ message, fatal.failure = failure_t.runtime_error message) ∧ fatal.state = self ∧
          fatal.state.m_mass_reports_incoming = self.m_mass_reports_incoming) ∧
      (∃ opened, self.on_mass_status_report 0 = Except.ok opened ∧
        opened.m_mass_reports_incoming = 0 ∧
        opened.m_market.sent = self.m_market.sent ++
          [market_message_t.request_market_data
              (toString self.m_market.m_request_identifier) future.symbol,
            market_message_t.request_market_data
              (toString (self.m_market.m_request_identifier + 1)) straddle_call.symbol,
            market_message_t.request_market_data
              (toString (self.m_market.m_request_identifier + 1 + 1)) straddle_put.symbol]) ∧
      (∃ waiting, self.on_mass_status_report 1 = Except.ok waiting ∧
        waiting.m_mass_reports_incoming = 1 ∧ waiting.m_market.sent = self.m_market.sent ∧
        ∀ (report : execution_report_t) id original_id side order_price executed_volume
          open_volume,
          report.order_id = some id → report.original_order_id = some original_id →
          report.side = some side → report.order_price = some order_price →
          report.executed_volume = some executed_volume →
          report.open_volume = some open_volume →
          ∃ recovered, waiting.on_message_execution_report report = Except.ok recovered ∧
            recovered.m_order = some
              { id := id, original_id := original_id, side := side,
                order_price := order_price, full_volume := executed_volume,
                open_volume := open_volume } ∧
            recovered.m_mass_reports_incoming = 0 ∧
            recovered.m_market.sent = self.m_market.sent ++
              [market_message_t.request_market_data
                  (toString self.m_market.m_request_identifier) future.symbol,
                market_message_t.request_market_data
                  (toString (self.m_market.m_request_identifier + 1)) straddle_call.symbol,
                market_message_t.request_market_data
                  (toString (self.m_market.m_request_identifier + 1 + 1))
                  straddle_put.symbol] ∧
            recovered.m_positions = self.m_positions ∧
            recovered.m_levels = self.m_levels) := by
  have hisSome : self.m_straddle_call.isSome = true := by rw [hcall]; rfl
  obtain ⟨market, hopen, hmarket⟩ :=
    request_market_data_ok { self with m_mass_reports_incoming := 0 } future
      straddle_call straddle_put hfuture hcall hput
  refine ⟨?_, ?_, ?_, ?_⟩
  · intro n
    constructor
    · rintro ⟨fatal, h⟩
      by_contra hn
      unfold gamma_scalper.on_mass_status_report at h
      rw [if_neg hn] at h
      by_cases h0 : n = 0
      · simp only [h0, if_true] at h
        rw [hopen] at h
        cases h
      · simp only [h0, if_false] at h
        cases h
    · intro hn
      unfold gamma_scalper.on_mass_status_report
      rw [if_pos hn]
      exact ⟨_, rfl⟩
  · intro n fatal h
    unfold gamma_scalper.on_mass_status_report at h
    by_cases hn : n > 1
    · rw [if_pos hn] at h
      cases h
      simp [gamma_scalper.report_error, hisSome]
    · rw [if_neg hn] at h
      by_cases h0 : n = 0
      · simp only [h0, if_true] at h
        rw [hopen] at h
        cases h
      · simp only [h0, if_false] at h
        cases h
  · refine ⟨{ self with m_mass_reports_incoming := 0, m_market := market }, ?_, rfl, hmarket⟩
    unfold gamma_scalper.on_mass_status_report
    rw [if_neg (by decide)]
    simp only [if_true]
    exact hopen
  · refine ⟨{ self with m_mass_reports_incoming := 1 }, ?_, rfl, rfl, ?_⟩
    · unfold gamma_scalper.on_mass_status_report
      rw [if_neg (by decide)]
      simp
    · intro report id original_id side order_price executed_volume open_volume h1 h2 h3 h4 h5
        h6
      obtain ⟨market2, hopen2, hmarket2⟩ :=
        request_market_data_ok
          { self with
            m_order := some
              { id := id, original_id := original_id, side := side,
                order_price := order_price, full_volume := executed_volume,
                open_volume := open_volume }
            m_mass_reports_incoming := 0 } future straddle_call straddle_put hfuture hcall
          hput
      refine ⟨{ self with
            m_order := some
              { id := id, original_id := original_id, side := side,
                order_price := order_price, full_volume := executed_volume,
                open_volume := open_volume }
            m_mass_reports_incoming := 0
            m_market := market2 }, ?_, ?_⟩
      · unfold gamma_scalper.on_message_execution_report
        simp only [gt_iff_lt, zero_lt_one, if_true, h1, h2, h3, h4, h5, h6,
          gamma_scalper.deref, bind, Except.bind, sub_self]
        exact hopen2
      · exact ⟨rfl, rfl, hmarket2, rfl, rfl⟩

/-- C18, on a concrete input: the state of the end-to-end scenarios before an
order is recovered, and a report of one open BUY order with 20 executed out of
50. -/
theorem mass_status_handshake_witness :
    ∃ waiting recovered,
      (straddle_state 3599 3601 none []).on_mass_status_report 1 = Except.ok waiting ∧
      waiting.on_message_execution_report
        { order_id := some "12", original_order_id := some "7",
          order_status := some order_status_t.PARTIAL, side := some side_t.BUY,
          transaction_time := none, open_volume := some 30, executed_volume := some 20,
          order_volume := some 50, order_type := some order_type_t.LIMIT,
          reject_reason := none, symbol := some "BTC-PERPETUAL", order_price := some 3590,
          volume_type := none, contract_multiplier := none,
          average_execution_price := some 3590, maximun_show_volume := none,
          implied_volatility := none, pegged_price := none,
          mass_status_request_type := some 7, mass_status_report_number := some 1 } =
        Except.ok recovered ∧
      recovered.m_order = some
        { id := "12", original_id := "7", side := side_t.BUY, order_price := 3590,
          full_volume := 20, open_volume := 30 } ∧
      recovered.m_positions = (straddle_state 3599 3601 none []).m_positions ∧
      recovered.m_levels = (straddle_state 3599 3601 none []).m_levels := by
  obtain ⟨waiting, hwaiting, _, _, hnext⟩ :=
    (mass_status_handshake (straddle_state 3599 3601 none []) _ _ _ rfl rfl rfl).2.2.2
  obtain ⟨recovered, hrecovered, horder, _, _, hpositions, hlevels⟩ :=
    hnext
      { order_id := some "12", original_order_id := some "7",
        order_status := some order_status_t.PARTIAL, side := some side_t.BUY,
        transaction_time := none, open_volume := some 30, executed_volume := some 20,
        order_volume := some 50, order_type := some order_type_t.LIMIT,
        reject_reason := none, symbol := some "BTC-PERPETUAL", order_price := some 3590,
        volume_type := none, contract_multiplier := none,
        average_execution_price := some 3590, maximun_show_volume := none,
        implied_volatility := none, pegged_price := none,
        mass_status_request_type := some 7, mass_status_report_number := some 1 }
      "12" "7" side_t.BUY 3590 20 30 rfl rfl rfl rfl rfl rfl
  exact ⟨waiting, recovered, hwaiting, hrecovered, horder, hpositions, hlevels⟩

/-! ## Execution reports -/

theorem update_levels_total (fut : instrument_t) (cm : ℚ)
    (hcm : fut.contract_multiplier = some cm) (p : ℚ) (s : side_t) :
    ∀ (l : List level_t) (self : levels) (v : ℚ), self.m_levels = l →
      ∃ next, self.update_levels v p s fut = some next := by
  intro l
  induction l with
  | nil =>
    intro self v h
    exact ⟨_, update_levels_nil self v p s fut h⟩
  | cons front rest ih =>
    intro self v h
    by_cases hs : front.side = s
    · exact ⟨_, update_levels_same self v p s fut front rest h hs⟩
    · rw [update_levels_opposite self v p s fut front rest h hs]
      by_cases h0 : front.volume - v = 0
      · simp only [h0, if_true, Option.some_bind, store_pnl_some _ _ _ _ _ _ _ hcm,
          Option.map_some']
        exact ⟨_, rfl⟩
      · by_cases hneg : front.volume - v < 0
        · obtain ⟨mid, hmid⟩ := ih { self with m_levels := rest } (v - front.volume) rfl
          simp only [h0, hneg, if_true, if_false, hmid, Option.some_bind,
            store_pnl_some _ _ _ _ _ _ _ hcm, Option.map_some']
          exact ⟨_, rfl⟩
        · simp only [h0, hneg, if_false, Option.some_bind,
            store_pnl_some _ _ _ _ _ _ _ hcm, Option.map_some']
          exact ⟨_, rfl⟩

theorem update_position_frame (self next : gamma_scalper) (report : execution_report_t)
    (h : self.update_position report = Except.ok next) :
    next = { self with m_positions := next.m_positions, m_levels := next.m_levels } := by
  unfold gamma_scalper.update_position at h
  cases hsymbol : report.symbol with
  | none => simp [hsymbol, gamma_scalper.deref, bind, Except.bind] at h
  | some symbol =>
    simp only [hsymbol, gamma_scalper.deref, bind, Except.bind] at h
    split at h
    · cases hfuture : self.m_future with
      | none => simp [hfuture] at h
      | some future =>
        simp only [hfuture] at h
        cases hmid : details.get_price future.bbo with
        | none => simp [hmid] at h
        | some mid =>
          simp only [hmid] at h
          split at h
          · cases h
          · cases h
            rfl
    · cases h
      rfl

theorem update_position_total (self : gamma_scalper) (report : execution_report_t)
    (symbol : String) (future : instrument_t) (mid cm : ℚ)
    (hsymbol : report.symbol = some symbol) (hfuture : self.m_future = some future)
    (hmid : details.get_price future.bbo = some mid)
    (hcm : future.contract_multiplier = some cm) :
    ∃ next, self.update_position report = Except.ok next := by
  unfold gamma_scalper.update_position
  simp only [hsymbol, gamma_scalper.deref, bind, Except.bind]
  split
  · rename_i info average_execution_price side executed_volume _ _ _ _
    simp only [hfuture, hmid]
    obtain ⟨m_levels, hlevels⟩ :=
      update_levels_total future cm hcm average_execution_price side self.m_levels.m_levels
        self.m_levels executed_volume rfl
    simp only [hlevels]
    exact ⟨_, rfl⟩
  · exact ⟨_, rfl⟩

theorem matching_order_iff (self : gamma_scalper) (report : execution_report_t)
    (order : order_t) :
    self.matching_order report = some order ↔
      self.m_order = some order ∧
        (report.order_id = some order.id ∨
          report.original_order_id = some order.original_id) := by
  unfold gamma_scalper.matching_order
  cases horder : self.m_order with
  | none => simp
  | some working =>
    by_cases hmatch : report.order_id = some working.id ∨
        report.original_order_id = some working.original_id
    · simp only [hmatch, if_true, Option.some.injEq]
      constructor
      · rintro rfl
        exact ⟨rfl, hmatch⟩
      · rintro ⟨h, _⟩
        exact h
    · simp only [hmatch, if_false]
      constructor
      · intro h
        cases h
      · rintro ⟨h, hm⟩
        cases h
        exact absurd hm hmatch

/-- C13. Working-order lifecycle on execution reports in steady state (no
mass-status report pending, the report carries a symbol and a status). The
report matches the working order iff there is one and the report carries its
id as order id or its original id as original order id. Whenever the callback
returns: the working order is cleared iff the report matches and its status is
FILLED, CANCELED or REJECTED; on a matching PARTIAL or NEW the order is kept,
its id the order id of the report and its original id, side, price and open
volume unchanged; a report that does not match leaves the working order as it
is. The callback returns whenever the future has a contract multiplier and a
mid price and the report carries an order id and an executed volume. -/
theorem execution_report_working_order (self : gamma_scalper)
    (report : execution_report_t) (symbol : String) (status : order_status_t)
    (hsteady : self.m_mass_reports_incoming ≤ 0) (hsymbol : report.symbol = some symbol)
    (hstatus : report.order_status = some status) :
    (∀ order, self.matching_order report = some order ↔
      self.m_order = some order ∧
        (report.order_id = some order.id ∨
          report.original_order_id = some order.original_id)) ∧
      (∀ next, self.on_message_execution_report report = Except.ok next →
        ((self.m_order.isSome ∧ next.m_order = none) ↔
          ((self.matching_order report).isSome ∧
            (status = order_status_t.FILLED ∨ status = order_status_t.CANCELED ∨
              status = order_status_t.REJECTED))) ∧
        (∀ order, self.matching_order report = some order →
          status = order_status_t.PARTIAL ∨ status = order_status_t.NEW →
          ∃ kept, next.m_order = some kept ∧ report.order_id = some kept.id ∧
            kept.original_id = order.original_id ∧ kept.side = order.side ∧
            kept.order_price = order.order_price ∧ kept.open_volume = order.open_volume) ∧
        (self.matching_order report = none → next.m_order = self.m_order)) ∧
      (∀ (future : instrument_t) (mid cm : ℚ) (id : String) (executed_volume : ℚ),
        self.m_future = some future → details.get_price future.bbo = some mid →
        future.contract_multiplier = some cm → report.order_id = some id →
        report.executed_volume = some executed_volume →
        ∃ next, self.on_message_execution_report report = Except.ok next) := by
  have hnot : ¬ self.m_mass_reports_incoming > 0 := not_lt.2 hsteady
  refine ⟨matching_order_iff self report, ?_, ?_⟩
  · intro next hrun
    unfold gamma_scalper.on_message_execution_report at hrun
    simp only [hnot, if_false, hsymbol, hstatus, gamma_scalper.deref, bind, Except.bind]
      at hrun
    cases hmatching : self.matching_order report with
    | none =>
      have horder : next.m_order = self.m_order := by
        simp only [hmatching] at hrun
        cases status
        · cases hrun; rfl
        · rw [update_position_frame _ _ _ hrun]
        · rw [update_position_frame _ _ _ hrun]
        · cases hrun; rfl
        · cases hrun; rfl
      refine ⟨?_, ?_, fun _ => horder⟩
      · constructor
        · rintro ⟨hsome, hnone⟩
          rw [horder] at hnone
          rw [hnone] at hsome
          cases hsome
        · rintro ⟨hsome, _⟩
          cases hsome
      · intro order h
        cases h
    | some order =>
      have hworking : self.m_order = some order :=
        ((matching_order_iff self report order).1 hmatching).1
      simp only [hmatching] at hrun
      refine ⟨?_, ?_, fun h => by cases h⟩
      · cases status
        · -- NEW
          cases hid : report.order_id with
          | none => simp [hid] at hrun
          | some id =>
            simp only [hid] at hrun
            cases hrun
            simp
        · -- PARTIAL
          cases hid : report.order_id with
          | none => simp [hid] at hrun
          | some id =>
            simp only [hid] at hrun
            cases hvolume : report.executed_volume with
            | none => simp [details.update_filled_volume, hvolume] at hrun
            | some executed_volume =>
              simp only [details.update_filled_volume, hvolume] at hrun
              rw [update_position_frame _ _ _ hrun]
              simp
        · -- FILLED
          cases hvolume : report.executed_volume with
          | none => simp [details.update_filled_volume, hvolume] at hrun
          | some executed_volume =>
            simp only [details.update_filled_volume, hvolume] at hrun
            split at hrun
            · cases hrun
            · cases hrun
              simp [hworking]
        · cases hrun
          simp [hworking]
        · cases hrun
          simp [hworking]
      · intro matched hmatched hkept
        cases hmatched
        rcases hkept with rfl | rfl
        · cases hid : report.order_id with
          | none => simp [hid] at hrun
          | some id =>
            simp only [hid] at hrun
            cases hvolume : report.executed_volume with
            | none => simp [details.update_filled_volume, hvolume] at hrun
            | some executed_volume =>
              simp only [details.update_filled_volume, hvolume] at hrun
              rw [update_position_frame _ _ _ hrun]
              exact ⟨_, rfl, rfl, rfl, rfl, rfl, rfl⟩
        · cases hid : report.order_id with
          | none => simp [hid] at hrun
          | some id =>
            simp only [hid] at hrun
            cases hrun
            exact ⟨_, rfl, rfl, rfl, rfl, rfl, rfl⟩
  · intro future mid cm id executed_volume hfuture hmid hcm hid hvolume
    unfold gamma_scalper.on_message_execution_report
    simp only [hnot, if_false, hsymbol, hstatus, gamma_scalper.deref, bind, Except.bind]
    cases hmatching : self.matching_order report with
    | none =>
      cases status
      · exact ⟨_, rfl⟩
      · exact update_position_total self report symbol future mid cm hsymbol hfuture hmid hcm
      · exact update_position_total self report symbol future mid cm hsymbol hfuture hmid hcm
      · exact ⟨_, rfl⟩
      · exact ⟨_, rfl⟩
    | some order =>
      cases status
      · simp only [hid]
        exact ⟨_, rfl⟩
      · simp only [hid, details.update_filled_volume, hvolume]
        exact update_position_total _ _ symbol future mid cm hsymbol hfuture hmid hcm
      · simp only [details.update_filled_volume, hvolume]
        obtain ⟨updated, hupdated⟩ :=
          update_position_total
            { self with m_order := some { order with full_volume := executed_volume } }
            { report with executed_volume := some (executed_volume - order.full_volume) }
            symbol future mid cm hsymbol hfuture hmid hcm
        simp only [hupdated]
        exact ⟨_, rfl⟩
      · exact ⟨_, rfl⟩
      · exact ⟨_, rfl⟩

/-- C13, on a concrete input: the working BUY order of scenario 5 is cleared by
the report of its complete fill. -/
theorem execution_report_working_order_witness :
    ∃ next,
      (straddle_state 3599 3601 (some working_buy) []).on_message_execution_report
        { order_id := some "7", original_order_id := some "7",
          order_status := some order_status_t.FILLED, side := some side_t.BUY,
          transaction_time := none, open_volume := some 0, executed_volume := some 50,
          order_volume := some 50, order_type := some order_type_t.LIMIT,
          reject_reason := none, symbol := some "BTC-PERPETUAL", order_price := some 3590,
          volume_type := none, contract_multiplier := none,
          average_execution_price := some 3590, maximun_show_volume := none,
          implied_volatility := none, pegged_price := none,
          mass_status_request_type := none, mass_status_report_number := none } =
        Except.ok next ∧
      next.m_order = none := by
  have h :=
    execution_report_working_order (straddle_state 3599 3601 (some working_buy) [])
      { order_id := some "7", original_order_id := some "7",
        order_status := some order_status_t.FILLED, side := some side_t.BUY,
        transaction_time := none, open_volume := some 0, executed_volume := some 50,
        order_volume := some 50, order_type := some order_type_t.LIMIT,
        reject_reason := none, symbol := some "BTC-PERPETUAL", order_price := some 3590,
        volume_type := none, contract_multiplier := none,
        average_execution_price := some 3590, maximun_show_volume := none,
        implied_volatility := none, pegged_price := none,
        mass_status_request_type := none, mass_status_report_number := none }
      "BTC-PERPETUAL" order_status_t.FILLED (le_refl _) rfl rfl
  obtain ⟨next, hnext⟩ :=
    h.2.2 (perpetual 3599 3601) 3600 10 "7" 50 rfl
      (by norm_num [details.get_price, perpetual]) rfl rfl rfl
  exact ⟨next, hnext, ((h.2.1 next hnext).1.2 ⟨rfl, Or.inl rfl⟩).2⟩

/-! ## Incremental fills -/

theorem lookup_set_position (positions : List (String × position_info)) (symbol : String)
    (position : position_t) (info : position_info)
    (h : positions.lookup symbol = some info) :
    (set_position positions symbol position).lookup symbol =
      some { info with position := position } := by
  induction positions with
  | nil => simp at h
  | cons entry rest ih =>
    obtain ⟨key, old⟩ := entry
    unfold set_position
    by_cases hkey : key = symbol
    · subst hkey
      simp only [if_true, List.lookup_cons, beq_self_eq_true] at h ⊢
      cases h
      rfl
    · have hne : (symbol == key) = false := by
        simp only [beq_eq_false_iff_ne, ne_eq]
        exact fun h => hkey h.symm
      simp only [hkey, if_false, List.lookup_cons, hne] at h ⊢
      exact ih h

theorem update_position_fill (self : gamma_scalper) (report : execution_report_t)
    (future : instrument_t) (info : position_info) (mid cm volume price : ℚ) (side : side_t)
    (hsymbol : report.symbol = some future.symbol) (hside : report.side = some side)
    (hprice : report.average_execution_price = some price)
    (hvolume : report.executed_volume = some volume)
    (hfuture : self.m_future = some future) (hmid : details.get_price future.bbo = some mid)
    (hcm : future.contract_multiplier = some cm)
    (hposition : self.m_positions.lookup future.symbol = some info) :
    ∃ m_levels, self.m_levels.update_levels volume price side future = some m_levels ∧
      self.update_position report =
        Except.ok
          { self with
            m_positions :=
              set_position self.m_positions future.symbol
                { info.position with
                  quantity :=
                    |info.position.signed_quantity +
                      (if side = side_t.BUY then volume else -volume)|
                  side :=
                    if info.position.signed_quantity +
                        (if side = side_t.BUY then volume else -volume) ≥ 0 then side_t.BUY
                    else side_t.SELL
                  settlement_price := price
                  underlying_end_price := mid }
            m_levels := m_levels } := by
  obtain ⟨m_levels, hlevels⟩ :=
    update_levels_total future cm hcm price side self.m_levels.m_levels self.m_levels volume
      rfl
  refine ⟨m_levels, hlevels, ?_⟩
  unfold gamma_scalper.update_position
  simp only [hsymbol, hside, hprice, hvolume, hfuture, hmid, hposition, hlevels,
    gamma_scalper.deref, bind, Except.bind, position_t.signed_quantity]

theorem signed_quantity_of_target (position : position_t) (target price mid : ℚ) :
    ({ position with
        quantity := |target|
        side := if target ≥ 0 then side_t.BUY else side_t.SELL
        settlement_price := price
        underlying_end_price := mid } : position_t).signed_quantity = target := by
  unfold position_t.signed_quantity
  by_cases h : target ≥ 0
  · simp only [h, if_true]
    exact abs_of_nonneg h
  · simp only [h, if_false]
    rw [if_neg (by decide), abs_of_neg (not_le.1 h), neg_neg]

theorem update_position_fill_spec (self : gamma_scalper) (report : execution_report_t)
    (future : instrument_t) (info : position_info) (mid cm volume price : ℚ) (side : side_t)
    (hsymbol : report.symbol = some future.symbol) (hside : report.side = some side)
    (hprice : report.average_execution_price = some price)
    (hvolume : report.executed_volume = some volume)
    (hfuture : self.m_future = some future) (hmid : details.get_price future.bbo = some mid)
    (hcm : future.contract_multiplier = some cm)
    (hposition : self.m_positions.lookup future.symbol = some info) :
    ∃ next next_info,
      self.update_position report = Except.ok next ∧
      self.m_levels.update_levels volume price side future = some next.m_levels ∧
      next = { self with m_positions := next.m_positions, m_levels := next.m_levels } ∧
      next.m_positions.lookup future.symbol = some next_info ∧
      next_info.position.quantity =
        |info.position.signed_quantity + (if side = side_t.BUY then 1 else -1) * volume| ∧
      (next_info.position.side = side_t.BUY ↔
        0 ≤ info.position.signed_quantity + (if side = side_t.BUY then 1 else -1) * volume) ∧
      next_info.position.signed_quantity =
        info.position.signed_quantity + (if side = side_t.BUY then 1 else -1) * volume := by
  obtain ⟨m_levels, hlevels, hrun⟩ :=
    update_position_fill self report future info mid cm volume price side hsymbol hside hprice
      hvolume hfuture hmid hcm hposition
  have hsigned : (if side = side_t.BUY then volume else -volume) =
      (if side = side_t.BUY then 1 else -1) * volume := by
    cases side <;> simp
  rw [hsigned] at hrun
  refine ⟨_, _, hrun, hlevels, rfl, lookup_set_position _ _ _ _ hposition, rfl, ?_,
    signed_quantity_of_target _ _ _ _⟩
  by_cases h : info.position.signed_quantity + (if side = side_t.BUY then 1 else -1) * volume ≥ 0
  · simp only [h, if_true, true_iff]
  · simp only [h, if_false]
    constructor
    · intro hc
      cases hc
    · intro hc
      exact hc.elim

theorem run_reports_fills (future : instrument_t) (mid cm : ℚ)
    (hmid : details.get_price future.bbo = some mid)
    (hcm : future.contract_multiplier = some cm) (side : side_t) (original_id : String) :
    ∀ (reports : List execution_report_t) (self : gamma_scalper) (order : order_t)
      (info : position_info),
      self.m_mass_reports_incoming ≤ 0 → self.m_order = some order →
      order.original_id = original_id → self.m_future = some future →
      self.m_positions.lookup future.symbol = some info →
      fill_reports future.symbol side original_id order.id reports →
      ∃ final final_info,
        self.run_reports reports = Except.ok final ∧ final.m_order = none ∧
        self.m_levels.update_levels_seq future (increments order.full_volume reports) =
          some final.m_levels ∧
        ((increments order.full_volume reports).map fill_t.volume).sum =
          last_cumulative order.full_volume reports - order.full_volume ∧
        final.m_positions.lookup future.symbol = some final_info ∧
        final_info.position.quantity =
          |info.position.signed_quantity + (if side = side_t.BUY then 1 else -1) *
            (last_cumulative order.full_volume reports - order.full_volume)| ∧
        (final_info.position.side = side_t.BUY ↔
          0 ≤ info.position.signed_quantity + (if side = side_t.BUY then 1 else -1) *
            (last_cumulative order.full_volume reports - order.full_volume)) ∧
        final_info.position.signed_quantity =
          info.position.signed_quantity + (if side = side_t.BUY then 1 else -1) *
            (last_cumulative order.full_volume reports - order.full_volume) := by
  intro reports
  induction reports with
  | nil =>
    intro self order info _ _ _ _ _ hreports
    exact absurd hreports (by simp [fill_reports])
  | cons report rest ih =>
    intro self order info hsteady horder horiginal hfuture hposition hreports
    have hnot : ¬ self.m_mass_reports_incoming > 0 := not_lt.2 hsteady
    obtain ⟨hsymbol, hside, hmatch, hprice, hvolume, hkind⟩ := hreports
    obtain ⟨price, hprice⟩ := Option.isSome_iff_exists.1 hprice
    obtain ⟨volume, hvolume⟩ := Option.isSome_iff_exists.1 hvolume
    have hmatching : self.matching_order report = some order :=
      (matching_order_iff self report order).2 ⟨horder, by rw [horiginal]; exact hmatch⟩
    by_cases hrest : rest = []
    · subst hrest
      simp only [if_true] at hkind
      obtain ⟨next, next_info, hrun, hlevels, hframe, hlookup, hquantity, hbuy, hsigned⟩ :=
        update_position_fill_spec
          { self with m_order := some { order with full_volume := volume } }
          { report with executed_volume := some (volume - order.full_volume) }
          future info mid cm (volume - order.full_volume) price side hsymbol hside hprice rfl
          hfuture hmid hcm hposition
      refine ⟨{ next with m_order := none }, next_info, ?_, rfl, ?_, ?_, hlookup, ?_, ?_, ?_⟩
      · simp only [hsymbol, hkind] at hrun
        simp only [gamma_scalper.run_reports, gamma_scalper.on_message_execution_report, hnot,
          if_false, hsymbol, hmatching, hkind, gamma_scalper.deref, bind, Except.bind,
          details.update_filled_volume, hvolume, hrun]
      · simp only [increments, hvolume, hprice, hside, levels.update_levels_seq]
        rw [hlevels]
        rfl
      · simp [increments, hvolume, hprice, hside, last_cumulative]
      · simpa [last_cumulative, hvolume] using hquantity
      · simpa [last_cumulative, hvolume] using hbuy
      · simpa [last_cumulative, hvolume] using hsigned
    · simp only [hrest, if_false] at hkind
      obtain ⟨hstatus, new_id, hid, hnext⟩ := hkind
      obtain ⟨next, next_info, hrun, hlevels, hframe, hlookup, hquantity, hbuy, hsigned⟩ :=
        update_position_fill_spec
          { self with m_order := some { order with id := new_id, full_volume := volume } }
          { report with executed_volume := some (volume - order.full_volume) }
          future info mid cm (volume - order.full_volume) price side hsymbol hside hprice rfl
          hfuture hmid hcm hposition
      obtain ⟨final, final_info, hfinal, hcleared, hseq, hsum, hfinal_lookup, hfinal_quantity,
          hfinal_buy, hfinal_signed⟩ :=
        ih next { order with id := new_id, full_volume := volume } next_info
          (by rw [hframe]; exact hsteady) (by rw [hframe]) horiginal
          (by rw [hframe]; exact hfuture) hlookup hnext
      have htarget :
          next_info.position.signed_quantity + (if side = side_t.BUY then 1 else -1) *
              (last_cumulative volume rest - volume) =
            info.position.signed_quantity + (if side = side_t.BUY then 1 else -1) *
              (last_cumulative volume rest - order.full_volume) := by
        rw [hsigned]
        ring
      simp only [htarget] at hfinal_quantity hfinal_buy hfinal_signed
      refine ⟨final, final_info, ?_, hcleared, ?_, ?_, hfinal_lookup, ?_, ?_, ?_⟩
      · simp only [hsymbol, hstatus, hid] at hrun
        simp only [gamma_scalper.run_reports, gamma_scalper.on_message_execution_report, hnot,
          if_false, hsymbol, hmatching, hstatus, hid, gamma_scalper.deref, bind, Except.bind,
          details.update_filled_volume, hvolume, hrun, hfinal]
      · simp only [increments, hvolume, hprice, hside, levels.update_levels_seq]
        rw [hlevels]
        exact hseq
      · simp only [increments, hvolume, hprice, hside, last_cumulative, List.map_cons,
          List.sum_cons]
        simp only at hsum
        rw [hsum]
        ring
      · simpa [last_cumulative, hvolume] using hfinal_quantity
      · simpa [last_cumulative, hvolume] using hfinal_buy
      · simpa [last_cumulative, hvolume] using hfinal_signed

/-- C14. Incremental fills telescope. In steady state, with a working order
created with full volume 0 on a future that has a contract multiplier, a mid
price and a position entry, every sequence of matching PARTIAL reports followed
by a matching FILLED report, each carrying the future symbol, the side of the
order, an average execution price and a cumulative executed volume, is processed
to the end and clears the working order. Each report reaches `update_levels` as
the increment of its cumulative volume over the previous one, the increments
summing to the last cumulative volume `cn`. The signed quantity of the future
position changes in total by `+cn` for a BUY order and `-cn` for a SELL order,
and is stored as its absolute value with side BUY iff it is not negative. The
cumulative volumes need not be ordered for this. -/
theorem incremental_fills_telescope (self : gamma_scalper) (order : order_t)
    (future : instrument_t) (info : position_info) (mid cm : ℚ)
    (reports : List execution_report_t) (hsteady : self.m_mass_reports_incoming ≤ 0)
    (horder : self.m_order = some order) (hzero : order.full_volume = 0)
    (hfuture : self.m_future = some future) (hmid : details.get_price future.bbo = some mid)
    (hcm : future.contract_multiplier = some cm)
    (hposition : self.m_positions.lookup future.symbol = some info)
    (hreports : fill_reports future.symbol order.side order.original_id order.id reports) :
    ∃ final final_info,
      self.run_reports reports = Except.ok final ∧ final.m_order = none ∧
      self.m_levels.update_levels_seq future (increments 0 reports) = some final.m_levels ∧
      ((increments 0 reports).map fill_t.volume).sum = last_cumulative 0 reports ∧
      final.m_positions.lookup future.symbol = some final_info ∧
      final_info.position.signed_quantity =
        info.position.signed_quantity +
          (if order.side = side_t.BUY then last_cumulative 0 reports
            else -last_cumulative 0 reports) ∧
      final_info.position.quantity =
        |info.position.signed_quantity +
          (if order.side = side_t.BUY then last_cumulative 0 reports
            else -last_cumulative 0 reports)| ∧
      (final_info.position.side = side_t.BUY ↔
        0 ≤ info.position.signed_quantity +
          (if order.side = side_t.BUY then last_cumulative 0 reports
            else -last_cumulative 0 reports)) := by
  obtain ⟨final, final_info, hrun, hcleared, hseq, hsum, hlookup, hquantity, hbuy, hsigned⟩ :=
    run_reports_fills future mid cm hmid hcm order.side order.original_id reports self order
      info hsteady horder rfl hfuture hposition hreports
  have hchange :
      (if order.side = side_t.BUY then (1 : ℚ) else -1) *
          (last_cumulative order.full_volume reports - order.full_volume) =
        (if order.side = side_t.BUY then last_cumulative 0 reports
          else -last_cumulative 0 reports) := by
    rw [hzero]
    cases order.side <;> simp
  rw [hchange] at hquantity hbuy hsigned
  rw [hzero] at hseq hsum
  rw [sub_zero] at hsum
  exact ⟨final, final_info, hrun, hcleared, hseq, hsum, hlookup, hsigned, hquantity, hbuy⟩

/-- C14, on a concrete input: the working BUY order of scenario 5 is filled in
two reports, 20 and then 50 in total; the flat future position ends long 50. -/
theorem incremental_fills_telescope_witness :
    ∃ final final_info,
      (straddle_state 3599 3601 (some working_buy) []).run_reports
        [working_buy_report order_status_t.PARTIAL 20,
          working_buy_report order_status_t.FILLED 50] = Except.ok final ∧
      final.m_order = none ∧
      final.m_positions.lookup "BTC-PERPETUAL" = some final_info ∧
      final_info.position.quantity = 50 ∧ final_info.position.side = side_t.BUY := by
  obtain ⟨final, final_info, hrun, hcleared, _, _, hlookup, _, hquantity, hbuy⟩ :=
    incremental_fills_telescope (straddle_state 3599 3601 (some working_buy) []) working_buy
      (perpetual 3599 3601) _ 3600 10
      [working_buy_report order_status_t.PARTIAL 20,
        working_buy_report order_status_t.FILLED 50]
      (le_refl _) rfl rfl rfl (by norm_num [details.get_price, perpetual]) rfl rfl
      (by simp [fill_reports, working_buy_report, working_buy, perpetual])
  refine ⟨final, final_info, hrun, hcleared, hlookup, ?_, ?_⟩
  · rw [hquantity]
    norm_num [position_t.signed_quantity, last_cumulative, working_buy_report, working_buy]
  · rw [hbuy]
    norm_num [position_t.signed_quantity, last_cumulative, working_buy_report, working_buy]

/-! ## Discovery of the hedge instrument -/

theorem lookup_set_position_info (positions : List (String × position_info))
    (symbol : String) (info : position_info) :
    (set_position_info positions symbol info).lookup symbol = some info := by
  induction positions with
  | nil => simp [set_position_info]
  | cons entry rest ih =>
    obtain ⟨key, old⟩ := entry
    unfold set_position_info
    by_cases hkey : key = symbol
    · subst hkey
      simp only [if_true, List.lookup_cons, beq_self_eq_true]
    · have hne : (symbol == key) = false := by
        simp only [beq_eq_false_iff_ne, ne_eq]
        exact fun h => hkey h.symm
      simp only [hkey, if_false, List.lookup_cons, hne]
      exact ih

theorem attach_instruments_positions (instruments : List instrument_t) :
    ∀ (todo : List (String × position_info)) (self : gamma_scalper)
      (done : List (String × position_info)) (attached : gamma_scalper),
      gamma_scalper.attach_instruments instruments self done todo = Except.ok attached →
      ∃ tail, attached.m_positions = done ++ tail := by
  intro todo
  induction todo with
  | nil =>
    intro self done attached h
    simp only [gamma_scalper.attach_instruments] at h
    cases h
    exact ⟨[], by simp⟩
  | cons entry rest ih =>
    intro self done attached h
    obtain ⟨symbol, info⟩ := entry
    simp only [gamma_scalper.attach_instruments] at h
    split at h
    · cases h
    · rename_i instrument _
      have hprefix : ∀ next : gamma_scalper,
          gamma_scalper.attach_instruments instruments next
              (done ++ [(symbol, { info with instrument := instrument })]) rest =
            Except.ok attached →
          ∃ tail, attached.m_positions = done ++ tail := by
        intro next hnext
        obtain ⟨tail, htail⟩ := ih next _ attached hnext
        exact ⟨(symbol, { info with instrument := instrument }) :: tail, by
          rw [htail, List.append_assoc]
          rfl⟩
      split at h
      · split at h
        · cases h
        · split at h
          · exact hprefix _ h
          · exact hprefix _ h
      · exact hprefix _ h

theorem attach_instruments_options (instruments : List instrument_t) :
    ∀ (todo : List (String × position_info)) (self : gamma_scalper)
      (done : List (String × position_info)) (attached : gamma_scalper),
      gamma_scalper.attach_instruments instruments self done todo = Except.ok attached →
      (∀ entry ∈ attached.m_positions, entry.2.instrument.type = "OPT") →
      attached.m_future = self.m_future ∧ attached.m_market = self.m_market := by
  intro todo
  induction todo with
  | nil =>
    intro self done attached h _
    simp only [gamma_scalper.attach_instruments] at h
    cases h
    exact ⟨rfl, rfl⟩
  | cons entry rest ih =>
    intro self done attached h hoptions
    obtain ⟨symbol, info⟩ := entry
    simp only [gamma_scalper.attach_instruments] at h
    split at h
    · cases h
    · rename_i instrument _
      split at h
      · split at h
        · cases h
        · split at h
          · have hrest := ih _ _ attached h hoptions
            exact hrest
          · have hrest := ih _ _ attached h hoptions
            exact hrest
      · rename_i htype
        obtain ⟨tail, htail⟩ := attach_instruments_positions instruments rest _ _ attached h
        have hmem : (symbol, ({ info with instrument := instrument } : position_info)) ∈
            attached.m_positions := by
          rw [htail]
          simp
        exact absurd (hoptions _ hmem) htype

theorem perm_pair {α : Type} (l : List α) (a b : α) (h : l.Perm [a, b]) :
    l = [a, b] ∨ l = [b, a] := by
  have hmem := List.mem_permutations.2 h
  simp [List.permutations, List.permutationsAux, List.permutationsAux.rec,
    List.permutationsAux2] at hmem
  tauto

theorem perm_triple {α : Type} (l : List α) (a b c : α) (h : l.Perm [a, b, c]) :
    l = [a, b, c] ∨ l = [a, c, b] ∨ l = [b, a, c] ∨ l = [b, c, a] ∨ l = [c, a, b] ∨
      l = [c, b, a] := by
  have hmem := List.mem_permutations.2 h
  simp [List.permutations, List.permutationsAux, List.permutationsAux.rec,
    List.permutationsAux2] at hmem
  tauto

/-- The callback depends on the visiting order through the order of the
positions of the controller only. -/
theorem on_message_instruments_visit (self : gamma_scalper)
    (visit : List (String × position_info) → List (String × position_info))
    (order : List (String × position_info)) (instruments : Option (List instrument_t))
    (h : visit self.m_positions = order) :
    self.on_message_instruments visit instruments =
      self.on_message_instruments (fun _ => order) instruments := by
  unfold gamma_scalper.on_message_instruments
  rw [h]

/-- C20. Hedge-instrument discovery fails on a controller that has selected a
future before, whatever the order in which the loop visits the positions. From
the initial state, positions that hold only the straddle and an instrument list
lead to the perpetual and a flat position for it; when the same positions and
the same list arrive again, the positions hold a valid straddle and no
non-option instrument, `m_future` still holds the perpetual because nothing
resets it, the search is skipped, the callback succeeds, and no position is
added for the future. -/
theorem instruments_stale_future
    (visit : List (String × position_info) → List (String × position_info))
    (hvisit : is_visiting_order visit) :
    ∃ initial first second stale next,
      gamma_scalper.create [] 0 [] (1 / 2) 0 = some initial ∧
      initial.on_message_positions
        (some [long_position "BTC-28JUN19-3500-C" 1,
          long_position "BTC-28JUN19-3500-P" 1]) = Except.ok first ∧
      first.on_message_instruments visit
        (some [listed_call, listed_put, perpetual 3599 3601]) = Except.ok second ∧
      second.m_future = some (perpetual 3599 3601) ∧
      second.m_positions.lookup "BTC-PERPETUAL" =
        some { instrument := perpetual 3599 3601, position := long_position "BTC-PERPETUAL" 0 } ∧
      second.on_message_positions
        (some [long_position "BTC-28JUN19-3500-C" 1,
          long_position "BTC-28JUN19-3500-P" 1]) = Except.ok stale ∧
      stale.m_positions.map Prod.fst = ["BTC-28JUN19-3500-C", "BTC-28JUN19-3500-P"] ∧
      stale.on_message_instruments visit
        (some [listed_call, listed_put, perpetual 3599 3601]) = Except.ok next ∧
      next.m_straddle_call = some listed_call ∧ next.m_straddle_put = some listed_put ∧
      next.m_future = some (perpetual 3599 3601) ∧
      next.m_positions.lookup "BTC-PERPETUAL" = none := by
  have hcases := perm_pair _ _ _
    (hvisit
      [("BTC-28JUN19-3500-C",
          { position := long_position "BTC-28JUN19-3500-C" 1, instrument := instrument_t.empty }),
        ("BTC-28JUN19-3500-P",
          { position := long_position "BTC-28JUN19-3500-P" 1,
            instrument := instrument_t.empty })])
  rcases hcases with h | h
  · have hsecond := (on_message_instruments_visit
      (initial_state.after (constant_kernel 0 0)
        [callback_t.on_message_positions
          (some [long_position "BTC-28JUN19-3500-C" 1,
            long_position "BTC-28JUN19-3500-P" 1])]) visit _
      (some [listed_call, listed_put, perpetual 3599 3601]) h).trans rfl
    have hnext := (on_message_instruments_visit
      (initial_state.after (constant_kernel 0 0)
        [callback_t.on_message_positions
          (some [long_position "BTC-28JUN19-3500-C" 1,
            long_position "BTC-28JUN19-3500-P" 1]),
          callback_t.on_message_instruments
            (fun _ =>
              [("BTC-28JUN19-3500-C",
              { position := long_position "BTC-28JUN19-3500-C" 1,
                instrument := instrument_t.empty }),
            ("BTC-28JUN19-3500-P",
              { position := long_position "BTC-28JUN19-3500-P" 1,
                instrument := instrument_t.empty })])
            (some [listed_call, listed_put, perpetual 3599 3601]),
          callback_t.on_message_positions
            (some [long_position "BTC-28JUN19-3500-C" 1,
              long_position "BTC-28JUN19-3500-P" 1])]) visit _
      (some [listed_call, listed_put, perpetual 3599 3601]) h).trans rfl
    exact ⟨initial_state, _, _, _, _, rfl, rfl, hsecond, rfl, rfl, rfl, rfl, hnext, rfl, rfl,
      rfl, rfl⟩
  · have hsecond := (on_message_instruments_visit
      (initial_state.after (constant_kernel 0 0)
        [callback_t.on_message_positions
          (some [long_position "BTC-28JUN19-3500-C" 1,
            long_position "BTC-28JUN19-3500-P" 1])]) visit _
      (some [listed_call, listed_put, perpetual 3599 3601]) h).trans rfl
    have hnext := (on_message_instruments_visit
      (initial_state.after (constant_kernel 0 0)
        [callback_t.on_message_positions
          (some [long_position "BTC-28JUN19-3500-C" 1,
            long_position "BTC-28JUN19-3500-P" 1]),
          callback_t.on_message_instruments
            (fun _ =>
              [("BTC-28JUN19-3500-P",
              { position := long_position "BTC-28JUN19-3500-P" 1,
                instrument := instrument_t.empty }),
            ("BTC-28JUN19-3500-C",
              { position := long_position "BTC-28JUN19-3500-C" 1,
                instrument := instrument_t.empty })])
            (some [listed_call, listed_put, perpetual 3599 3601]),
          callback_t.on_message_positions
            (some [long_position "BTC-28JUN19-3500-C" 1,
              long_position "BTC-28JUN19-3500-P" 1])]) visit _
      (some [listed_call, listed_put, perpetual 3599 3601]) h).trans rfl
    exact ⟨initial_state, _, _, _, _, rfl, rfl, hsecond, rfl, rfl, rfl, rfl, hnext, rfl, rfl,
      rfl, rfl⟩

/-- C20, on a concrete input: the positions visited in the order of their
arrival. After the second instrument list the future is still the perpetual and
the positions hold no entry for it. -/
theorem instruments_stale_future_witness :
    ∃ stale next,
      (gamma_scalper.create [] 0 [] (1 / 2) 0).map
          (fun initial =>
            initial.run_callbacks (constant_kernel (1 / 2) (-1 / 2))
              [callback_t.on_message_positions
                  (some [long_position "BTC-28JUN19-3500-C" 1,
                    long_position "BTC-28JUN19-3500-P" 1]),
                callback_t.on_message_instruments (fun positions => positions)
                  (some [listed_call, listed_put, perpetual 3599 3601]),
                callback_t.on_message_positions
                  (some [long_position "BTC-28JUN19-3500-C" 1,
                    long_position "BTC-28JUN19-3500-P" 1])]) =
        some (Except.ok stale) ∧
      stale.on_message_instruments (fun positions => positions)
        (some [listed_call, listed_put, perpetual 3599 3601]) = Except.ok next ∧
      next.m_future = some (perpetual 3599 3601) ∧
      next.m_positions.lookup "BTC-PERPETUAL" = none := by
  obtain ⟨initial, first, second, stale, next, hinitial, hfirst, hsecond, _, _, hstale, _,
      hnext, _, _, hfuture, hposition⟩ :=
    instruments_stale_future (fun positions => positions) (fun _ => List.Perm.refl _)
  refine ⟨stale, next, ?_, hnext, hfuture, hposition⟩
  rw [hinitial]
  simp only [Option.map_some', gamma_scalper.run_callbacks, gamma_scalper.deliver, hfirst,
    hsecond, hstale]

/-- What holds of the discovery of the hedge instrument, on a controller that
has not selected a future before and whatever the order in which the loop
visits the positions. When the loop over the positions completes, attaches only
option instruments and leaves a call and a put that agree in currency, maturity
and strike, `on_message(instruments)` selects as future the first
instrument of the list whose symbol is the first 11 characters of the call
symbol, if there is one; otherwise the first instrument whose symbol is the
first 3 characters followed by "-PERPETUAL", if there is one; otherwise it fails
with a runtime error. On success the positions hold, for the symbol of the
future, the future with quantity 0, side BUY and both prices 0. -/
theorem instruments_discover_future (self attached : gamma_scalper)
    (visit : List (String × position_info) → List (String × position_info))
    (instruments : List instrument_t) (straddle_call straddle_put : instrument_t)
    (hfresh : self.m_future = none)
    (hloop : gamma_scalper.attach_instruments instruments self [] (visit self.m_positions) =
      Except.ok attached)
    (hoptions : ∀ entry ∈ attached.m_positions, entry.2.instrument.type = "OPT")
    (hcall : attached.m_straddle_call = some straddle_call)
    (hput : attached.m_straddle_put = some straddle_put)
    (hcurrency : straddle_call.main_currency = straddle_put.main_currency)
    (hmaturity : straddle_call.maturity_date = straddle_put.maturity_date)
    (hstrike : straddle_call.strike_price = straddle_put.strike_price) :
    (∀ future,
      (instruments.find? fun instrument =>
          instrument.symbol == straddle_call.symbol.take 11) = some future ∨
        ((instruments.find? fun instrument =>
            instrument.symbol == straddle_call.symbol.take 11) = none ∧
          (instruments.find? fun instrument =>
            instrument.symbol == (straddle_call.symbol.take 11).take 3 ++ "-PERPETUAL") =
            some future) →
      ∃ next, self.on_message_instruments visit (some instruments) = Except.ok next ∧
        next.m_future = some future ∧
        next.m_positions.lookup future.symbol =
          some
            { instrument := future
              position :=
                { symbol := future.symbol, quantity := 0, side := side_t.BUY,
                  settlement_price := 0, underlying_end_price := 0 } } ∧
        next.m_straddle_call = some straddle_call ∧ next.m_straddle_put = some straddle_put) ∧
      ((instruments.find? fun instrument =>
          instrument.symbol == straddle_call.symbol.take 11) = none →
        (instruments.find? fun instrument =>
          instrument.symbol == (straddle_call.symbol.take 11).take 3 ++ "-PERPETUAL") = none →
        ∃ fatal message,
          self.on_message_instruments visit (some instruments) = Except.error fatal ∧
          fatal.failure = failure_t.runtime_error message) := by
  have hnone : attached.m_future = none := by
    rw [(attach_instruments_options instruments (visit self.m_positions) self [] attached hloop
      hoptions).1, hfresh]
  have hvalid : ¬ (straddle_call.main_currency ≠ straddle_put.main_currency ∨
      straddle_call.maturity_date ≠ straddle_put.maturity_date ∨
      straddle_call.strike_price ≠ straddle_put.strike_price) := by
    simp [hcurrency, hmaturity, hstrike]
  constructor
  · intro future hfound
    refine ⟨{ attached with
        m_future := some future
        m_positions :=
          set_position_info attached.m_positions future.symbol
            { instrument := future
              position :=
                { symbol := future.symbol, quantity := 0, side := side_t.BUY,
                  settlement_price := 0, underlying_end_price := 0 } }
        m_market := attached.m_market.request_mass_status }, ?_, rfl,
      lookup_set_position_info _ _ _, hcall, hput⟩
    unfold gamma_scalper.on_message_instruments
    simp only [hloop, bind, Except.bind, hcall, hput, hvalid, if_false, hnone,
      gamma_scalper.find_future]
    rcases hfound with h11 | ⟨h11, hperpetual⟩
    · simp only [h11]
    · simp only [h11, hperpetual]
  · intro h11 hperpetual
    have hisSome : attached.m_straddle_call.isSome = true := by rw [hcall]; rfl
    refine ⟨attached.report_error
        ("Impossible to find the Perpetual (" ++
          ((straddle_call.symbol.take 11).take 3 ++ "-PERPETUAL") ++
          "). Exiting before something wrong happens"),
      "Impossible to find the Perpetual (" ++
        ((straddle_call.symbol.take 11).take 3 ++ "-PERPETUAL") ++
        "). Exiting before something wrong happens", ?_, ?_⟩
    · unfold gamma_scalper.on_message_instruments
      simp only [hloop, bind, Except.bind, hcall, hput, hvalid, if_false, hnone,
        gamma_scalper.find_future, h11, hperpetual]
    · simp only [gamma_scalper.report_error, hisSome, if_true]

/-! ## Opposite-side pre-emption over several ticks -/

theorem run_callbacks_cons (self next : gamma_scalper) (kernel : pricing_t)
    (callback : callback_t) (callbacks : List callback_t)
    (h : self.deliver kernel callback = Except.ok next) :
    self.run_callbacks kernel (callback :: callbacks) = next.run_callbacks kernel callbacks := by
  simp only [gamma_scalper.run_callbacks, h]

theorem run_callbacks_market_update (self next : gamma_scalper) (kernel : pricing_t)
    (update : market_update_t) (now : ptime) (callbacks : List callback_t)
    (h : self.on_message_market_update kernel now update = Except.ok next) :
    self.run_callbacks kernel (callback_t.on_message_market_update update now :: callbacks) =
      next.run_callbacks kernel callbacks :=
  run_callbacks_cons self next kernel _ callbacks h

theorem attach_bbo_frame (self attached : gamma_scalper) (update : market_update_t)
    (h : self.attach_bbo update = Except.ok (some attached)) :
    attached = { self with
      m_future := attached.m_future, m_straddle_call := attached.m_straddle_call,
      m_straddle_put := attached.m_straddle_put } := by
  unfold gamma_scalper.attach_bbo at h
  simp only [bind, Except.bind, gamma_scalper.deref] at h
  repeat' split at h
  all_goals first
    | (cases h; done)
    | (simp only [Except.ok.injEq, Option.some.injEq] at h
       subst h
       rfl)

theorem evaluate_opposite (self updated : gamma_scalper) (kernel : pricing_t) (now : ptime)
    (corrections : ℤ) (order : order_t)
    (hcorr : self.evaluate_corrections kernel now = Except.ok (updated, some corrections))
    (horder : self.m_order = some order) (hne : corrections ≠ 0)
    (hside : order.side ≠ (if corrections < 0 then side_t.BUY else side_t.SELL)) :
    self.evaluate kernel now =
      Except.ok { updated with m_market := self.m_market.send_cancel_order order.id } := by
  obtain ⟨hframe, _⟩ := evaluate_corrections_frame self updated kernel now _ hcorr
  have h1 : updated.m_order = some order := by rw [hframe]; exact horder
  have h4 : updated.m_market = self.m_market := by rw [hframe]
  simp only [gamma_scalper.evaluate, hcorr, bind, Except.bind, gamma_scalper.evaluate_order,
    hne, ne_eq, not_false_eq_true, if_true, h1, hside, h4]

theorem market_update_opposite (self : gamma_scalper) (kernel : pricing_t) (now : ptime)
    (update : market_update_t) (corrections : ℤ) (order : order_t)
    (hready : 3 ≤ self.m_snapshots.length) (hlength : update.updates.length ≤ 2)
    (hdecision : self.tick_decision kernel now update = some corrections)
    (horder : self.m_order = some order) (hne : corrections ≠ 0)
    (hside : order.side ≠ (if corrections < 0 then side_t.BUY else side_t.SELL)) :
    ∃ next, self.on_message_market_update kernel now update = Except.ok next ∧
      next.m_order = some order ∧ next.m_snapshots = self.m_snapshots ∧
      next.m_market = self.m_market.send_cancel_order order.id := by
  unfold gamma_scalper.tick_decision at hdecision
  cases hattach : self.attach_bbo update with
  | error fatal => simp [hattach] at hdecision
  | ok result =>
    cases result with
    | none => simp [hattach] at hdecision
    | some attached =>
      simp only [hattach] at hdecision
      have hframe := attach_bbo_frame self attached update hattach
      cases hcorr : attached.evaluate_corrections kernel now with
      | error failure => simp [hcorr] at hdecision
      | ok result =>
        obtain ⟨updated, decision⟩ := result
        simp only [hcorr] at hdecision
        subst hdecision
        have hattached_order : attached.m_order = some order := by rw [hframe]; exact horder
        have hrun :=
          evaluate_opposite attached updated kernel now corrections order hcorr hattached_order
            hne hside
        obtain ⟨hupdated, _⟩ := evaluate_corrections_frame attached updated kernel now _ hcorr
        have hsnap : attached.m_snapshots = self.m_snapshots := by rw [hframe]
        have hnot : ¬ attached.m_snapshots.length < 3 := by
          rw [hsnap]
          exact not_lt.2 hready
        refine ⟨{ updated with m_market := attached.m_market.send_cancel_order order.id }, ?_,
          ?_, ?_, ?_⟩
        · unfold gamma_scalper.on_message_market_update
          simp only [not_lt.2 hlength, if_false, hattach, bind, Except.bind, hnot,
            gamma_scalper.call_evaluate, hrun]
        · show updated.m_order = some order
          rw [hupdated]
          exact hattached_order
        · show updated.m_snapshots = self.m_snapshots
          rw [hupdated]
          exact hsnap
        · show attached.m_market.send_cancel_order order.id = _
          rw [hframe]

theorem opposite_ticks_cancels (kernel : pricing_t) (order : order_t) :
    ∀ (ticks : List (market_update_t × ptime)) (self : gamma_scalper),
      3 ≤ self.m_snapshots.length → self.m_order = some order →
      opposite_ticks kernel order self ticks →
      ∃ final new, self.run_callbacks kernel (tick_callbacks ticks) = Except.ok final ∧
        final.m_order = some order ∧ final.m_market.sent = self.m_market.sent ++ new ∧
        new.length = ticks.length ∧
        ∀ message ∈ new, ∃ id, message = market_message_t.send_cancel_order id order.id := by
  intro ticks
  induction ticks with
  | nil =>
    intro self _ horder _
    exact ⟨self, [], rfl, horder, by simp, rfl, fun _ h => by cases h⟩
  | cons tick ticks ih =>
    intro self hready horder hticks
    obtain ⟨hlength, ⟨corrections, hdecision, hne, hside⟩, hrest⟩ := hticks
    obtain ⟨next, hnext, hnext_order, hnext_snapshots, hnext_market⟩ :=
      market_update_opposite self kernel tick.2 tick.1 corrections order hready hlength
        hdecision horder hne hside
    obtain ⟨final, new, hfinal, hfinal_order, hsent, hcount, hcancels⟩ :=
      ih next (by rw [hnext_snapshots]; exact hready) hnext_order (hrest next hnext)
    refine ⟨final,
      market_message_t.send_cancel_order (toString self.m_market.m_order_identifier)
        order.id :: new, ?_, hfinal_order, ?_, ?_, ?_⟩
    · simp only [tick_callbacks, List.map_cons, gamma_scalper.run_callbacks,
        gamma_scalper.deliver, hnext]
      exact hfinal
    · rw [hsent, hnext_market]
      simp [quickfix.send_cancel_order]
    · simp [hcount]
    · intro message hmessage
      rcases List.mem_cons.1 hmessage with h | h
      · exact ⟨_, h⟩
      · exact hcancels message h

theorem scenario_5_tick (self : gamma_scalper)
    (hfuture : self.m_future = some (perpetual 3599 3601))
    (hcall : self.m_straddle_call = some (straddle_option "BTC-C" option_type_t.CALL))
    (hput : self.m_straddle_put = some (straddle_option "BTC-P" option_type_t.PUT))
    (hpositions : self.m_positions = (straddle_state 3599 3601 none []).m_positions)
    (hrate : self.m_interest_rate = 0) (hready : 3 ≤ self.m_snapshots.length)
    (horder : self.m_order = some working_buy) :
    self.tick_decision (constant_kernel (1 / 120) 0) ⟨0, 0⟩ (perpetual_tick 3599 3601) =
        some 30 ∧
      self.on_message_market_update (constant_kernel (1 / 120) 0) ⟨0, 0⟩
          (perpetual_tick 3599 3601) =
        Except.ok
          { self with
            m_delta_future := 0, m_delta_call := 1 / 12, m_delta_put := 0
            m_market := self.m_market.send_cancel_order "7" } := by
  have hattach : self.attach_bbo (perpetual_tick 3599 3601) = Except.ok (some self) := by
    have hsame : ({ self with m_future := some (perpetual 3599 3601) } : gamma_scalper) =
        self := by
      rw [← hfuture]
    simp only [gamma_scalper.attach_bbo, gamma_scalper.deref, bind, Except.bind, hfuture]
    rw [if_pos (show (perpetual_tick 3599 3601).symbol = (perpetual 3599 3601).symbol from rfl)]
    exact congrArg (fun state => Except.ok (some state)) hsame
  have hcorr : self.evaluate_corrections (constant_kernel (1 / 120) 0) ⟨0, 0⟩ =
      Except.ok
        ({ self with m_delta_future := 0, m_delta_call := 1 / 12, m_delta_put := 0 },
          some 30) :=
    evaluate_corrections_eq self _ _ ⟨0, 0⟩ ⟨30, 0⟩ _ (perpetual 3599 3601) 10 3600 30 hcall rfl
      (by norm_num) (scenario_5_deltas self hfuture hcall hput hpositions hrate) hfuture rfl
      (by norm_num [details.get_price, perpetual])
      (corrections_todo_eq_raw _ _ _ 30 (by norm_num) (by norm_num) round_trip_30
        (by norm_num) (by norm_num))
  have hdecision :
      self.tick_decision (constant_kernel (1 / 120) 0) ⟨0, 0⟩ (perpetual_tick 3599 3601) =
        some 30 := by
    simp only [gamma_scalper.tick_decision, hattach, hcorr]
  refine ⟨hdecision, ?_⟩
  have hrun :=
    evaluate_opposite self _ (constant_kernel (1 / 120) 0) ⟨0, 0⟩ 30 working_buy hcorr horder
      (by decide) (by decide)
  unfold gamma_scalper.on_message_market_update
  rw [if_neg (by decide)]
  simp only [hattach, bind, Except.bind, not_lt.2 hready, if_false,
    gamma_scalper.call_evaluate, hrun]
  rfl

/-- C12, as stated, fails for more than one tick. In scenario 5 a BUY order is
working and the tick decides SELL 30; when the tick arrives twice before any
execution report, each of the two ticks yields the opposite-side decision and
each sends a cancel: two cancel requests in total, not one. -/
theorem opposite_ticks_two_cancels_counterexample :
    ∃ final,
      opposite_ticks (constant_kernel (1 / 120) 0) working_buy
        (straddle_state 3599 3601 (some working_buy) [])
        [(perpetual_tick 3599 3601, ⟨0, 0⟩), (perpetual_tick 3599 3601, ⟨0, 0⟩)] ∧
      (straddle_state 3599 3601 (some working_buy) []).run_callbacks
          (constant_kernel (1 / 120) 0)
          (tick_callbacks
            [(perpetual_tick 3599 3601, ⟨0, 0⟩), (perpetual_tick 3599 3601, ⟨0, 0⟩)]) =
        Except.ok final ∧
      final.m_order = some working_buy ∧
      final.m_market.sent =
        [market_message_t.send_cancel_order "0" "7",
          market_message_t.send_cancel_order "1" "7"] := by
  have hfirst :=
    scenario_5_tick (straddle_state 3599 3601 (some working_buy) []) rfl rfl rfl rfl rfl
      (by decide) rfl
  have hsecond :=
    scenario_5_tick
      { straddle_state 3599 3601 (some working_buy) [] with
        m_delta_future := 0, m_delta_call := 1 / 12, m_delta_put := 0
        m_market :=
          (straddle_state 3599 3601 (some working_buy) []).m_market.send_cancel_order "7" }
      rfl rfl rfl rfl rfl (by decide) rfl
  have hticks :
      opposite_ticks (constant_kernel (1 / 120) 0) working_buy
        (straddle_state 3599 3601 (some working_buy) [])
        [(perpetual_tick 3599 3601, ⟨0, 0⟩), (perpetual_tick 3599 3601, ⟨0, 0⟩)] := by
    refine ⟨by decide, ⟨30, hfirst.1, by decide, by decide⟩, fun next hnext => ?_⟩
    rw [hfirst.2] at hnext
    cases hnext
    exact ⟨by decide, ⟨30, hsecond.1, by decide, by decide⟩, fun _ _ => trivial⟩
  exact ⟨_, hticks,
    (run_callbacks_market_update _ _ _ _ _ _ hfirst.2).trans
      ((run_callbacks_market_update _ _ _ _ _ _ hsecond.2).trans rfl), rfl, rfl⟩

/-- C12 (amended). Opposite-side pre-emption over time. On a controller that has
the three snapshots and a working order, for every sequence of market-data ticks
that each yield a decision on the side opposite to the order, with no execution
report in between: the ticks are all processed, the working order is kept, and
the messages sent are one cancel request for the working order per tick and
nothing else, so no new order is sent. The total number of cancel requests is
the number of ticks, and is one only for a single tick. -/
theorem opposite_ticks_one_cancel_per_tick (self : gamma_scalper) (kernel : pricing_t)
    (order : order_t) (ticks : List (market_update_t × ptime))
    (hready : 3 ≤ self.m_snapshots.length) (horder : self.m_order = some order)
    (hticks : opposite_ticks kernel order self ticks) :
    ∃ final new, self.run_callbacks kernel (tick_callbacks ticks) = Except.ok final ∧
      final.m_order = some order ∧ final.m_market.sent = self.m_market.sent ++ new ∧
      new.length = ticks.length ∧
      (∀ message ∈ new, ∃ id, message = market_message_t.send_cancel_order id order.id) ∧
      ∀ message ∈ new, is_gtc_order message = false := by
  obtain ⟨final, new, hrun, hkept, hsent, hcount, hcancels⟩ :=
    opposite_ticks_cancels kernel order ticks self hready horder hticks
  refine ⟨final, new, hrun, hkept, hsent, hcount, hcancels, ?_⟩
  intro message hmessage
  obtain ⟨id, hid⟩ := hcancels message hmessage
  rw [hid]
  rfl

/-- C12 (amended), on a concrete input: one tick of scenario 5 sends one
cancel and keeps the working order. -/
theorem opposite_ticks_one_cancel_per_tick_witness :
    ∃ final new,
      (straddle_state 3599 3601 (some working_buy) []).run_callbacks
          (constant_kernel (1 / 120) 0)
          (tick_callbacks [(perpetual_tick 3599 3601, ⟨0, 0⟩)]) = Except.ok final ∧
      final.m_order = some working_buy ∧
      final.m_market.sent =
        (straddle_state 3599 3601 (some working_buy) []).m_market.sent ++ new ∧
      new.length = 1 := by
  obtain ⟨final, new, hrun, hkept, hsent, hcount, _, _⟩ :=
    opposite_ticks_one_cancel_per_tick (straddle_state 3599 3601 (some working_buy) [])
      (constant_kernel (1 / 120) 0) working_buy [(perpetual_tick 3599 3601, ⟨0, 0⟩)]
      (by decide) rfl
      ⟨by decide,
        ⟨30,
          (scenario_5_tick (straddle_state 3599 3601 (some working_buy) []) rfl rfl rfl rfl
            rfl (by decide) rfl).1,
          by decide, by decide⟩,
        fun _ _ => trivial⟩
  exact ⟨final, new, hrun, hkept, hsent, hcount⟩

/-! ## Warmup gate -/

theorem evaluate_order_frame (self final : gamma_scalper) (corrections : ℤ)
    (h : self.evaluate_order corrections = Except.ok final) :
    final = { self with m_market := final.m_market, m_order := final.m_order } ∧
      ∃ new, final.m_market.sent = self.m_market.sent ++ new := by
  unfold gamma_scalper.evaluate_order at h
  by_cases hzero : corrections ≠ 0
  · rw [if_pos hzero] at h
    cases horder : self.m_order with
    | some order =>
      simp only [horder] at h
      by_cases hside : order.side ≠ (if corrections < 0 then side_t.BUY else side_t.SELL)
      · rw [if_pos hside] at h
        cases h
        exact ⟨rfl, _, rfl⟩
      · rw [if_neg hside] at h
        cases h
        exact ⟨rfl, [], by simp⟩
    | none =>
      simp only [horder, bind, Except.bind] at h
      cases hfuture : deref self.m_future with
      | error failure => simp [hfuture] at h
      | ok future =>
        simp only [hfuture] at h
        cases hprice : deref (self.m_levels.get_price_to_use
            (if corrections < 0 then side_t.BUY else side_t.SELL) future) with
        | error failure => simp [hprice] at h
        | ok price_to_use =>
          simp only [hprice] at h
          cases hsize : deref (abs_int corrections) with
          | error failure => simp [hsize] at h
          | ok size =>
            simp only [hsize, quickfix.send_gtc_order] at h
            cases h
            exact ⟨rfl, _, rfl⟩
  · rw [if_neg hzero] at h
    cases h
    exact ⟨rfl, [], by simp⟩

theorem evaluate_frame (self final : gamma_scalper) (kernel : pricing_t) (now : ptime)
    (h : self.evaluate kernel now = Except.ok final) :
    final.m_snapshots = self.m_snapshots ∧
      ∃ new, final.m_market.sent = self.m_market.sent ++ new := by
  unfold gamma_scalper.evaluate at h
  simp only [bind, Except.bind] at h
  cases hcorr : self.evaluate_corrections kernel now with
  | error failure => simp [hcorr] at h
  | ok result =>
    obtain ⟨updated, decision⟩ := result
    obtain ⟨hframe, _⟩ := evaluate_corrections_frame self updated kernel now decision hcorr
    simp only [hcorr] at h
    cases decision with
    | none =>
      simp only [Except.ok.injEq] at h
      subst h
      rw [hframe]
      exact ⟨rfl, [], by simp⟩
    | some corrections =>
      simp only at h
      obtain ⟨horder, new, hnew⟩ := evaluate_order_frame updated final corrections h
      refine ⟨?_, new, ?_⟩
      · rw [horder, hframe]
      · rw [hnew, hframe]

theorem hedge_sent_of_append (before after : quickfix) (new : List market_message_t)
    (hsent : after.sent = before.sent ++ new)
    (hquiet : ∀ message ∈ new, is_gtc_order message = false ∧ is_cancel_order message = false)
    (h : hedge_sent after) : hedge_sent before := by
  obtain ⟨message, hmem, hhedge⟩ := h
  rw [hsent, List.mem_append] at hmem
  rcases hmem with hmem | hmem
  · exact ⟨message, hmem, hhedge⟩
  · obtain ⟨h1, h2⟩ := hquiet message hmem
    rw [h1, h2] at hhedge
    rcases hhedge with h | h <;> cases h

theorem request_market_data_quiet (self next : gamma_scalper)
    (h : self.request_market_data = Except.ok next) :
    next.m_snapshots = self.m_snapshots ∧ (hedge_sent next.m_market → hedge_sent self.m_market) := by
  unfold gamma_scalper.request_market_data at h
  simp only [bind, Except.bind, gamma_scalper.deref] at h
  cases hfuture : self.m_future with
  | none => simp [hfuture] at h
  | some future =>
    cases hcall : self.m_straddle_call with
    | none => simp [hfuture, hcall] at h
    | some straddle_call =>
      cases hput : self.m_straddle_put with
      | none => simp [hfuture, hcall, hput] at h
      | some straddle_put =>
        simp only [hfuture, hcall, hput] at h
        cases h
        refine ⟨rfl, hedge_sent_of_append _ _
          [market_message_t.request_market_data
              (toString self.m_market.m_request_identifier) future.symbol,
            market_message_t.request_market_data
              (toString (self.m_market.m_request_identifier + 1)) straddle_call.symbol,
            market_message_t.request_market_data
              (toString (self.m_market.m_request_identifier + 1 + 1)) straddle_put.symbol]
          (by simp [quickfix.request_market_data]) ?_⟩
        intro message hmessage
        simp only [List.mem_cons, List.mem_singleton, List.not_mem_nil, or_false] at hmessage
        rcases hmessage with h | h | h <;> rw [h] <;> exact ⟨rfl, rfl⟩

theorem attach_instruments_frame (instruments : List instrument_t) :
    ∀ (todo : List (String × position_info)) (self : gamma_scalper)
      (done : List (String × position_info)) (attached : gamma_scalper),
      gamma_scalper.attach_instruments instruments self done todo = Except.ok attached →
      attached.m_snapshots = self.m_snapshots ∧ attached.m_market = self.m_market := by
  intro todo
  induction todo with
  | nil =>
    intro self done attached h
    simp only [gamma_scalper.attach_instruments] at h
    cases h
    exact ⟨rfl, rfl⟩
  | cons entry rest ih =>
    intro self done attached h
    obtain ⟨symbol, info⟩ := entry
    simp only [gamma_scalper.attach_instruments] at h
    split at h
    · cases h
    · split at h
      · split at h
        · cases h
        · split at h
          · have hrest := ih _ _ attached h
            exact hrest
          · have hrest := ih _ _ attached h
            exact hrest
      · have hrest := ih _ _ attached h
        exact hrest

theorem on_message_instruments_quiet (self next : gamma_scalper)
    (visit : List (String × position_info) → List (String × position_info))
    (instruments : Option (List instrument_t))
    (h : self.on_message_instruments visit instruments = Except.ok next) :
    next.m_snapshots = self.m_snapshots ∧ (hedge_sent next.m_market → hedge_sent self.m_market) := by
  unfold gamma_scalper.on_message_instruments at h
  cases instruments with
  | none => cases h
  | some instruments =>
    simp only [bind, Except.bind] at h
    cases hloop :
        gamma_scalper.attach_instruments instruments self [] (visit self.m_positions) with
    | error fatal => simp [hloop] at h
    | ok attached =>
      obtain ⟨hsnapshots, hmarket⟩ :=
        attach_instruments_frame instruments (visit self.m_positions) self [] attached hloop
      have hquiet : hedge_sent attached.m_market.request_mass_status →
          hedge_sent self.m_market := by
        refine hedge_sent_of_append _ _
          [market_message_t.request_mass_status
            (toString self.m_market.m_order_identifier)]
          (by simp [quickfix.request_mass_status, hmarket]) ?_
        intro message hmessage
        rw [List.mem_singleton] at hmessage
        rw [hmessage]
        exact ⟨rfl, rfl⟩
      simp only [hloop] at h
      cases hcall : attached.m_straddle_call with
      | none =>
        simp only [hcall] at h
        cases h
      | some straddle_call =>
        cases hput : attached.m_straddle_put with
        | none =>
          simp only [hcall, hput] at h
          cases h
        | some straddle_put =>
          simp only [hcall, hput] at h
          split at h
          · cases h
          · cases hfuture : attached.m_future with
            | some future =>
              simp only [hfuture] at h
              cases h
              exact ⟨hsnapshots, hquiet⟩
            | none =>
              simp only [hfuture] at h
              cases hfound : attached.find_future instruments straddle_call with
              | error fatal => simp [hfound] at h
              | ok future =>
                simp only [hfound] at h
                cases h
                exact ⟨hsnapshots, hquiet⟩

theorem on_message_execution_report_quiet (self next : gamma_scalper)
    (report : execution_report_t)
    (h : self.on_message_execution_report report = Except.ok next) :
    next.m_snapshots = self.m_snapshots ∧ (hedge_sent next.m_market → hedge_sent self.m_market) := by
  unfold gamma_scalper.on_message_execution_report at h
  by_cases hmass : self.m_mass_reports_incoming > 0
  · rw [if_pos hmass] at h
    simp only [bind, Except.bind, gamma_scalper.deref] at h
    cases h1 : report.order_id with
    | none => simp [h1] at h
    | some id =>
      cases h2 : report.original_order_id with
      | none => simp [h1, h2] at h
      | some original_id =>
        cases h3 : report.side with
        | none => simp [h1, h2, h3] at h
        | some side =>
          cases h4 : report.order_price with
          | none => simp [h1, h2, h3, h4] at h
          | some order_price =>
            cases h5 : report.executed_volume with
            | none => simp [h1, h2, h3, h4, h5] at h
            | some executed_volume =>
              cases h6 : report.open_volume with
              | none => simp [h1, h2, h3, h4, h5, h6] at h
              | some open_volume =>
                simp only [h1, h2, h3, h4, h5, h6] at h
                split at h
                · have hquiet := request_market_data_quiet _ next h
                  exact hquiet
                · cases h
                  exact ⟨rfl, fun hsent => hsent⟩
  · rw [if_neg hmass] at h
    have hposition : ∀ (state : gamma_scalper) (increment : execution_report_t)
        (updated : gamma_scalper), state.update_position increment = Except.ok updated →
        updated.m_snapshots = state.m_snapshots ∧ updated.m_market = state.m_market := by
      intro state increment updated hupdated
      have hframe := update_position_frame state updated increment hupdated
      constructor
      · rw [hframe]
      · rw [hframe]
    cases hsymbol : report.symbol with
    | none =>
      simp only [hsymbol] at h
      cases h
      exact ⟨rfl, fun hsent => hsent⟩
    | some symbol =>
      simp only [hsymbol, bind, Except.bind, gamma_scalper.deref] at h
      cases hstatus : report.order_status with
      | none =>
        simp only [hstatus] at h
        split at h <;> cases h
      | some status =>
        simp only [hstatus] at h
        cases hmatching : self.matching_order report with
        | none =>
          simp only [hmatching] at h
          cases status
          · cases h
            exact ⟨rfl, fun hsent => hsent⟩
          · obtain ⟨h1, h2⟩ := hposition _ _ _ h
            exact ⟨h1, fun hsent => by rw [h2] at hsent; exact hsent⟩
          · obtain ⟨h1, h2⟩ := hposition _ _ _ h
            exact ⟨h1, fun hsent => by rw [h2] at hsent; exact hsent⟩
          · cases h
            exact ⟨rfl, fun hsent => hsent⟩
          · cases h
            exact ⟨rfl, fun hsent => hsent⟩
        | some order =>
          simp only [hmatching] at h
          cases status
          · cases hid : report.order_id with
            | none => simp [hid] at h
            | some id =>
              simp only [hid] at h
              cases h
              exact ⟨rfl, fun hsent => hsent⟩
          · cases hid : report.order_id with
            | none => simp [hid] at h
            | some id =>
              simp only [hid] at h
              cases hvolume : report.executed_volume with
              | none => simp [details.update_filled_volume, hvolume] at h
              | some executed_volume =>
                simp only [details.update_filled_volume, hvolume] at h
                obtain ⟨h1, h2⟩ := hposition _ _ _ h
                exact ⟨h1, fun hsent => by rw [h2] at hsent; exact hsent⟩
          · cases hvolume : report.executed_volume with
            | none => simp [details.update_filled_volume, hvolume] at h
            | some executed_volume =>
              simp only [details.update_filled_volume, hvolume] at h
              split at h
              · cases h
              · rename_i updated hupdated
                cases h
                obtain ⟨h1, h2⟩ := hposition _ _ _ hupdated
                exact ⟨h1, fun hsent => by
                  have hsent2 : hedge_sent updated.m_market := hsent
                  rw [h2] at hsent2
                  exact hsent2⟩
          · cases h
            exact ⟨rfl, fun hsent => hsent⟩
          · cases h
            exact ⟨rfl, fun hsent => hsent⟩

theorem attach_bbo_follows (self attached : gamma_scalper) (update : market_update_t)
    (h : self.attach_bbo update = Except.ok (some attached)) : self.follows update.symbol := by
  unfold gamma_scalper.attach_bbo at h
  simp only [bind, Except.bind, gamma_scalper.deref] at h
  unfold gamma_scalper.follows
  cases hfuture : self.m_future with
  | none => simp [hfuture] at h
  | some future =>
    simp only [hfuture] at h
    by_cases h1 : update.symbol = future.symbol
    · exact Or.inl (by simp [h1])
    · rw [if_neg h1] at h
      cases hcall : self.m_straddle_call with
      | none => simp [hcall] at h
      | some straddle_call =>
        simp only [hcall] at h
        by_cases h2 : update.symbol = straddle_call.symbol
        · exact Or.inr (Or.inl (by simp [h2]))
        · rw [if_neg h2] at h
          cases hput : self.m_straddle_put with
          | none => simp [hput] at h
          | some straddle_put =>
            simp only [hput] at h
            by_cases h3 : update.symbol = straddle_put.symbol
            · exact Or.inr (Or.inr (by simp [h3]))
            · rw [if_neg h3] at h
              cases h

theorem call_evaluate_frame (self final : gamma_scalper) (kernel : pricing_t) (now : ptime)
    (h : self.call_evaluate kernel now = Except.ok final) :
    final.m_snapshots = self.m_snapshots := by
  unfold gamma_scalper.call_evaluate at h
  cases hrun : self.evaluate kernel now with
  | error failure => simp [hrun] at h
  | ok evaluated =>
    simp only [hrun, Except.ok.injEq] at h
    subst h
    exact (evaluate_frame self evaluated kernel now hrun).1

theorem on_message_market_update_step (self next : gamma_scalper) (kernel : pricing_t)
    (now : ptime) (update : market_update_t)
    (h : self.on_message_market_update kernel now update = Except.ok next) :
    (hedge_sent next.m_market → hedge_sent self.m_market ∨ 3 ≤ next.m_snapshots.length) ∧
      (∀ symbol ∈ next.m_snapshots,
        symbol ∈ self.m_snapshots ∨ (symbol = update.symbol ∧ self.follows update.symbol)) ∧
      (self.m_snapshots.Nodup → next.m_snapshots.Nodup) ∧
      self.m_snapshots.length ≤ next.m_snapshots.length := by
  unfold gamma_scalper.on_message_market_update at h
  by_cases hlength : update.updates.length > 2
  · rw [if_pos hlength] at h
    cases h
  · rw [if_neg hlength] at h
    simp only [bind, Except.bind] at h
    cases hattach : self.attach_bbo update with
    | error fatal => simp [hattach] at h
    | ok result =>
      cases result with
      | none =>
        simp only [hattach, Except.ok.injEq] at h
        subst h
        exact ⟨fun hsent => Or.inl hsent, fun symbol hsymbol => Or.inl hsymbol,
          fun hnodup => hnodup, le_refl _⟩
      | some attached =>
        simp only [hattach] at h
        have hframe := attach_bbo_frame self attached update hattach
        have hfollows := attach_bbo_follows self attached update hattach
        have hsnapshots : attached.m_snapshots = self.m_snapshots := by rw [hframe]
        have hmarket : attached.m_market = self.m_market := by rw [hframe]
        have hready : ∀ snapshots : List String, next.m_snapshots = snapshots →
            ¬ snapshots.length < 3 →
            (hedge_sent next.m_market → hedge_sent self.m_market ∨ 3 ≤ next.m_snapshots.length) :=
          by
          intro snapshots hnext hnot _
          rw [hnext]
          exact Or.inr (not_lt.1 hnot)
        by_cases hwarm : attached.m_snapshots.length < 3
        · rw [if_pos hwarm] at h
          by_cases hknown : update.symbol ∈ attached.m_snapshots
          · simp only [hknown, if_true, hwarm] at h
            cases h
            exact ⟨fun hsent => Or.inl (by rw [← hmarket]; exact hsent),
              fun symbol hsymbol => Or.inl (by rw [← hsnapshots]; exact hsymbol),
              fun hnodup => by
                show attached.m_snapshots.Nodup
                rw [hsnapshots]
                exact hnodup,
              by
                show self.m_snapshots.length ≤ attached.m_snapshots.length
                rw [hsnapshots]⟩
          · simp only [hknown, if_false] at h
            have hmem : ∀ symbol ∈ attached.m_snapshots ++ [update.symbol],
                symbol ∈ self.m_snapshots ∨
                  (symbol = update.symbol ∧ self.follows update.symbol) := by
              intro symbol hsymbol
              rcases List.mem_append.1 hsymbol with hs | hs
              · exact Or.inl (by rw [← hsnapshots]; exact hs)
              · exact Or.inr ⟨List.mem_singleton.1 hs, hfollows⟩
            have hnodup : self.m_snapshots.Nodup →
                (attached.m_snapshots ++ [update.symbol]).Nodup := by
              intro hn
              rw [← hsnapshots] at hn
              refine List.Nodup.append hn (List.nodup_singleton _) ?_
              intro symbol hs1 hs2
              rw [List.mem_singleton.1 hs2] at hs1
              exact hknown hs1
            have hgrow : self.m_snapshots.length ≤
                (attached.m_snapshots ++ [update.symbol]).length := by
              rw [List.length_append, hsnapshots]
              exact Nat.le_add_right _ _
            by_cases hcounted : (attached.m_snapshots ++ [update.symbol]).length < 3
            · rw [if_pos hcounted] at h
              cases h
              exact ⟨fun hsent => Or.inl (by rw [← hmarket]; exact hsent), hmem, hnodup, hgrow⟩
            · rw [if_neg hcounted] at h
              have hnext := call_evaluate_frame _ next kernel now h
              refine ⟨hready _ hnext hcounted, ?_, ?_, ?_⟩
              · intro symbol hsymbol
                rw [hnext] at hsymbol
                exact hmem symbol hsymbol
              · intro hn
                rw [hnext]
                exact hnodup hn
              · rw [hnext]
                exact hgrow
        · rw [if_neg hwarm] at h
          have hnext := call_evaluate_frame _ next kernel now h
          refine ⟨hready _ hnext hwarm, ?_, ?_, ?_⟩
          · intro symbol hsymbol
            rw [hnext, hsnapshots] at hsymbol
            exact Or.inl hsymbol
          · intro hn
            rw [hnext, hsnapshots]
            exact hn
          · rw [hnext, hsnapshots]

theorem deliver_step (self next : gamma_scalper) (kernel : pricing_t) (callback : callback_t)
    (h : self.deliver kernel callback = Except.ok next) :
    (hedge_sent next.m_market → hedge_sent self.m_market ∨ 3 ≤ next.m_snapshots.length) ∧
      (∀ symbol ∈ next.m_snapshots,
        symbol ∈ self.m_snapshots ∨ symbol ∈ self.followed_update callback) ∧
      (self.m_snapshots.Nodup → next.m_snapshots.Nodup) ∧
      self.m_snapshots.length ≤ next.m_snapshots.length := by
  have hquiet : next.m_snapshots = self.m_snapshots →
      (hedge_sent next.m_market → hedge_sent self.m_market) →
      (hedge_sent next.m_market → hedge_sent self.m_market ∨ 3 ≤ next.m_snapshots.length) ∧
        (∀ symbol ∈ next.m_snapshots,
          symbol ∈ self.m_snapshots ∨ symbol ∈ self.followed_update callback) ∧
        (self.m_snapshots.Nodup → next.m_snapshots.Nodup) ∧
        self.m_snapshots.length ≤ next.m_snapshots.length := by
    intro hsnapshots hsent
    rw [hsnapshots]
    exact ⟨fun hs => Or.inl (hsent hs), fun symbol hsymbol => Or.inl hsymbol, fun hn => hn,
      le_refl _⟩
  cases callback with
  | on_logon =>
    simp only [gamma_scalper.deliver, Except.ok.injEq] at h
    subst h
    refine hquiet rfl (hedge_sent_of_append _ _
      [market_message_t.request_positions (toString self.m_market.m_request_identifier)]
      rfl ?_)
    intro message hmessage
    rw [List.mem_singleton] at hmessage
    rw [hmessage]
    exact ⟨rfl, rfl⟩
  | on_logout =>
    simp only [gamma_scalper.deliver, Except.ok.injEq] at h
    subst h
    exact hquiet rfl (fun hs => hs)
  | on_mass_status_report report_number =>
    simp only [gamma_scalper.deliver, gamma_scalper.on_mass_status_report] at h
    by_cases hmany : report_number > 1
    · rw [if_pos hmany] at h
      cases h
    · rw [if_neg hmany] at h
      by_cases hzero : report_number = 0
      · simp only [hzero, if_true] at h
        obtain ⟨h1, h2⟩ := request_market_data_quiet _ next h
        exact hquiet h1 h2
      · simp only [hzero, if_false, Except.ok.injEq] at h
        subst h
        exact hquiet rfl (fun hs => hs)
  | on_message_instruments visit instruments =>
    obtain ⟨h1, h2⟩ := on_message_instruments_quiet self next visit instruments h
    exact hquiet h1 h2
  | on_message_positions positions =>
    simp only [gamma_scalper.deliver, gamma_scalper.on_message_positions] at h
    cases positions with
    | none => cases h
    | some positions =>
      simp only [Except.ok.injEq] at h
      subst h
      refine hquiet rfl (hedge_sent_of_append _ _
        [market_message_t.request_instrument_list
          (toString self.m_market.m_request_identifier)] rfl ?_)
      intro message hmessage
      rw [List.mem_singleton] at hmessage
      rw [hmessage]
      exact ⟨rfl, rfl⟩
  | on_message_execution_report report =>
    obtain ⟨h1, h2⟩ := on_message_execution_report_quiet self next report h
    exact hquiet h1 h2
  | on_message_market_update update now =>
    obtain ⟨h1, h2, h3, h4⟩ := on_message_market_update_step self next kernel now update h
    refine ⟨h1, ?_, h3, h4⟩
    intro symbol hsymbol
    rcases h2 symbol hsymbol with hs | ⟨hs, hfollows⟩
    · exact Or.inl hs
    · refine Or.inr ?_
      simp only [gamma_scalper.followed_update, hfollows, if_true, List.mem_singleton]
      exact hs
  | other =>
    simp only [gamma_scalper.deliver, Except.ok.injEq] at h
    subst h
    exact hquiet rfl (fun hs => hs)

theorem run_callbacks_gate (kernel : pricing_t) :
    ∀ (callbacks : List callback_t) (self final : gamma_scalper),
      self.run_callbacks kernel callbacks = Except.ok final →
      (hedge_sent final.m_market → hedge_sent self.m_market ∨ 3 ≤ final.m_snapshots.length) ∧
        (∀ symbol ∈ final.m_snapshots,
          symbol ∈ self.m_snapshots ∨ symbol ∈ self.followed_updates kernel callbacks) ∧
        (self.m_snapshots.Nodup → final.m_snapshots.Nodup) ∧
        self.m_snapshots.length ≤ final.m_snapshots.length := by
  intro callbacks
  induction callbacks with
  | nil =>
    intro self final h
    simp only [gamma_scalper.run_callbacks, Except.ok.injEq] at h
    subst h
    exact ⟨fun hs => Or.inl hs, fun symbol hsymbol => Or.inl hsymbol, fun hn => hn, le_refl _⟩
  | cons callback callbacks ih =>
    intro self final h
    cases hstep : self.deliver kernel callback with
    | error fatal => simp [gamma_scalper.run_callbacks, hstep] at h
    | ok next =>
      simp only [gamma_scalper.run_callbacks, hstep] at h
      obtain ⟨a1, b1, c1, d1⟩ := deliver_step self next kernel callback hstep
      obtain ⟨a2, b2, c2, d2⟩ := ih next final h
      refine ⟨?_, ?_, fun hn => c2 (c1 hn), le_trans d1 d2⟩
      · intro hsent
        rcases a2 hsent with hs | hs
        · rcases a1 hs with hs1 | hs1
          · exact Or.inl hs1
          · exact Or.inr (le_trans hs1 d2)
        · exact Or.inr hs
      · intro symbol hsymbol
        simp only [gamma_scalper.followed_updates, hstep, List.mem_append]
        rcases b2 symbol hsymbol with hs | hs
        · rcases b1 symbol hs with hs1 | hs1
          · exact Or.inl hs1
          · exact Or.inr (Or.inl hs1)
        · exact Or.inr (Or.inr hs)

theorem three_distinct_of_nodup (symbols : List String) (hnodup : symbols.Nodup)
    (hlength : 3 ≤ symbols.length) :
    ∃ first second third, first ≠ second ∧ first ≠ third ∧ second ≠ third ∧
      first ∈ symbols ∧ second ∈ symbols ∧ third ∈ symbols := by
  match symbols, hnodup, hlength with
  | first :: second :: third :: rest, hnodup, _ =>
    simp only [List.nodup_cons, List.mem_cons, not_or] at hnodup
    exact ⟨first, second, third, hnodup.1.1, hnodup.1.2.1, hnodup.2.1.1, by simp, by simp,
      by simp⟩

theorem evaluate_order_places (self : gamma_scalper) (corrections size : ℤ)
    (future : instrument_t) (price : ℚ) (hzero : corrections ≠ 0)
    (horder : self.m_order = none) (hfuture : self.m_future = some future)
    (hprice : self.m_levels.get_price_to_use
      (if corrections < 0 then side_t.BUY else side_t.SELL) future = some price)
    (hsize : abs_int corrections = some size) :
    self.evaluate_order corrections =
      Except.ok
        { self with
          m_market :=
            (self.m_market.send_gtc_order future.symbol
              (if corrections < 0 then side_t.BUY else side_t.SELL) price
              (self.m_levels.get_volume_to_use
                (if corrections < 0 then side_t.BUY else side_t.SELL) size)).2
          m_order := some
            { id := ""
              original_id := toString self.m_market.m_order_identifier
              side := if corrections < 0 then side_t.BUY else side_t.SELL
              order_price := price
              full_volume := 0
              open_volume :=
                self.m_levels.get_volume_to_use
                  (if corrections < 0 then side_t.BUY else side_t.SELL) size } } := by
  unfold gamma_scalper.evaluate_order
  rw [if_pos hzero]
  simp only [horder, hfuture, hprice, hsize, deref, bind, Except.bind,
    quickfix.send_gtc_order]

theorem evaluate_of_corrections (self updated : gamma_scalper) (kernel : pricing_t)
    (now : ptime) (corrections : ℤ)
    (hcorr : self.evaluate_corrections kernel now = Except.ok (updated, some corrections)) :
    self.evaluate kernel now = updated.evaluate_order corrections := by
  simp only [gamma_scalper.evaluate, hcorr, bind, Except.bind]

theorem stale_gate_tick (self : gamma_scalper)
    (hfuture : self.m_future = some (perpetual 3599 3601))
    (hcall : self.m_straddle_call = some (listed second_call))
    (hput : self.m_straddle_put = some (listed second_put))
    (hcall_position : self.m_positions.lookup "BTC-27SEP19-3500-C" =
      some { position := long_position "BTC-27SEP19-3500-C" 1, instrument := listed second_call })
    (hput_position : self.m_positions.lookup "BTC-27SEP19-3500-P" =
      some { position := long_position "BTC-27SEP19-3500-P" 1, instrument := listed second_put })
    (hfuture_position : self.m_positions.lookup "BTC-PERPETUAL" =
      some
        { position := long_position "BTC-PERPETUAL" 0
          instrument := listed (perpetual 3599 3601) })
    (hrate : self.m_interest_rate = 0)
    (hsnapshots : self.m_snapshots = ["BTC-PERPETUAL", "BTC-28JUN19-3500-C"])
    (horder : self.m_order = none) (hlevels : self.m_levels.m_levels = []) :
    ∃ final,
      self.on_message_market_update (constant_kernel (1 / 120) 0) ⟨0, 0⟩
          (option_tick "BTC-27SEP19-3500-C") = Except.ok final ∧
        final.m_market.sent = self.m_market.sent ++
          [market_message_t.send_gtc_order (toString self.m_market.m_order_identifier)
            "BTC-PERPETUAL" side_t.SELL 3601 30] ∧
        final.m_straddle_put = self.m_straddle_put := by
  have hattach : self.attach_bbo (option_tick "BTC-27SEP19-3500-C") =
      Except.ok (some { self with m_straddle_call := some second_call }) := by
    simp only [gamma_scalper.attach_bbo, gamma_scalper.deref, bind, Except.bind, hfuture, hcall]
    rw [if_neg (show ¬ (option_tick "BTC-27SEP19-3500-C").symbol = (perpetual 3599 3601).symbol
      by decide)]
    rw [if_pos (show (option_tick "BTC-27SEP19-3500-C").symbol = (listed second_call).symbol
      from rfl)]
    rfl
  have hdeltas :
      ({ self with
          m_straddle_call := some second_call
          m_snapshots := self.m_snapshots ++ ["BTC-27SEP19-3500-C"] } :
          gamma_scalper).update_deltas (constant_kernel (1 / 120) 0)
          ((((30 : ℤ) - 0 : ℤ) : ℚ) / 360) =
        Except.ok (none,
          { self with
            m_straddle_call := some second_call
            m_snapshots := self.m_snapshots ++ ["BTC-27SEP19-3500-C"]
            m_delta_future := 0, m_delta_call := 1 / 12, m_delta_put := 0 }) := by
    simp [gamma_scalper.update_deltas, hfuture, hput, hcall_position, hput_position,
      hfuture_position, hrate, deref, bind, Except.bind, straddle_option, perpetual,
      details.get_price, details.get_call_price, details.get_put_price, details.get_delta,
      constant_kernel, double_t.neg, gamma_scalper.signed_position, second_call, second_put,
      listed, long_position]
    norm_num
  have hcorr :
      ({ self with
          m_straddle_call := some second_call
          m_snapshots := self.m_snapshots ++ ["BTC-27SEP19-3500-C"] } :
          gamma_scalper).evaluate_corrections (constant_kernel (1 / 120) 0) ⟨0, 0⟩ =
        Except.ok
          ({ self with
              m_straddle_call := some second_call
              m_snapshots := self.m_snapshots ++ ["BTC-27SEP19-3500-C"]
              m_delta_future := 0, m_delta_call := 1 / 12, m_delta_put := 0 },
            some 30) :=
    evaluate_corrections_eq _ _ _ ⟨0, 0⟩ ⟨30, 0⟩ second_call (perpetual 3599 3601) 10 3600 30 rfl
      rfl (by norm_num) hdeltas hfuture rfl (by norm_num [details.get_price, perpetual])
      (corrections_todo_eq_raw _ _ _ 30 (by norm_num) (by norm_num) round_trip_30
        (by norm_num) (by norm_num))
  have hprice : self.m_levels.get_price_to_use
      (if (30 : ℤ) < 0 then side_t.BUY else side_t.SELL) (perpetual 3599 3601) = some 3601 := by
    simp [levels.get_price_to_use, hlevels, perpetual]
  have hvolume : self.m_levels.get_volume_to_use
      (if (30 : ℤ) < 0 then side_t.BUY else side_t.SELL) ((30 : ℤ) : ℚ) = 30 := by
    simp [levels.get_volume_to_use, hlevels]
  have hrun :=
    (evaluate_of_corrections _ _ _ _ _ hcorr).trans
      (evaluate_order_places _ 30 30 (perpetual 3599 3601) 3601 (by decide) horder hfuture
        hprice (by decide))
  have hupdate :
      self.on_message_market_update (constant_kernel (1 / 120) 0) ⟨0, 0⟩
          (option_tick "BTC-27SEP19-3500-C") =
        ({ self with
            m_straddle_call := some second_call
            m_snapshots := self.m_snapshots ++ ["BTC-27SEP19-3500-C"] } :
            gamma_scalper).call_evaluate (constant_kernel (1 / 120) 0) ⟨0, 0⟩ := by
    unfold gamma_scalper.on_message_market_update
    rw [if_neg (by decide)]
    simp only [hattach, bind, Except.bind, hsnapshots]
    rw [if_pos (by decide)]
    rw [if_neg (by decide)]
    rw [if_neg (by decide)]
    rfl
  rw [hupdate]
  simp only [gamma_scalper.call_evaluate, hrun]
  refine ⟨_, rfl, ?_, rfl⟩
  simp only [quickfix.send_gtc_order, hvolume]
  rfl

theorem run_callbacks_append (kernel : pricing_t) :
    ∀ (before after : List callback_t) (self middle : gamma_scalper),
      self.run_callbacks kernel before = Except.ok middle →
      self.run_callbacks kernel (before ++ after) = middle.run_callbacks kernel after := by
  intro before
  induction before with
  | nil =>
    intro after self middle h
    simp only [gamma_scalper.run_callbacks, Except.ok.injEq] at h
    subst h
    rfl
  | cons callback callbacks ih =>
    intro after self middle h
    cases hstep : self.deliver kernel callback with
    | error fatal => simp [gamma_scalper.run_callbacks, hstep] at h
    | ok next =>
      simp only [gamma_scalper.run_callbacks, hstep] at h
      simp only [List.cons_append, gamma_scalper.run_callbacks, hstep]
      exact ih after next middle h

theorem followed_updates_append (kernel : pricing_t) :
    ∀ (before after : List callback_t) (self middle : gamma_scalper),
      self.run_callbacks kernel before = Except.ok middle →
      self.followed_updates kernel (before ++ after) =
        self.followed_updates kernel before ++ middle.followed_updates kernel after := by
  intro before
  induction before with
  | nil =>
    intro after self middle h
    simp only [gamma_scalper.run_callbacks, Except.ok.injEq] at h
    subst h
    simp [gamma_scalper.followed_updates]
  | cons callback before ih =>
    intro after self middle h
    cases hstep : self.deliver kernel callback with
    | error fatal => simp [gamma_scalper.run_callbacks, hstep] at h
    | ok next =>
      simp only [gamma_scalper.run_callbacks, hstep] at h
      have hrest := ih after next middle h
      simp only [List.cons_append, gamma_scalper.followed_updates, hstep, List.append_assoc]
      exact congrArg (fun rest => self.followed_update callback ++ rest) hrest

/-- A run depends on the visiting order of an instrument list through the order
of the positions that the controller holds when the list arrives. -/
theorem run_callbacks_visit (kernel : pricing_t)
    (visit : List (String × position_info) → List (String × position_info))
    (order : List (String × position_info)) (instruments : Option (List instrument_t))
    (before after : List callback_t) (self middle : gamma_scalper)
    (hbefore : self.run_callbacks kernel before = Except.ok middle)
    (h : visit middle.m_positions = order) :
    self.run_callbacks kernel
        (before ++ callback_t.on_message_instruments visit instruments :: after) =
      middle.run_callbacks kernel
        (callback_t.on_message_instruments (fun _ => order) instruments :: after) ∧
    self.followed_updates kernel
        (before ++ callback_t.on_message_instruments visit instruments :: after) =
      self.followed_updates kernel before ++
        middle.followed_updates kernel
          (callback_t.on_message_instruments (fun _ => order) instruments :: after) := by
  have hstep : middle.deliver kernel (callback_t.on_message_instruments visit instruments) =
      middle.deliver kernel (callback_t.on_message_instruments (fun _ => order) instruments) :=
    on_message_instruments_visit middle visit order instruments h
  constructor
  · rw [run_callbacks_append kernel before _ self middle hbefore]
    simp only [gamma_scalper.run_callbacks, hstep]
  · rw [followed_updates_append kernel before _ self middle hbefore]
    simp only [gamma_scalper.followed_updates, gamma_scalper.followed_update, hstep]

theorem first_straddle_run (order : List (String × position_info))
    (horder :
      order =
          [("BTC-28JUN19-3500-C",
              { position := long_position "BTC-28JUN19-3500-C" 1
                instrument := instrument_t.empty }),
            ("BTC-28JUN19-3500-P",
              { position := long_position "BTC-28JUN19-3500-P" 1
                instrument := instrument_t.empty })] ∨
        order =
          [("BTC-28JUN19-3500-P",
              { position := long_position "BTC-28JUN19-3500-P" 1
                instrument := instrument_t.empty }),
            ("BTC-28JUN19-3500-C",
              { position := long_position "BTC-28JUN19-3500-C" 1
                instrument := instrument_t.empty })]) :
    (initial_state.after (constant_kernel (1 / 120) 0)
        [callback_t.on_logon,
          callback_t.on_message_positions
            (some [long_position "BTC-28JUN19-3500-C" 1,
              long_position "BTC-28JUN19-3500-P" 1])]).run_callbacks
        (constant_kernel (1 / 120) 0)
        [callback_t.on_message_instruments (fun _ => order) (some instrument_list),
          callback_t.on_mass_status_report 0,
          callback_t.on_message_market_update (perpetual_tick 3599 3601) ⟨0, 0⟩,
          callback_t.on_message_market_update (option_tick "BTC-28JUN19-3500-C") ⟨0, 0⟩,
          callback_t.on_message_positions
            (some [long_position "BTC-27SEP19-3500-C" 1, long_position "BTC-27SEP19-3500-P" 1,
              long_position "BTC-PERPETUAL" 0])] =
      Except.ok
        (initial_state.after (constant_kernel (1 / 120) 0)
          (first_straddle_callbacks (fun positions => positions) ++
            [callback_t.on_message_positions
              (some [long_position "BTC-27SEP19-3500-C" 1,
                long_position "BTC-27SEP19-3500-P" 1, long_position "BTC-PERPETUAL" 0])])) ∧
    (initial_state.after (constant_kernel (1 / 120) 0)
        [callback_t.on_logon,
          callback_t.on_message_positions
            (some [long_position "BTC-28JUN19-3500-C" 1,
              long_position "BTC-28JUN19-3500-P" 1])]).followed_updates
        (constant_kernel (1 / 120) 0)
        [callback_t.on_message_instruments (fun _ => order) (some instrument_list),
          callback_t.on_mass_status_report 0,
          callback_t.on_message_market_update (perpetual_tick 3599 3601) ⟨0, 0⟩,
          callback_t.on_message_market_update (option_tick "BTC-28JUN19-3500-C") ⟨0, 0⟩,
          callback_t.on_message_positions
            (some [long_position "BTC-27SEP19-3500-C" 1, long_position "BTC-27SEP19-3500-P" 1,
              long_position "BTC-PERPETUAL" 0])] =
      ["BTC-PERPETUAL", "BTC-28JUN19-3500-C"] := by
  rcases horder with rfl | rfl
  · exact ⟨rfl, rfl⟩
  · exact ⟨rfl, rfl⟩

theorem second_straddle_run (order : List (String × position_info))
    (horder : order.Perm
      [("BTC-27SEP19-3500-C",
          { position := long_position "BTC-27SEP19-3500-C" 1
            instrument := instrument_t.empty }),
        ("BTC-27SEP19-3500-P",
          { position := long_position "BTC-27SEP19-3500-P" 1
            instrument := instrument_t.empty }),
        ("BTC-PERPETUAL",
          { position := long_position "BTC-PERPETUAL" 0, instrument := instrument_t.empty })]) :
    ∃ stale,
      (initial_state.after (constant_kernel (1 / 120) 0)
          (first_straddle_callbacks (fun positions => positions) ++
            [callback_t.on_message_positions
              (some [long_position "BTC-27SEP19-3500-C" 1,
                long_position "BTC-27SEP19-3500-P" 1,
                long_position "BTC-PERPETUAL" 0])])).run_callbacks
          (constant_kernel (1 / 120) 0)
          [callback_t.on_message_instruments (fun _ => order) (some instrument_list),
            callback_t.on_mass_status_report 0,
            callback_t.on_message_market_update (perpetual_tick 3599 3601) ⟨0, 0⟩] =
        Except.ok stale ∧
      (initial_state.after (constant_kernel (1 / 120) 0)
          (first_straddle_callbacks (fun positions => positions) ++
            [callback_t.on_message_positions
              (some [long_position "BTC-27SEP19-3500-C" 1,
                long_position "BTC-27SEP19-3500-P" 1,
                long_position "BTC-PERPETUAL" 0])])).followed_updates
          (constant_kernel (1 / 120) 0)
          [callback_t.on_message_instruments (fun _ => order) (some instrument_list),
            callback_t.on_mass_status_report 0,
            callback_t.on_message_market_update (perpetual_tick 3599 3601) ⟨0, 0⟩] =
        ["BTC-PERPETUAL"] ∧
      stale.m_market.m_order_identifier = 2 ∧
      stale.m_market.sent =
        [market_message_t.request_positions "0",
          market_message_t.request_instrument_list "1",
          market_message_t.request_mass_status "0",
          market_message_t.request_market_data "2" "BTC-PERPETUAL",
          market_message_t.request_market_data "3" "BTC-28JUN19-3500-C",
          market_message_t.request_market_data "4" "BTC-28JUN19-3500-P",
          market_message_t.request_instrument_list "5",
          market_message_t.request_mass_status "1",
          market_message_t.request_market_data "6" "BTC-PERPETUAL",
          market_message_t.request_market_data "7" "BTC-27SEP19-3500-C",
          market_message_t.request_market_data "8" "BTC-27SEP19-3500-P"] ∧
      stale.m_future = some (perpetual 3599 3601) ∧
      stale.m_straddle_call = some (listed second_call) ∧
      stale.m_straddle_put = some (listed second_put) ∧
      stale.m_positions.lookup "BTC-27SEP19-3500-C" =
        some
          { position := long_position "BTC-27SEP19-3500-C" 1
            instrument := listed second_call } ∧
      stale.m_positions.lookup "BTC-27SEP19-3500-P" =
        some
          { position := long_position "BTC-27SEP19-3500-P" 1
            instrument := listed second_put } ∧
      stale.m_positions.lookup "BTC-PERPETUAL" =
        some
          { position := long_position "BTC-PERPETUAL" 0
            instrument := listed (perpetual 3599 3601) } ∧
      stale.m_interest_rate = 0 ∧
      stale.m_snapshots = ["BTC-PERPETUAL", "BTC-28JUN19-3500-C"] ∧
      stale.m_order = none ∧ stale.m_levels.m_levels = [] := by
  rcases perm_triple _ _ _ _ horder with rfl | rfl | rfl | rfl | rfl | rfl
  · exact ⟨_, rfl, rfl, rfl, rfl, rfl, rfl, rfl, rfl, rfl, rfl, rfl, rfl, rfl, rfl⟩
  · exact ⟨_, rfl, rfl, rfl, rfl, rfl, rfl, rfl, rfl, rfl, rfl, rfl, rfl, rfl, rfl⟩
  · exact ⟨_, rfl, rfl, rfl, rfl, rfl, rfl, rfl, rfl, rfl, rfl, rfl, rfl, rfl, rfl⟩
  · exact ⟨_, rfl, rfl, rfl, rfl, rfl, rfl, rfl, rfl, rfl, rfl, rfl, rfl, rfl, rfl⟩
  · exact ⟨_, rfl, rfl, rfl, rfl, rfl, rfl, rfl, rfl, rfl, rfl, rfl, rfl, rfl, rfl⟩
  · exact ⟨_, rfl, rfl, rfl, rfl, rfl, rfl, rfl, rfl, rfl, rfl, rfl, rfl, rfl, rfl⟩

/-- The run in which the positions and the instruments arrive twice, for every
order in which the loop over the positions visits them. -/
theorem stale_snapshots_run
    (visit : List (String × position_info) → List (String × position_info))
    (hvisit : is_visiting_order visit) :
    ∃ stale,
      initial_state.run_callbacks (constant_kernel (1 / 120) 0)
        (first_straddle_callbacks visit ++ second_straddle_callbacks visit) = Except.ok stale ∧
      initial_state.followed_updates (constant_kernel (1 / 120) 0)
          (first_straddle_callbacks visit ++ second_straddle_callbacks visit) =
        ["BTC-PERPETUAL", "BTC-28JUN19-3500-C", "BTC-PERPETUAL"] ∧
      stale.m_market.m_order_identifier = 2 ∧
      stale.m_market.sent =
        [market_message_t.request_positions "0",
          market_message_t.request_instrument_list "1",
          market_message_t.request_mass_status "0",
          market_message_t.request_market_data "2" "BTC-PERPETUAL",
          market_message_t.request_market_data "3" "BTC-28JUN19-3500-C",
          market_message_t.request_market_data "4" "BTC-28JUN19-3500-P",
          market_message_t.request_instrument_list "5",
          market_message_t.request_mass_status "1",
          market_message_t.request_market_data "6" "BTC-PERPETUAL",
          market_message_t.request_market_data "7" "BTC-27SEP19-3500-C",
          market_message_t.request_market_data "8" "BTC-27SEP19-3500-P"] ∧
      stale.m_future = some (perpetual 3599 3601) ∧
      stale.m_straddle_call = some (listed second_call) ∧
      stale.m_straddle_put = some (listed second_put) ∧
      stale.m_positions.lookup "BTC-27SEP19-3500-C" =
        some
          { position := long_position "BTC-27SEP19-3500-C" 1
            instrument := listed second_call } ∧
      stale.m_positions.lookup "BTC-27SEP19-3500-P" =
        some
          { position := long_position "BTC-27SEP19-3500-P" 1
            instrument := listed second_put } ∧
      stale.m_positions.lookup "BTC-PERPETUAL" =
        some
          { position := long_position "BTC-PERPETUAL" 0
            instrument := listed (perpetual 3599 3601) } ∧
      stale.m_interest_rate = 0 ∧
      stale.m_snapshots = ["BTC-PERPETUAL", "BTC-28JUN19-3500-C"] ∧
      stale.m_order = none ∧ stale.m_levels.m_levels = [] := by
  have hfirst_order := perm_pair _ _ _
    (hvisit
      [("BTC-28JUN19-3500-C",
          { position := long_position "BTC-28JUN19-3500-C" 1
            instrument := instrument_t.empty }),
        ("BTC-28JUN19-3500-P",
          { position := long_position "BTC-28JUN19-3500-P" 1
            instrument := instrument_t.empty })])
  have hsecond_order := hvisit
      [("BTC-27SEP19-3500-C",
          { position := long_position "BTC-27SEP19-3500-C" 1
            instrument := instrument_t.empty }),
        ("BTC-27SEP19-3500-P",
          { position := long_position "BTC-27SEP19-3500-P" 1
            instrument := instrument_t.empty }),
        ("BTC-PERPETUAL",
          { position := long_position "BTC-PERPETUAL" 0, instrument := instrument_t.empty })]
  obtain ⟨hfirst_run, hfirst_followed⟩ := first_straddle_run _ hfirst_order
  obtain ⟨stale, hsecond_run, hsecond_followed, hfacts⟩ := second_straddle_run _ hsecond_order
  have hstart := run_callbacks_visit (constant_kernel (1 / 120) 0) visit _
    (some instrument_list)
    [callback_t.on_logon,
      callback_t.on_message_positions
        (some [long_position "BTC-28JUN19-3500-C" 1, long_position "BTC-28JUN19-3500-P" 1])]
    ([callback_t.on_mass_status_report 0,
        callback_t.on_message_market_update (perpetual_tick 3599 3601) ⟨0, 0⟩,
        callback_t.on_message_market_update (option_tick "BTC-28JUN19-3500-C") ⟨0, 0⟩,
        callback_t.on_message_positions
          (some [long_position "BTC-27SEP19-3500-C" 1, long_position "BTC-27SEP19-3500-P" 1,
            long_position "BTC-PERPETUAL" 0])] ++
      [callback_t.on_message_instruments visit (some instrument_list),
        callback_t.on_mass_status_report 0,
        callback_t.on_message_market_update (perpetual_tick 3599 3601) ⟨0, 0⟩])
    initial_state
    (initial_state.after (constant_kernel (1 / 120) 0)
      [callback_t.on_logon,
        callback_t.on_message_positions
          (some [long_position "BTC-28JUN19-3500-C" 1,
            long_position "BTC-28JUN19-3500-P" 1])])
    rfl rfl
  have hmiddle := run_callbacks_visit (constant_kernel (1 / 120) 0) visit _
    (some instrument_list) _
    [callback_t.on_mass_status_report 0,
      callback_t.on_message_market_update (perpetual_tick 3599 3601) ⟨0, 0⟩]
    _ _ hfirst_run rfl
  have hlist :
      first_straddle_callbacks visit ++ second_straddle_callbacks visit =
        [callback_t.on_logon,
          callback_t.on_message_positions
            (some [long_position "BTC-28JUN19-3500-C" 1,
              long_position "BTC-28JUN19-3500-P" 1])] ++
          callback_t.on_message_instruments visit (some instrument_list) ::
            ([callback_t.on_mass_status_report 0,
                callback_t.on_message_market_update (perpetual_tick 3599 3601) ⟨0, 0⟩,
                callback_t.on_message_market_update (option_tick "BTC-28JUN19-3500-C") ⟨0, 0⟩,
                callback_t.on_message_positions
                  (some [long_position "BTC-27SEP19-3500-C" 1,
                    long_position "BTC-27SEP19-3500-P" 1,
                    long_position "BTC-PERPETUAL" 0])] ++
              [callback_t.on_message_instruments visit (some instrument_list),
                callback_t.on_mass_status_report 0,
                callback_t.on_message_market_update (perpetual_tick 3599 3601) ⟨0, 0⟩]) :=
    rfl
  refine ⟨stale, ?_, ?_, hfacts⟩
  · rw [hlist, hstart.1]
    exact hmiddle.1.trans hsecond_run
  · rw [hlist, hstart.2]
    exact congrArg (fun rest => ([] : List String) ++ rest)
      (hmiddle.2.trans (congrArg₂ (fun first second => first ++ second) hfirst_followed
        hsecond_followed))

/-- What holds of the warmup gate. For every sequence of callbacks that the
controller processes from its initial state, whatever the order in which the
loops visit the positions: when a hedge order or a cancel request is among the
messages sent, market updates have been received for three distinct symbols,
each while it was the symbol of the future, of the call or of the put of the
controller at that moment. These need not be the symbols of the future, the
call and the put when the order is sent, because the set of snapshots is never
emptied. An update of at most two entries for a symbol that is none of the
three, on a controller that has a future, a call and a put, returns and changes
nothing. -/
theorem warmup_gate (kernel : pricing_t) (levels_file : List level_line_t) (pnl_file : ℚ)
    (pnl_log : List pnl_entry_t) (price_sweetener interest_rate : ℚ)
    (initial final : gamma_scalper) (callbacks : List callback_t)
    (hcreate : gamma_scalper.create levels_file pnl_file pnl_log price_sweetener
      interest_rate = some initial)
    (hrun : initial.run_callbacks kernel callbacks = Except.ok final) :
    (hedge_sent final.m_market →
      ∃ first second third, first ≠ second ∧ first ≠ third ∧ second ≠ third ∧
        first ∈ initial.followed_updates kernel callbacks ∧
        second ∈ initial.followed_updates kernel callbacks ∧
        third ∈ initial.followed_updates kernel callbacks) ∧
      ∀ (self : gamma_scalper) (update : market_update_t) (now : ptime)
        (future straddle_call straddle_put : instrument_t),
        self.m_future = some future → self.m_straddle_call = some straddle_call →
        self.m_straddle_put = some straddle_put → update.symbol ≠ future.symbol →
        update.symbol ≠ straddle_call.symbol → update.symbol ≠ straddle_put.symbol →
        update.updates.length ≤ 2 →
        self.on_message_market_update kernel now update = Except.ok self := by
  constructor
  · intro hsent
    have hinitial : initial.m_snapshots = [] ∧ initial.m_market.sent = [] := by
      unfold gamma_scalper.create at hcreate
      cases hlevels : levels.create levels_file pnl_file pnl_log price_sweetener with
      | none => simp [hlevels] at hcreate
      | some m_levels =>
        simp only [hlevels, Option.map_some', Option.some.injEq] at hcreate
        subst hcreate
        exact ⟨rfl, rfl⟩
    obtain ⟨hgate, hfollowed, hnodup, _⟩ := run_callbacks_gate kernel callbacks initial final hrun
    have hready : 3 ≤ final.m_snapshots.length := by
      rcases hgate hsent with hbefore | hready
      · obtain ⟨message, hmember, _⟩ := hbefore
        rw [hinitial.2] at hmember
        cases hmember
      · exact hready
    obtain ⟨first, second, third, h12, h13, h23, h1, h2, h3⟩ :=
      three_distinct_of_nodup final.m_snapshots
        (hnodup (by rw [hinitial.1]; exact List.nodup_nil)) hready
    have hmember : ∀ symbol ∈ final.m_snapshots,
        symbol ∈ initial.followed_updates kernel callbacks := by
      intro symbol hsymbol
      rcases hfollowed symbol hsymbol with h | h
      · rw [hinitial.1] at h
        cases h
      · exact h
    exact ⟨first, second, third, h12, h13, h23, hmember _ h1, hmember _ h2, hmember _ h3⟩
  · intro self update now future straddle_call straddle_put hfuture hcall hput h1 h2 h3
      hlength
    unfold gamma_scalper.on_message_market_update
    rw [if_neg (not_lt.2 hlength)]
    simp only [gamma_scalper.attach_bbo, gamma_scalper.deref, bind, Except.bind, hfuture,
      hcall, hput, h1, h2, h3, if_false]

/-- The run in which the positions and the instruments arrive twice sends a
hedge order, and market updates were followed for three distinct symbols before
it. -/
theorem warmup_gate_run :
    ∃ initial final,
      gamma_scalper.create [] 0 [] (1 / 2) 0 = some initial ∧
      initial.run_callbacks (constant_kernel (1 / 120) 0)
        (first_straddle_callbacks (fun positions => positions) ++
            second_straddle_callbacks (fun positions => positions) ++
          [callback_t.on_message_market_update (option_tick "BTC-27SEP19-3500-C") ⟨0, 0⟩]) =
        Except.ok final ∧
      hedge_sent final.m_market ∧
      ∃ first second third, first ≠ second ∧ first ≠ third ∧ second ≠ third ∧
        first ∈ initial.followed_updates (constant_kernel (1 / 120) 0)
          (first_straddle_callbacks (fun positions => positions) ++
            second_straddle_callbacks (fun positions => positions) ++
            [callback_t.on_message_market_update (option_tick "BTC-27SEP19-3500-C")
              ⟨0, 0⟩]) ∧
        second ∈ initial.followed_updates (constant_kernel (1 / 120) 0)
          (first_straddle_callbacks (fun positions => positions) ++
            second_straddle_callbacks (fun positions => positions) ++
            [callback_t.on_message_market_update (option_tick "BTC-27SEP19-3500-C")
              ⟨0, 0⟩]) ∧
        third ∈ initial.followed_updates (constant_kernel (1 / 120) 0)
          (first_straddle_callbacks (fun positions => positions) ++
            second_straddle_callbacks (fun positions => positions) ++
            [callback_t.on_message_market_update (option_tick "BTC-27SEP19-3500-C")
              ⟨0, 0⟩]) := by
  obtain ⟨stale, hprefix, _, _, _, hfuture, hcall, hput, hcall_position, hput_position,
      hfuture_position, hrate, hsnapshots, horder, hlevels⟩ :=
    stale_snapshots_run (fun positions => positions) (fun positions => List.Perm.refl positions)
  obtain ⟨final, hfinal, hfinal_sent, _⟩ :=
    stale_gate_tick stale hfuture hcall hput hcall_position hput_position hfuture_position
      hrate hsnapshots horder hlevels
  have hrun :
      initial_state.run_callbacks (constant_kernel (1 / 120) 0)
        (first_straddle_callbacks (fun positions => positions) ++
            second_straddle_callbacks (fun positions => positions) ++
          [callback_t.on_message_market_update (option_tick "BTC-27SEP19-3500-C") ⟨0, 0⟩]) =
        Except.ok final := by
    rw [run_callbacks_append _ _ _ initial_state stale hprefix]
    exact (run_callbacks_market_update stale final _ _ _ [] hfinal).trans rfl
  have hsent : hedge_sent final.m_market :=
    ⟨market_message_t.send_gtc_order (toString stale.m_market.m_order_identifier)
        "BTC-PERPETUAL" side_t.SELL 3601 30,
      by rw [hfinal_sent]; exact List.mem_append_right _ (List.mem_singleton.2 rfl),
      Or.inl rfl⟩
  exact ⟨initial_state, final, rfl, hrun, hsent,
    (warmup_gate (constant_kernel (1 / 120) 0) [] 0 [] (1 / 2) 0 initial_state final _ rfl
      hrun).1 hsent⟩

/-! ## Logout -/

theorem mass_cancellations_of_append (before after : quickfix) (new : List market_message_t)
    (hsent : after.sent = before.sent ++ new)
    (hquiet : ∀ message ∈ new, is_mass_cancellation_order message = false) :
    mass_cancellations after = mass_cancellations before := by
  unfold mass_cancellations
  rw [hsent, List.filter_append]
  have hnone : new.filter is_mass_cancellation_order = [] := by
    rw [List.filter_eq_nil_iff]
    intro message hmessage
    rw [hquiet message hmessage]
    decide
  rw [hnone, List.append_nil]

theorem request_market_data_no_mass_cancellation (self next : gamma_scalper)
    (h : self.request_market_data = Except.ok next) :
    mass_cancellations next.m_market = mass_cancellations self.m_market := by
  unfold gamma_scalper.request_market_data at h
  simp only [bind, Except.bind, gamma_scalper.deref] at h
  cases hfuture : self.m_future with
  | none => simp [hfuture] at h
  | some future =>
    cases hcall : self.m_straddle_call with
    | none => simp [hfuture, hcall] at h
    | some straddle_call =>
      cases hput : self.m_straddle_put with
      | none => simp [hfuture, hcall, hput] at h
      | some straddle_put =>
        simp only [hfuture, hcall, hput] at h
        cases h
        refine mass_cancellations_of_append _ _
          [market_message_t.request_market_data
              (toString self.m_market.m_request_identifier) future.symbol,
            market_message_t.request_market_data
              (toString (self.m_market.m_request_identifier + 1)) straddle_call.symbol,
            market_message_t.request_market_data
              (toString (self.m_market.m_request_identifier + 1 + 1)) straddle_put.symbol]
          (by simp [quickfix.request_market_data]) ?_
        intro message hmessage
        simp only [List.mem_cons, List.mem_singleton, List.not_mem_nil, or_false] at hmessage
        rcases hmessage with h | h | h <;> rw [h] <;> rfl

theorem on_message_instruments_no_mass_cancellation (self next : gamma_scalper)
    (visit : List (String × position_info) → List (String × position_info))
    (instruments : Option (List instrument_t))
    (h : self.on_message_instruments visit instruments = Except.ok next) :
    mass_cancellations next.m_market = mass_cancellations self.m_market := by
  unfold gamma_scalper.on_message_instruments at h
  cases instruments with
  | none => cases h
  | some instruments =>
    simp only [bind, Except.bind] at h
    cases hloop :
        gamma_scalper.attach_instruments instruments self [] (visit self.m_positions) with
    | error fatal => simp [hloop] at h
    | ok attached =>
      obtain ⟨_, hmarket⟩ :=
        attach_instruments_frame instruments (visit self.m_positions) self [] attached hloop
      have hquiet : mass_cancellations attached.m_market.request_mass_status =
          mass_cancellations self.m_market := by
        refine mass_cancellations_of_append _ _
          [market_message_t.request_mass_status
            (toString self.m_market.m_order_identifier)]
          (by simp [quickfix.request_mass_status, hmarket]) ?_
        intro message hmessage
        rw [List.mem_singleton] at hmessage
        rw [hmessage]
        rfl
      simp only [hloop] at h
      cases hcall : attached.m_straddle_call with
      | none =>
        simp only [hcall] at h
        cases h
      | some straddle_call =>
        cases hput : attached.m_straddle_put with
        | none =>
          simp only [hcall, hput] at h
          cases h
        | some straddle_put =>
          simp only [hcall, hput] at h
          split at h
          · cases h
          · cases hfuture : attached.m_future with
            | some future =>
              simp only [hfuture] at h
              cases h
              exact hquiet
            | none =>
              simp only [hfuture] at h
              cases hfound : attached.find_future instruments straddle_call with
              | error fatal => simp [hfound] at h
              | ok future =>
                simp only [hfound] at h
                cases h
                exact hquiet

theorem on_message_execution_report_no_mass_cancellation (self next : gamma_scalper)
    (report : execution_report_t)
    (h : self.on_message_execution_report report = Except.ok next) :
    mass_cancellations next.m_market = mass_cancellations self.m_market := by
  unfold gamma_scalper.on_message_execution_report at h
  by_cases hmass : self.m_mass_reports_incoming > 0
  · rw [if_pos hmass] at h
    simp only [bind, Except.bind, gamma_scalper.deref] at h
    cases h1 : report.order_id with
    | none => simp [h1] at h
    | some id =>
      cases h2 : report.original_order_id with
      | none => simp [h1, h2] at h
      | some original_id =>
        cases h3 : report.side with
        | none => simp [h1, h2, h3] at h
        | some side =>
          cases h4 : report.order_price with
          | none => simp [h1, h2, h3, h4] at h
          | some order_price =>
            cases h5 : report.executed_volume with
            | none => simp [h1, h2, h3, h4, h5] at h
            | some executed_volume =>
              cases h6 : report.open_volume with
              | none => simp [h1, h2, h3, h4, h5, h6] at h
              | some open_volume =>
                simp only [h1, h2, h3, h4, h5, h6] at h
                split at h
                · have hquiet := request_market_data_no_mass_cancellation _ next h
                  exact hquiet
                · cases h
                  rfl
  · rw [if_neg hmass] at h
    have hposition : ∀ (state : gamma_scalper) (increment : execution_report_t)
        (updated : gamma_scalper), state.update_position increment = Except.ok updated →
        updated.m_market = state.m_market := by
      intro state increment updated hupdated
      have hframe := update_position_frame state updated increment hupdated
      rw [hframe]
    cases hsymbol : report.symbol with
    | none =>
      simp only [hsymbol] at h
      cases h
      rfl
    | some symbol =>
      simp only [hsymbol, bind, Except.bind, gamma_scalper.deref] at h
      cases hstatus : report.order_status with
      | none =>
        simp only [hstatus] at h
        split at h <;> cases h
      | some status =>
        simp only [hstatus] at h
        cases hmatching : self.matching_order report with
        | none =>
          simp only [hmatching] at h
          cases status
          · cases h
            rfl
          · rw [hposition _ _ _ h]
          · rw [hposition _ _ _ h]
          · cases h
            rfl
          · cases h
            rfl
        | some order =>
          simp only [hmatching] at h
          cases status
          · cases hid : report.order_id with
            | none => simp [hid] at h
            | some id =>
              simp only [hid] at h
              cases h
              rfl
          · cases hid : report.order_id with
            | none => simp [hid] at h
            | some id =>
              simp only [hid] at h
              cases hvolume : report.executed_volume with
              | none => simp [details.update_filled_volume, hvolume] at h
              | some executed_volume =>
                simp only [details.update_filled_volume, hvolume] at h
                rw [hposition _ _ _ h]
          · cases hvolume : report.executed_volume with
            | none => simp [details.update_filled_volume, hvolume] at h
            | some executed_volume =>
              simp only [details.update_filled_volume, hvolume] at h
              split at h
              · cases h
              · rename_i updated hupdated
                cases h
                have hmarket := hposition _ _ _ hupdated
                exact congrArg mass_cancellations hmarket
          · cases h
            rfl
          · cases h
            rfl

theorem evaluate_order_no_mass_cancellation (self final : gamma_scalper) (corrections : ℤ)
    (h : self.evaluate_order corrections = Except.ok final) :
    mass_cancellations final.m_market = mass_cancellations self.m_market := by
  unfold gamma_scalper.evaluate_order at h
  by_cases hzero : corrections ≠ 0
  · rw [if_pos hzero] at h
    cases horder : self.m_order with
    | some order =>
      simp only [horder] at h
      by_cases hside : order.side ≠ (if corrections < 0 then side_t.BUY else side_t.SELL)
      · rw [if_pos hside] at h
        cases h
        refine mass_cancellations_of_append _ _ _ rfl ?_
        intro message hmessage
        rw [List.mem_singleton] at hmessage
        rw [hmessage]
        rfl
      · rw [if_neg hside] at h
        cases h
        rfl
    | none =>
      simp only [horder, bind, Except.bind] at h
      cases hfuture : deref self.m_future with
      | error failure => simp [hfuture] at h
      | ok future =>
        simp only [hfuture] at h
        cases hprice : deref (self.m_levels.get_price_to_use
            (if corrections < 0 then side_t.BUY else side_t.SELL) future) with
        | error failure => simp [hprice] at h
        | ok price_to_use =>
          simp only [hprice] at h
          cases hsize : deref (abs_int corrections) with
          | error failure => simp [hsize] at h
          | ok size =>
            simp only [hsize, quickfix.send_gtc_order] at h
            cases h
            refine mass_cancellations_of_append _ _ _ rfl ?_
            intro message hmessage
            rw [List.mem_singleton] at hmessage
            rw [hmessage]
            rfl
  · rw [if_neg hzero] at h
    cases h
    rfl

theorem evaluate_no_mass_cancellation (self final : gamma_scalper) (kernel : pricing_t)
    (now : ptime) (h : self.evaluate kernel now = Except.ok final) :
    mass_cancellations final.m_market = mass_cancellations self.m_market := by
  unfold gamma_scalper.evaluate at h
  simp only [bind, Except.bind] at h
  cases hcorr : self.evaluate_corrections kernel now with
  | error failure => simp [hcorr] at h
  | ok result =>
    obtain ⟨updated, decision⟩ := result
    obtain ⟨hframe, _⟩ := evaluate_corrections_frame self updated kernel now decision hcorr
    have hmarket : updated.m_market = self.m_market := by rw [hframe]
    simp only [hcorr] at h
    cases decision with
    | none =>
      simp only [Except.ok.injEq] at h
      subst h
      rw [hmarket]
    | some corrections =>
      simp only at h
      rw [evaluate_order_no_mass_cancellation updated final corrections h, hmarket]

theorem call_evaluate_no_mass_cancellation (self final : gamma_scalper) (kernel : pricing_t)
    (now : ptime) (h : self.call_evaluate kernel now = Except.ok final) :
    mass_cancellations final.m_market = mass_cancellations self.m_market := by
  unfold gamma_scalper.call_evaluate at h
  cases hrun : self.evaluate kernel now with
  | error failure => simp [hrun] at h
  | ok evaluated =>
    simp only [hrun, Except.ok.injEq] at h
    subst h
    exact evaluate_no_mass_cancellation self evaluated kernel now hrun

theorem on_message_market_update_no_mass_cancellation (self next : gamma_scalper)
    (kernel : pricing_t) (now : ptime) (update : market_update_t)
    (h : self.on_message_market_update kernel now update = Except.ok next) :
    mass_cancellations next.m_market = mass_cancellations self.m_market := by
  unfold gamma_scalper.on_message_market_update at h
  by_cases hlength : update.updates.length > 2
  · rw [if_pos hlength] at h
    cases h
  · rw [if_neg hlength] at h
    simp only [bind, Except.bind] at h
    cases hattach : self.attach_bbo update with
    | error fatal => simp [hattach] at h
    | ok result =>
      cases result with
      | none =>
        simp only [hattach, Except.ok.injEq] at h
        subst h
        rfl
      | some attached =>
        simp only [hattach] at h
        have hframe := attach_bbo_frame self attached update hattach
        have hmarket : attached.m_market = self.m_market := by rw [hframe]
        by_cases hwarm : attached.m_snapshots.length < 3
        · rw [if_pos hwarm] at h
          by_cases hcounted :
              (if update.symbol ∈ attached.m_snapshots then attached.m_snapshots
                else attached.m_snapshots ++ [update.symbol]).length < 3
          · rw [if_pos hcounted] at h
            cases h
            exact congrArg mass_cancellations hmarket
          · rw [if_neg hcounted] at h
            exact (call_evaluate_no_mass_cancellation _ next kernel now h).trans
              (congrArg mass_cancellations hmarket)
        · rw [if_neg hwarm] at h
          exact (call_evaluate_no_mass_cancellation _ next kernel now h).trans
            (congrArg mass_cancellations hmarket)

theorem deliver_no_mass_cancellation (self next : gamma_scalper) (kernel : pricing_t)
    (callback : callback_t) (h : self.deliver kernel callback = Except.ok next) :
    mass_cancellations next.m_market = mass_cancellations self.m_market := by
  cases callback with
  | on_logon =>
    simp only [gamma_scalper.deliver, Except.ok.injEq] at h
    subst h
    refine mass_cancellations_of_append _ _
      [market_message_t.request_positions (toString self.m_market.m_request_identifier)]
      rfl ?_
    intro message hmessage
    rw [List.mem_singleton] at hmessage
    rw [hmessage]
    rfl
  | on_logout =>
    simp only [gamma_scalper.deliver, Except.ok.injEq] at h
    subst h
    rfl
  | on_mass_status_report report_number =>
    simp only [gamma_scalper.deliver, gamma_scalper.on_mass_status_report] at h
    by_cases hmany : report_number > 1
    · rw [if_pos hmany] at h
      cases h
    · rw [if_neg hmany] at h
      by_cases hzero : report_number = 0
      · simp only [hzero, if_true] at h
        have hquiet := request_market_data_no_mass_cancellation _ next h
        exact hquiet
      · simp only [hzero, if_false, Except.ok.injEq] at h
        subst h
        rfl
  | on_message_instruments visit instruments =>
    exact on_message_instruments_no_mass_cancellation self next visit instruments h
  | on_message_positions positions =>
    simp only [gamma_scalper.deliver, gamma_scalper.on_message_positions] at h
    cases positions with
    | none => cases h
    | some positions =>
      simp only [Except.ok.injEq] at h
      subst h
      refine mass_cancellations_of_append _ _
        [market_message_t.request_instrument_list
          (toString self.m_market.m_request_identifier)] rfl ?_
      intro message hmessage
      rw [List.mem_singleton] at hmessage
      rw [hmessage]
      rfl
  | on_message_execution_report report =>
    exact on_message_execution_report_no_mass_cancellation self next report h
  | on_message_market_update update now =>
    exact on_message_market_update_no_mass_cancellation self next kernel now update h
  | other =>
    simp only [gamma_scalper.deliver, Except.ok.injEq] at h
    subst h
    rfl

theorem run_callbacks_no_mass_cancellation (kernel : pricing_t) :
    ∀ (callbacks : List callback_t) (self final : gamma_scalper),
      self.run_callbacks kernel callbacks = Except.ok final →
      mass_cancellations final.m_market = mass_cancellations self.m_market := by
  intro callbacks
  induction callbacks with
  | nil =>
    intro self final h
    simp only [gamma_scalper.run_callbacks, Except.ok.injEq] at h
    subst h
    rfl
  | cons callback callbacks ih =>
    intro self final h
    cases hstep : self.deliver kernel callback with
    | error fatal => simp [gamma_scalper.run_callbacks, hstep] at h
    | ok next =>
      simp only [gamma_scalper.run_callbacks, hstep] at h
      exact (ih next final h).trans
        (deliver_no_mass_cancellation self next kernel callback hstep)

/-- C19. Logout does not cancel. For every controller state in which a working
order is recorded, `on_logout` sends nothing to the transport and keeps the
working order: it only clears the running flag. The mass cancellation and the
clearing of the working order are what `cancel_all_orders` does, and no
callback calls it: whatever sequence of callbacks the controller processes
after the logout, the mass cancellations among the messages sent are those that
were there before the logout, and none is sent when none was sent before. -/
theorem on_logout_sends_no_cancellation (self : gamma_scalper) (order : order_t)
    (horder : self.m_order = some order) :
    self.on_logout = { self with m_is_running := false } ∧
      self.on_logout.m_market.sent = self.m_market.sent ∧
      self.on_logout.m_order = some order ∧
      self.cancel_all_orders.m_order = none ∧
      self.cancel_all_orders.m_market.sent =
        self.m_market.sent ++
          [market_message_t.send_mass_cancellation_order
            (toString self.m_market.m_order_identifier)] ∧
      ∀ (kernel : pricing_t) (callbacks : List callback_t) (final : gamma_scalper),
        self.run_callbacks kernel (callback_t.on_logout :: callbacks) = Except.ok final →
        mass_cancellations final.m_market = mass_cancellations self.m_market ∧
          (mass_cancellations self.m_market = [] →
            ∀ order_id,
              market_message_t.send_mass_cancellation_order order_id ∉ final.m_market.sent) := by
  refine ⟨rfl, rfl, horder, ?_, ?_, ?_⟩
  · unfold gamma_scalper.cancel_all_orders
    rw [horder]
  · unfold gamma_scalper.cancel_all_orders
    rw [horder]
    rfl
  · intro kernel callbacks final hrun
    have hsame := run_callbacks_no_mass_cancellation kernel _ self final hrun
    refine ⟨hsame, ?_⟩
    intro hnone order_id hmember
    have hfiltered : market_message_t.send_mass_cancellation_order order_id ∈
        mass_cancellations final.m_market :=
      List.mem_filter.2 ⟨hmember, rfl⟩
    rw [hsame, hnone] at hfiltered
    cases hfiltered

/-- C19, on a concrete input: with a working BUY order recorded and nothing sent
before, the logout sends nothing and keeps the order, and after the logon that
follows no mass cancellation is among the messages sent and the order is still
recorded. -/
theorem on_logout_sends_no_cancellation_witness :
    (straddle_state 3599 3601 (some working_buy) []).m_order = some working_buy ∧
      (straddle_state 3599 3601 (some working_buy) []).on_logout.m_market.sent = [] ∧
      (straddle_state 3599 3601 (some working_buy) []).on_logout.m_order =
        some working_buy ∧
      ∃ final,
        (straddle_state 3599 3601 (some working_buy) []).run_callbacks (constant_kernel 0 0)
            [callback_t.on_logout, callback_t.on_logon] = Except.ok final ∧
        final.m_order = some working_buy ∧
        final.m_market.sent = [market_message_t.request_positions "3"] ∧
        ∀ order_id,
          market_message_t.send_mass_cancellation_order order_id ∉ final.m_market.sent :=
  ⟨rfl,
    (on_logout_sends_no_cancellation (straddle_state 3599 3601 (some working_buy) [])
      working_buy rfl).2.1,
    (on_logout_sends_no_cancellation (straddle_state 3599 3601 (some working_buy) [])
      working_buy rfl).2.2.1,
    (straddle_state 3599 3601 (some working_buy) []).on_logout.on_logon, rfl, rfl, rfl,
    ((on_logout_sends_no_cancellation (straddle_state 3599 3601 (some working_buy) [])
      working_buy rfl).2.2.2.2.2 (constant_kernel 0 0) [callback_t.on_logon]
      (straddle_state 3599 3601 (some working_buy) []).on_logout.on_logon rfl).2 rfl⟩

/-! ## Put-call parity fallback -/

/-- C21. Put-call parity fallback. With an underlying mid `S ≠ 0`, strike `K`,
rate `r` and time `T`: `get_price` is the mid `(ask + bid) / 2` of a market that
has both bid and ask and absent otherwise; `get_call_price` returns the mid of
the call when it has one, otherwise `(P*S + S - K*exp(-r*T)) / S` when the put
has a mid `P`, otherwise absent; `get_put_price` returns the mid of the put when
it has one, otherwise `(C*S - S + K*exp(-r*T)) / S` when the call has a mid `C`,
otherwise absent. With `S = K = 3500`, `r = 0`, a put mid of 0.10 and no call
market the reconstructed call is 0.10, `exp 0` being 1. -/
theorem parity_fallback (kernel : pricing_t) (call_bbo put_bbo : Option BBO_t)
    (S T K r : ℚ) (_hS : S ≠ 0) :
    (∀ bbo bid ask, bbo.bid = some bid → bbo.ask = some ask →
      details.get_price (some bbo) = some ((ask + bid) / 2)) ∧
      (∀ bbo : BBO_t, bbo.bid = none ∨ bbo.ask = none → details.get_price (some bbo) = none) ∧
      details.get_price none = none ∧
      (∀ C, details.get_price call_bbo = some C →
        details.get_call_price kernel call_bbo put_bbo (some S) T K r = Except.ok (some C)) ∧
      (∀ P, details.get_price call_bbo = none → details.get_price put_bbo = some P →
        details.get_call_price kernel call_bbo put_bbo (some S) T K r =
          Except.ok (some ((P * S + S - K * kernel.exp (-r * T)) / S))) ∧
      (details.get_price call_bbo = none → details.get_price put_bbo = none →
        details.get_call_price kernel call_bbo put_bbo (some S) T K r = Except.ok none) ∧
      (∀ P, details.get_price put_bbo = some P →
        details.get_put_price kernel call_bbo put_bbo (some S) T K r = Except.ok (some P)) ∧
      (∀ C, details.get_price put_bbo = none → details.get_price call_bbo = some C →
        details.get_put_price kernel call_bbo put_bbo (some S) T K r =
          Except.ok (some ((C * S - S + K * kernel.exp (-r * T)) / S))) ∧
      (details.get_price put_bbo = none → details.get_price call_bbo = none →
        details.get_put_price kernel call_bbo put_bbo (some S) T K r = Except.ok none) ∧
      (kernel.exp 0 = 1 →
        details.get_call_price kernel none
            (some { bid_volume := some 1, bid := some (9 / 100), ask := some (11 / 100),
                    ask_volume := some 1 })
            (some 3500) T 3500 0 = Except.ok (some (1 / 10))) := by
  refine ⟨?_, ?_, rfl, ?_, ?_, ?_, ?_, ?_, ?_, ?_⟩
  · intro bbo bid ask hbid hask
    simp only [details.get_price, hbid, hask]
    congr 1
    ring
  · intro bbo h
    rcases h with h | h
    · cases hask : bbo.ask <;> simp [details.get_price, h, hask]
    · simp [details.get_price, h]
  · intro C hC
    simp only [details.get_call_price, hC]
  · intro P hcall hput
    simp only [details.get_call_price, hcall, hput, deref, bind, Except.bind]
  · intro hcall hput
    simp only [details.get_call_price, hcall, hput]
  · intro P hP
    simp only [details.get_put_price, hP]
  · intro C hput hcall
    simp only [details.get_put_price, hcall, hput, deref, bind, Except.bind]
  · intro hput hcall
    simp only [details.get_put_price, hcall, hput]
  · intro hexp
    have hmid : details.get_price
        (some { bid_volume := some 1, bid := some (9 / 100), ask := some (11 / 100),
                ask_volume := some 1 }) = some (1 / 10) := by
      norm_num [details.get_price]
    simp only [details.get_call_price, hmid, deref, bind, Except.bind]
    have hzero : -(0 : ℚ) * T = 0 := by ring
    rw [show details.get_price none = none from rfl]
    simp only [hzero, hexp]
    norm_num

/-- C21, on a concrete input: scenario 4 of the specification, with the
exponential of the kernel of the scenarios, for which `exp 0 = 1`. -/
theorem parity_fallback_witness :
    details.get_call_price (constant_kernel (1 / 2) (1 / 2)) none
        (some { bid_volume := some 1, bid := some (9 / 100), ask := some (11 / 100),
                ask_volume := some 1 })
        (some 3500) (1 / 12) 3500 0 = Except.ok (some (1 / 10)) :=
  (parity_fallback (constant_kernel (1 / 2) (1 / 2)) none none 3500 (1 / 12) 3500 0
    (by norm_num)).2.2.2.2.2.2.2.2.2 rfl

/-! ## Spill through the whole stack -/

theorem update_levels_spill_all (fut : instrument_t) (cm : ℚ)
    (hcm : fut.contract_multiplier = some cm) (p : ℚ) (s : side_t) :
    ∀ (stack : List level_t) (self : levels) (v : ℚ), self.m_levels = stack →
      (∀ level ∈ stack, level.side ≠ s) → (∀ level ∈ stack, 0 < level.volume) →
      (stack.map level_t.volume).sum < v →
      ∃ next, self.update_levels v p s fut = some next ∧
        next.m_levels = [{ volume := v - (stack.map level_t.volume).sum, price := p, side := s }] ∧
        next.pnl_log = self.pnl_log ++
          stack.reverse.map fun level => pnl_entry level.price p s level.volume cm := by
  intro stack
  induction stack with
  | nil =>
    intro self v h _ _ _
    exact ⟨_, update_levels_nil self v p s fut h, by simp, by simp⟩
  | cons front rest ih =>
    intro self v h hsides hvolumes hsum
    have hs : front.side ≠ s := hsides front (List.mem_cons_self _ _)
    have hrest_nonneg : 0 ≤ (rest.map level_t.volume).sum := by
      apply List.sum_nonneg
      intro x hx
      obtain ⟨level, hlevel, rfl⟩ := List.mem_map.1 hx
      exact le_of_lt (hvolumes level (List.mem_cons_of_mem _ hlevel))
    simp only [List.map_cons, List.sum_cons] at hsum
    have hlt : front.volume < v := by linarith
    have hneg : front.volume - v < 0 := by linarith
    have h0 : ¬ front.volume - v = 0 := ne_of_lt hneg
    obtain ⟨mid, hmid, hmid_levels, hmid_log⟩ :=
      ih { self with m_levels := rest } (v - front.volume) rfl
        (fun level hlevel => hsides level (List.mem_cons_of_mem _ hlevel))
        (fun level hlevel => hvolumes level (List.mem_cons_of_mem _ hlevel)) (by linarith)
    rw [update_levels_opposite self v p s fut front rest h hs]
    simp only [h0, hneg, if_true, if_false, hmid, Option.some_bind,
      store_pnl_some _ _ _ _ _ _ _ hcm, Option.map_some', hlt]
    refine ⟨_, rfl, ?_, ?_⟩
    · simp only [store_levels_m_levels, add_pnl_m_levels, hmid_levels, List.map_cons,
        List.sum_cons]
      congr 2
      ring
    · simp [hmid_log]

theorem update_levels_double_nil (self : levels) (v p : ℚ) (s : side_t) (fut : instrument_t)
    (h : self.m_levels = []) :
    self.update_levels_double v p s fut =
      some ({ self with m_levels := [{ volume := v, price := p, side := s }] }).store_levels := by
  unfold levels.update_levels_double
  split
  · rfl
  · simp_all

theorem update_levels_double_same (self : levels) (v p : ℚ) (s : side_t)
    (fut : instrument_t) (front : level_t) (rest : List level_t)
    (h : self.m_levels = front :: rest) (hs : front.side = s) :
    self.update_levels_double v p s fut =
      some ({ self with
        m_levels := { volume := v, price := p, side := s } :: front :: rest }).store_levels := by
  unfold levels.update_levels_double
  split
  · simp_all
  · rename_i f r h2
    rw [h] at h2
    cases h2
    simp [hs]

theorem update_levels_double_opposite (self : levels) (v p : ℚ) (s : side_t)
    (fut : instrument_t) (front : level_t) (rest : List level_t)
    (h : self.m_levels = front :: rest) (hs : front.side ≠ s) :
    self.update_levels_double v p s fut =
      ((if to_double (front.volume - v) = 0 then some { self with m_levels := rest }
        else if to_double (front.volume - v) < 0 then
          levels.update_levels_double { self with m_levels := rest }
            (to_double (v - front.volume)) p s fut
        else some { self with m_levels := { front with volume := v } :: rest }).bind
        fun paired =>
          (paired.store_pnl front.price p s (if front.volume < v then front.volume else v)
            fut).map levels.store_levels) := by
  conv_lhs => unfold levels.update_levels_double
  split
  · simp_all
  · rename_i f r h2
    rw [h] at h2
    cases h2
    simp only [hs, if_false]

/-- The difference of two whole volumes is a `double`. -/
theorem to_double_sub_whole (a b : ℚ) (ha : whole_volume a) (hb : whole_volume b) :
    to_double (a - b) = a - b := by
  obtain ⟨n, rfl, hn0, hn⟩ := ha
  obtain ⟨m, rfl, hm0, hm⟩ := hb
  have h := to_double_intCast (n - m) (by rw [abs_lt]; constructor <;> omega)
  push_cast at h
  exact h

/-- On whole volumes the subtractions are exact and the function in `double`
arithmetic is `update_levels`. -/
theorem update_levels_double_whole (fut : instrument_t) (p : ℚ) (s : side_t) :
    ∀ (stack : List level_t) (self : levels) (v : ℚ), self.m_levels = stack →
      (∀ level ∈ stack, whole_volume level.volume) → whole_volume v →
      self.update_levels_double v p s fut = self.update_levels v p s fut := by
  intro stack
  induction stack with
  | nil =>
    intro self v h _ _
    rw [update_levels_double_nil self v p s fut h, update_levels_nil self v p s fut h]
  | cons front rest ih =>
    intro self v h hvolumes hv
    have hfront := hvolumes front (List.mem_cons_self _ _)
    by_cases hs : front.side = s
    · rw [update_levels_double_same self v p s fut front rest h hs,
        update_levels_same self v p s fut front rest h hs]
    · rw [update_levels_double_opposite self v p s fut front rest h hs,
        update_levels_opposite self v p s fut front rest h hs,
        to_double_sub_whole _ _ hfront hv, to_double_sub_whole _ _ hv hfront]
      by_cases h0 : front.volume - v = 0
      · simp only [h0, if_true]
      · by_cases hneg : front.volume - v < 0
        · have hnext : whole_volume (v - front.volume) := by
            obtain ⟨n, hn, hn0, hn53⟩ := hfront
            obtain ⟨m, hm, hm0, hm53⟩ := hv
            rw [hn, hm] at hneg
            have hlt : n < m := by
              have : (n : ℚ) < m := by linarith
              exact_mod_cast this
            exact ⟨m - n, by rw [hn, hm]; push_cast; ring, by omega, by omega⟩
          simp only [h0, hneg, if_true, if_false]
          rw [ih { self with m_levels := rest } (v - front.volume) rfl
            (fun level hlevel => hvolumes level (List.mem_cons_of_mem _ hlevel)) hnext]
        · simp only [h0, hneg, if_false]

/-- C27 (amended). Spill through the whole stack, in `double` arithmetic, on
whole volumes: for every non-empty homogeneous stack whose volumes are whole
numbers > 0 below `2^53` and every fill `(v, p, s)` of the opposite side with
`v` a whole number below `2^53` greater than the sum of all the volumes of the
stack, on a future whose contract multiplier is present, `update_levels`
returns, appends to the PnL log one entry per entry of the stack, whose paired
volume is the volume of that entry (times the contract multiplier, as
`store_pnl` logs it), the entries of the bottom of the stack first, and leaves
the stack as the single entry `{volume = v - sum, price = p, side = s}`. -/
theorem update_levels_spill_whole_stack (self : levels) (v p : ℚ) (s : side_t)
    (future : instrument_t) (cm : ℚ) (front : level_t) (rest : List level_t)
    (hcm : future.contract_multiplier = some cm) (hstack : self.m_levels = front :: rest)
    (hhomogeneous : homogeneous self.m_levels) (hopposite : front.side ≠ s)
    (hvolumes : ∀ level ∈ self.m_levels, 0 < level.volume)
    (hwhole : ∀ level ∈ self.m_levels, whole_volume level.volume) (hv : whole_volume v)
    (hsum : (self.m_levels.map level_t.volume).sum < v) :
    ∃ next, self.update_levels_double v p s future = some next ∧
      next.m_levels =
        [{ volume := v - (self.m_levels.map level_t.volume).sum, price := p, side := s }] ∧
      next.pnl_log = self.pnl_log ++
        self.m_levels.reverse.map (fun level => pnl_entry level.price p s level.volume cm) ∧
      (next.pnl_log.length = self.pnl_log.length + self.m_levels.length) ∧
      ∀ level ∈ self.m_levels,
        (pnl_entry level.price p s level.volume cm).paired_volume = level.volume * cm := by
  have hsides : ∀ level ∈ self.m_levels, level.side ≠ s := by
    intro level hlevel
    rw [hhomogeneous level hlevel front (by rw [hstack]; exact List.mem_cons_self _ _)]
    exact hopposite
  obtain ⟨next, hnext, hlevels, hlog⟩ :=
    update_levels_spill_all future cm hcm p s self.m_levels self v rfl hsides hvolumes hsum
  rw [← update_levels_double_whole future p s self.m_levels self v rfl hwhole hv] at hnext
  refine ⟨next, hnext, hlevels, hlog, ?_, fun _ _ => rfl⟩
  rw [hlog]
  simp

/-- C27 (amended), on a concrete input: a SELL of 20 at 120 against the BUY
levels 5 at 110 and 10 at 100 pairs both and leaves a SELL level of 5. -/
theorem update_levels_spill_whole_stack_witness :
    ∃ next,
      (levels_of [⟨5, 110, side_t.BUY⟩, ⟨10, 100, side_t.BUY⟩] 0).update_levels_double 20 120
        side_t.SELL (perpetual 3390 3400) = some next ∧
      next.m_levels = [{ volume := 5, price := 120, side := side_t.SELL }] ∧
      next.pnl_log =
        [pnl_entry 100 120 side_t.SELL 10 10, pnl_entry 110 120 side_t.SELL 5 10] := by
  obtain ⟨next, hnext, hlevels, hlog, _, _⟩ :=
    update_levels_spill_whole_stack
      (levels_of [⟨5, 110, side_t.BUY⟩, ⟨10, 100, side_t.BUY⟩] 0) 20 120 side_t.SELL
      (perpetual 3390 3400) 10 ⟨5, 110, side_t.BUY⟩ [⟨10, 100, side_t.BUY⟩] rfl rfl
      (by decide) (by decide)
      (by
        intro level hlevel
        simp only [levels_of, List.mem_cons, List.mem_singleton, List.not_mem_nil,
          or_false] at hlevel
        rcases hlevel with h | h <;> rw [h] <;> norm_num)
      (by
        intro level hlevel
        simp only [levels_of, List.mem_cons, List.mem_singleton, List.not_mem_nil,
          or_false] at hlevel
        rcases hlevel with h | h
        · rw [h]
          exact ⟨5, by norm_num, by norm_num, by norm_num⟩
        · rw [h]
          exact ⟨10, by norm_num, by norm_num, by norm_num⟩)
      ⟨20, by norm_num, by norm_num, by norm_num⟩
      (by norm_num [levels_of])
  refine ⟨next, hnext, ?_, ?_⟩
  · rw [hlevels]
    norm_num [levels_of]
  · rw [hlog]
    simp [levels_of]

theorem to_double_2_div_10 : to_double (2 / 10) = 7205759403792794 * 2 ^ (-55 : ℤ) := by
  have h := to_double_of_bounds (2 / 10) (-3) (7205759403792793 + 1) (by norm_num)
    (by norm_num) (round_half_even_of_gt _ 7205759403792793 (by norm_num) (by norm_num))
  rw [h]
  norm_num

theorem to_double_7_div_10 : to_double (7 / 10) = 6305039478318694 * 2 ^ (-53 : ℤ) := by
  have h := to_double_of_bounds (7 / 10) (-1) 6305039478318694 (by norm_num)
    (by norm_num) (round_half_even_of_lt _ 6305039478318694 (by norm_num) (by norm_num))
  rw [h]
  norm_num

theorem to_double_9_div_10 : to_double (9 / 10) = 8106479329266893 * 2 ^ (-53 : ℤ) := by
  have h := to_double_of_bounds (9 / 10) (-1) (8106479329266892 + 1) (by norm_num)
    (by norm_num) (round_half_even_of_gt _ 8106479329266892 (by norm_num) (by norm_num))
  rw [h]
  norm_num

/-- In `double` arithmetic 0.9 - 0.2 is 0.7, although 0.9 is greater than the
sum of 0.2 and 0.7. -/
theorem to_double_9_sub_2 :
    to_double (to_double (9 / 10) - to_double (2 / 10)) = to_double (7 / 10) ∧
      to_double (2 / 10) + to_double (7 / 10) < to_double (9 / 10) := by
  rw [to_double_2_div_10, to_double_7_div_10, to_double_9_div_10]
  constructor
  · have h := to_double_of_bounds
      (8106479329266893 * 2 ^ (-53 : ℤ) - 7205759403792794 * 2 ^ (-55 : ℤ)) (-1)
      6305039478318694 (by norm_num) (by norm_num)
      (round_half_even_tie_even _ 6305039478318694 (by norm_num) (by norm_num))
    rw [h]
    norm_num
  · norm_num

/-- C27, as stated, fails in `double` arithmetic. The stack holds the BUY levels
0.2 at 110 and 0.7 at 100, and a SELL of 0.9 at 120 arrives, the volumes being
the `double`s nearest to 0.2, 0.7 and 0.9: the stack is non-empty and
homogeneous, its volumes are > 0, and 0.9 is greater than the sum of 0.2 and
0.7. The subtraction 0.9 - 0.2, rounded to `double`, is 0.7, so that the second
level is filled exactly: `update_levels` pairs both levels and leaves the stack
empty, not as the single entry of volume `v - sum`. -/
theorem update_levels_spill_rounding_counterexample :
    (levels_of [⟨to_double (2 / 10), 110, side_t.BUY⟩, ⟨to_double (7 / 10), 100, side_t.BUY⟩]
        0).m_levels ≠ [] ∧
      homogeneous (levels_of
        [⟨to_double (2 / 10), 110, side_t.BUY⟩, ⟨to_double (7 / 10), 100, side_t.BUY⟩]
        0).m_levels ∧
      0 < to_double (2 / 10) ∧ 0 < to_double (7 / 10) ∧
      to_double (2 / 10) + to_double (7 / 10) < to_double (9 / 10) ∧
      ∃ next,
        (levels_of
            [⟨to_double (2 / 10), 110, side_t.BUY⟩, ⟨to_double (7 / 10), 100, side_t.BUY⟩]
            0).update_levels_double (to_double (9 / 10)) 120 side_t.SELL
            (perpetual 3390 3400) = some next ∧
        next.m_levels = [] ∧ next.pnl_log.length = 2 := by
  have h2 : 0 < to_double (2 / 10) := by rw [to_double_2_div_10]; norm_num
  have h7 : 0 < to_double (7 / 10) := by rw [to_double_7_div_10]; norm_num
  have hfirst : to_double (to_double (2 / 10) - to_double (9 / 10)) = -to_double (7 / 10) := by
    rw [← neg_sub, to_double_neg, to_double_9_sub_2.1]
  have hsecond : to_double (to_double (7 / 10) - to_double (7 / 10)) = 0 := by
    rw [sub_self]
    simp [to_double]
  have hnonzero : ¬ -to_double (7 / 10) = 0 := by linarith
  have hnegative : -to_double (7 / 10) < 0 := by linarith
  refine ⟨by simp [levels_of], by simp [levels_of, homogeneous], h2, h7, to_double_9_sub_2.2,
    ?_⟩
  rw [update_levels_double_opposite _ _ _ _ _ ⟨to_double (2 / 10), 110, side_t.BUY⟩
    [⟨to_double (7 / 10), 100, side_t.BUY⟩] rfl (by decide)]
  simp only [hfirst, hnonzero, hnegative, if_true, if_false]
  rw [update_levels_double_opposite _ _ _ _ _ ⟨to_double (7 / 10), 100, side_t.BUY⟩ [] rfl
    (by decide)]
  simp only [to_double_9_sub_2.1, hsecond, if_true, Option.some_bind,
    store_pnl_some _ _ _ _ _ _ 10 (rfl : (perpetual 3390 3400).contract_multiplier = some 10),
    Option.map_some']
  exact ⟨_, rfl, rfl, rfl⟩

/-! ## Positive level volumes -/

theorem update_levels_keeps_positive (fut : instrument_t) (cm : ℚ)
    (hcm : fut.contract_multiplier = some cm) (p : ℚ) (s : side_t) :
    ∀ (stack : List level_t) (self : levels) (v : ℚ), self.m_levels = stack →
      (∀ level ∈ stack, 0 < level.volume) → 0 < v →
      ∃ next, self.update_levels v p s fut = some next ∧
        ∀ level ∈ next.m_levels, 0 < level.volume := by
  intro stack
  induction stack with
  | nil =>
    intro self v h _ hv
    refine ⟨_, update_levels_nil self v p s fut h, ?_⟩
    intro level hlevel
    simp only [store_levels_m_levels, List.mem_singleton] at hlevel
    rw [hlevel]
    exact hv
  | cons front rest ih =>
    intro self v h hvolumes hv
    have hrest : ∀ level ∈ rest, 0 < level.volume :=
      fun level hlevel => hvolumes level (List.mem_cons_of_mem _ hlevel)
    by_cases hs : front.side = s
    · refine ⟨_, update_levels_same self v p s fut front rest h hs, ?_⟩
      intro level hlevel
      simp only [store_levels_m_levels, List.mem_cons] at hlevel
      rcases hlevel with hl | hl | hl
      · rw [hl]
        exact hv
      · rw [hl]
        exact hvolumes front (List.mem_cons_self _ _)
      · exact hrest level hl
    · rw [update_levels_opposite self v p s fut front rest h hs]
      by_cases h0 : front.volume - v = 0
      · simp only [h0, if_true, Option.some_bind, store_pnl_some _ _ _ _ _ _ _ hcm,
          Option.map_some']
        exact ⟨_, rfl, hrest⟩
      · by_cases hneg : front.volume - v < 0
        · obtain ⟨mid, hmid, hpositive⟩ :=
            ih { self with m_levels := rest } (v - front.volume) rfl hrest (by linarith)
          simp only [h0, hneg, if_true, if_false, hmid, Option.some_bind,
            store_pnl_some _ _ _ _ _ _ _ hcm, Option.map_some']
          exact ⟨_, rfl, hpositive⟩
        · simp only [h0, hneg, if_false, Option.some_bind,
            store_pnl_some _ _ _ _ _ _ _ hcm, Option.map_some']
          refine ⟨_, rfl, ?_⟩
          intro level hlevel
          simp only [store_levels_m_levels, add_pnl_m_levels, List.mem_cons] at hlevel
          rcases hlevel with hl | hl
          · rw [hl]
            exact hv
          · exact hrest level hl

theorem get_volume_to_use_pos (self : levels) (side : side_t) (c : ℚ)
    (hvolumes : ∀ level ∈ self.m_levels, 0 < level.volume) (hc : 0 < c) :
    0 < self.get_volume_to_use side c := by
  unfold levels.get_volume_to_use
  cases hstack : self.m_levels with
  | nil => exact hc
  | cons front rest =>
    simp only
    split
    · exact hc
    · split
      · exact hc
      · exact hvolumes front (by rw [hstack]; exact List.mem_cons_self _ _)

/-- C28. Positive level volumes: if every entry of the levels stack has a volume
> 0, then `update_levels (v, p, s, future)` with `v > 0`, on a future whose
contract multiplier is present, returns and every entry of the stack still has
a volume > 0; with such a stack `get_volume_to_use (side, c) > 0` for every
`c > 0`, so the hedge order that `evaluate` sends for a hedge size that is not 0
has a volume > 0. -/
theorem positive_level_volumes (self : levels) (v p : ℚ) (s : side_t)
    (future : instrument_t) (cm : ℚ) (hcm : future.contract_multiplier = some cm)
    (hvolumes : ∀ level ∈ self.m_levels, 0 < level.volume) (hv : 0 < v) :
    (∃ next, self.update_levels v p s future = some next ∧
      ∀ level ∈ next.m_levels, 0 < level.volume) ∧
      (∀ side c, 0 < c → 0 < self.get_volume_to_use side c) ∧
      ∀ (state : gamma_scalper) (corrections size : ℤ) (hedge : instrument_t) (price : ℚ),
        state.m_levels = self → corrections ≠ 0 → state.m_order = none →
        state.m_future = some hedge →
        self.get_price_to_use (if corrections < 0 then side_t.BUY else side_t.SELL) hedge =
          some price →
        abs_int corrections = some size →
        ∃ final volume, state.evaluate_order corrections = Except.ok final ∧
          final.m_market.sent = state.m_market.sent ++
            [market_message_t.send_gtc_order (toString state.m_market.m_order_identifier)
              hedge.symbol (if corrections < 0 then side_t.BUY else side_t.SELL) price
              volume] ∧
          0 < volume := by
  refine ⟨update_levels_keeps_positive future cm hcm p s self.m_levels self v rfl hvolumes hv,
    fun side c hc => get_volume_to_use_pos self side c hvolumes hc, ?_⟩
  intro state corrections size hedge price hlevels hzero horder hfuture hprice hsize
  subst hlevels
  have hpositive : (0 : ℚ) < (size : ℚ) := by
    unfold abs_int at hsize
    split at hsize
    · cases hsize
    · simp only [Option.some.injEq] at hsize
      rw [← hsize]
      exact_mod_cast abs_pos.2 hzero
  refine ⟨_, _, evaluate_order_places state corrections size hedge price hzero horder hfuture
    hprice hsize, rfl, get_volume_to_use_pos _ _ _ hvolumes hpositive⟩

/-- C28, on a concrete input: a SELL of 3 against the BUY levels 5 at 110 and
10 at 100 leaves volumes 3 and 10, and the volume of a hedge of 7 is
positive. -/
theorem positive_level_volumes_witness :
    (∃ next,
      (levels_of [⟨5, 110, side_t.BUY⟩, ⟨10, 100, side_t.BUY⟩] 0).update_levels 3 120
        side_t.SELL (perpetual 3390 3400) = some next ∧
      ∀ level ∈ next.m_levels, 0 < level.volume) ∧
      0 < (levels_of [⟨5, 110, side_t.BUY⟩, ⟨10, 100, side_t.BUY⟩] 0).get_volume_to_use
        side_t.SELL 7 := by
  have h :=
    positive_level_volumes (levels_of [⟨5, 110, side_t.BUY⟩, ⟨10, 100, side_t.BUY⟩] 0) 3 120
      side_t.SELL (perpetual 3390 3400) 10 rfl
      (by
        intro level hlevel
        simp only [levels_of, List.mem_cons, List.mem_singleton, List.not_mem_nil,
          or_false] at hlevel
        rcases hlevel with h | h <;> rw [h] <;> norm_num)
      (by norm_num)
  exact ⟨h.1, h.2.1 side_t.SELL 7 (by norm_num)⟩

/-! ## A market update replaces the whole BBO -/

theorem foldl_bbo_spec (updates : List market_update_level_t) :
    ∀ initial : BBO_t,
      let result :=
        updates.foldl
          (fun bbo update_component =>
            if update_component.side = market_side_t.BID then
              { bbo with
                bid_volume := some update_component.level_volume
                bid := some update_component.level_price }
            else
              { bbo with
                ask_volume := some update_component.level_volume
                ask := some update_component.level_price })
          initial
      result.bid =
          (match last_entry market_side_t.BID updates with
            | some entry => some entry.level_price
            | none => initial.bid) ∧
        result.bid_volume =
          (match last_entry market_side_t.BID updates with
            | some entry => some entry.level_volume
            | none => initial.bid_volume) ∧
        result.ask =
          (match last_entry market_side_t.ASK updates with
            | some entry => some entry.level_price
            | none => initial.ask) ∧
        result.ask_volume =
          (match last_entry market_side_t.ASK updates with
            | some entry => some entry.level_volume
            | none => initial.ask_volume) := by
  induction updates with
  | nil =>
    intro initial
    exact ⟨rfl, rfl, rfl, rfl⟩
  | cons update_component rest ih =>
    intro initial
    simp only [List.foldl_cons, last_entry]
    by_cases hside : update_component.side = market_side_t.BID
    · have hask : ¬ update_component.side = market_side_t.ASK := by
        rw [hside]
        decide
      obtain ⟨h1, h2, h3, h4⟩ :=
        ih { initial with
          bid_volume := some update_component.level_volume
          bid := some update_component.level_price }
      simp only [hside, if_true] at h1 h2 h3 h4 ⊢
      simp only [hside] at hask
      refine ⟨?_, ?_, ?_, ?_⟩
      · rw [h1]
        cases last_entry market_side_t.BID rest <;> rfl
      · rw [h2]
        cases last_entry market_side_t.BID rest <;> rfl
      · rw [h3]
        cases last_entry market_side_t.ASK rest <;> simp
      · rw [h4]
        cases last_entry market_side_t.ASK rest <;> simp
    · have hask : update_component.side = market_side_t.ASK := by
        cases hcase : update_component.side with
        | BID => exact absurd hcase hside
        | ASK => rfl
      obtain ⟨h1, h2, h3, h4⟩ :=
        ih { initial with
          ask_volume := some update_component.level_volume
          ask := some update_component.level_price }
      simp only [hside, if_false] at h1 h2 h3 h4 ⊢
      refine ⟨?_, ?_, ?_, ?_⟩
      · rw [h1]
        cases last_entry market_side_t.BID rest <;> simp [hask]
      · rw [h2]
        cases last_entry market_side_t.BID rest <;> simp [hask]
      · rw [h3]
        cases last_entry market_side_t.ASK rest <;> simp [hask]
      · rw [h4]
        cases last_entry market_side_t.ASK rest <;> simp [hask]

theorem target_bbo_spec (updates : List market_update_level_t) :
    (target_bbo updates).bid = (last_entry market_side_t.BID updates).map
        market_update_level_t.level_price ∧
      (target_bbo updates).bid_volume = (last_entry market_side_t.BID updates).map
        market_update_level_t.level_volume ∧
      (target_bbo updates).ask = (last_entry market_side_t.ASK updates).map
        market_update_level_t.level_price ∧
      (target_bbo updates).ask_volume = (last_entry market_side_t.ASK updates).map
        market_update_level_t.level_volume := by
  obtain ⟨h1, h2, h3, h4⟩ :=
    foldl_bbo_spec updates { bid_volume := none, bid := none, ask := none, ask_volume := none }
  unfold target_bbo
  simp only at h1 h2 h3 h4
  refine ⟨?_, ?_, ?_, ?_⟩
  · rw [h1]
    cases last_entry market_side_t.BID updates <;> rfl
  · rw [h2]
    cases last_entry market_side_t.BID updates <;> rfl
  · rw [h3]
    cases last_entry market_side_t.ASK updates <;> rfl
  · rw [h4]
    cases last_entry market_side_t.ASK updates <;> rfl

theorem evaluate_instruments (self final : gamma_scalper) (kernel : pricing_t) (now : ptime)
    (h : self.evaluate kernel now = Except.ok final) :
    final.m_future = self.m_future ∧ final.m_straddle_call = self.m_straddle_call ∧
      final.m_straddle_put = self.m_straddle_put := by
  unfold gamma_scalper.evaluate at h
  simp only [bind, Except.bind] at h
  cases hcorr : self.evaluate_corrections kernel now with
  | error failure => simp [hcorr] at h
  | ok result =>
    obtain ⟨updated, decision⟩ := result
    obtain ⟨hframe, _⟩ := evaluate_corrections_frame self updated kernel now decision hcorr
    simp only [hcorr] at h
    cases decision with
    | none =>
      simp only [Except.ok.injEq] at h
      subst h
      rw [hframe]
      exact ⟨rfl, rfl, rfl⟩
    | some corrections =>
      simp only at h
      obtain ⟨horder, _⟩ := evaluate_order_frame updated final corrections h
      rw [horder, hframe]
      exact ⟨rfl, rfl, rfl⟩

theorem on_message_market_update_instruments (self next attached : gamma_scalper)
    (kernel : pricing_t) (now : ptime) (update : market_update_t)
    (hattach : self.attach_bbo update = Except.ok (some attached))
    (h : self.on_message_market_update kernel now update = Except.ok next) :
    next.m_future = attached.m_future ∧ next.m_straddle_call = attached.m_straddle_call ∧
      next.m_straddle_put = attached.m_straddle_put := by
  have hcall : ∀ state : gamma_scalper, state.call_evaluate kernel now = Except.ok next →
      next.m_future = state.m_future ∧ next.m_straddle_call = state.m_straddle_call ∧
        next.m_straddle_put = state.m_straddle_put := by
    intro state hstate
    unfold gamma_scalper.call_evaluate at hstate
    cases hrun : state.evaluate kernel now with
    | error failure => simp [hrun] at hstate
    | ok evaluated =>
      simp only [hrun, Except.ok.injEq] at hstate
      subst hstate
      exact evaluate_instruments state evaluated kernel now hrun
  unfold gamma_scalper.on_message_market_update at h
  by_cases hlength : update.updates.length > 2
  · rw [if_pos hlength] at h
    cases h
  · rw [if_neg hlength] at h
    simp only [bind, Except.bind, hattach] at h
    by_cases hwarm : attached.m_snapshots.length < 3
    · rw [if_pos hwarm] at h
      by_cases hknown : update.symbol ∈ attached.m_snapshots
      · simp only [hknown, if_true, hwarm] at h
        cases h
        exact ⟨rfl, rfl, rfl⟩
      · simp only [hknown, if_false] at h
        by_cases hcounted : (attached.m_snapshots ++ [update.symbol]).length < 3
        · rw [if_pos hcounted] at h
          cases h
          exact ⟨rfl, rfl, rfl⟩
        · rw [if_neg hcounted] at h
          have hresult := hcall _ h
          exact hresult
    · rw [if_neg hwarm] at h
      exact hcall _ h

theorem attach_bbo_cases (self : gamma_scalper) (update : market_update_t)
    (future straddle_call straddle_put : instrument_t)
    (hfuture : self.m_future = some future) (hcall : self.m_straddle_call = some straddle_call)
    (hput : self.m_straddle_put = some straddle_put) :
    (update.symbol = future.symbol →
      self.attach_bbo update =
        Except.ok
          (some
            { self with
              m_future := some { future with bbo := some (target_bbo update.updates) } })) ∧
      (update.symbol ≠ future.symbol → update.symbol = straddle_call.symbol →
        self.attach_bbo update =
          Except.ok
            (some
              { self with
                m_straddle_call :=
                  some { straddle_call with bbo := some (target_bbo update.updates) } })) ∧
      (update.symbol ≠ future.symbol → update.symbol ≠ straddle_call.symbol →
        update.symbol = straddle_put.symbol →
        self.attach_bbo update =
          Except.ok
            (some
              { self with
                m_straddle_put :=
                  some { straddle_put with bbo := some (target_bbo update.updates) } })) := by
  refine ⟨?_, ?_, ?_⟩
  · intro h1
    simp only [gamma_scalper.attach_bbo, gamma_scalper.deref, bind, Except.bind, hfuture, h1,
      if_true]
  · intro h1 h2
    simp only [gamma_scalper.attach_bbo, gamma_scalper.deref, bind, Except.bind, hfuture, hcall]
    rw [if_neg h1, if_pos h2]
  · intro h1 h2 h3
    simp only [gamma_scalper.attach_bbo, gamma_scalper.deref, bind, Except.bind, hfuture, hcall,
      hput]
    rw [if_neg h1, if_neg h2, if_pos h3]

/-- C30. A market update replaces the whole BBO. On a controller that has a
future, a call and a put: the BBO built from the entries of an update holds, for
each side, the price and the volume of the last entry of that side and nothing
for a side without entry, whatever the actions of the entries; whenever
`on_message(market_update)` returns, for an update on the symbol of the future,
else of the call, else of the put, that instrument has exactly this BBO,
whatever its previous BBO, and the other two instruments are as before; the
callback returns during the warmup (fewer than two snapshots so far) once the
update has at most two entries and is for one of the three symbols; and an
update with more than two entries fails and leaves the controller, so every
BBO, as it was. -/
theorem market_update_replaces_bbo (self : gamma_scalper) (kernel : pricing_t) (now : ptime)
    (update : market_update_t) (future straddle_call straddle_put : instrument_t)
    (hfuture : self.m_future = some future) (hcall : self.m_straddle_call = some straddle_call)
    (hput : self.m_straddle_put = some straddle_put) :
    ((target_bbo update.updates).bid =
        (last_entry market_side_t.BID update.updates).map market_update_level_t.level_price ∧
      (target_bbo update.updates).bid_volume =
        (last_entry market_side_t.BID update.updates).map market_update_level_t.level_volume ∧
      (target_bbo update.updates).ask =
        (last_entry market_side_t.ASK update.updates).map market_update_level_t.level_price ∧
      (target_bbo update.updates).ask_volume =
        (last_entry market_side_t.ASK update.updates).map
          market_update_level_t.level_volume) ∧
      (∀ next, self.on_message_market_update kernel now update = Except.ok next →
        update.updates.length ≤ 2 ∧
        (update.symbol = future.symbol →
          next.m_future = some { future with bbo := some (target_bbo update.updates) } ∧
          next.m_straddle_call = some straddle_call ∧
          next.m_straddle_put = some straddle_put) ∧
        (update.symbol ≠ future.symbol → update.symbol = straddle_call.symbol →
          next.m_straddle_call =
            some { straddle_call with bbo := some (target_bbo update.updates) } ∧
          next.m_future = some future ∧ next.m_straddle_put = some straddle_put) ∧
        (update.symbol ≠ future.symbol → update.symbol ≠ straddle_call.symbol →
          update.symbol = straddle_put.symbol →
          next.m_straddle_put =
            some { straddle_put with bbo := some (target_bbo update.updates) } ∧
          next.m_future = some future ∧ next.m_straddle_call = some straddle_call)) ∧
      (self.m_snapshots.length < 2 → update.updates.length ≤ 2 →
        self.follows update.symbol →
        ∃ next, self.on_message_market_update kernel now update = Except.ok next) ∧
      (2 < update.updates.length →
        ∃ fatal, self.on_message_market_update kernel now update = Except.error fatal ∧
          fatal.state = self) := by
  obtain ⟨hcase_future, hcase_call, hcase_put⟩ :=
    attach_bbo_cases self update future straddle_call straddle_put hfuture hcall hput
  refine ⟨target_bbo_spec update.updates, ?_, ?_, ?_⟩
  · intro next hnext
    have hlength : update.updates.length ≤ 2 := by
      by_contra hmany
      unfold gamma_scalper.on_message_market_update at hnext
      rw [if_pos (not_le.1 hmany)] at hnext
      cases hnext
    refine ⟨hlength, ?_, ?_, ?_⟩
    · intro h1
      obtain ⟨a, b, c⟩ :=
        on_message_market_update_instruments self next _ kernel now update (hcase_future h1)
          hnext
      exact ⟨a, by rw [b]; exact hcall, by rw [c]; exact hput⟩
    · intro h1 h2
      obtain ⟨a, b, c⟩ :=
        on_message_market_update_instruments self next _ kernel now update
          (hcase_call h1 h2) hnext
      exact ⟨b, by rw [a]; exact hfuture, by rw [c]; exact hput⟩
    · intro h1 h2 h3
      obtain ⟨a, b, c⟩ :=
        on_message_market_update_instruments self next _ kernel now update
          (hcase_put h1 h2 h3) hnext
      exact ⟨c, by rw [a]; exact hfuture, by rw [b]; exact hcall⟩
  · intro hsnapshots hlength hfollows
    have hattach : ∃ attached, self.attach_bbo update = Except.ok (some attached) ∧
        attached.m_snapshots = self.m_snapshots := by
      by_cases h1 : update.symbol = future.symbol
      · exact ⟨_, hcase_future h1, rfl⟩
      · by_cases h2 : update.symbol = straddle_call.symbol
        · exact ⟨_, hcase_call h1 h2, rfl⟩
        · by_cases h3 : update.symbol = straddle_put.symbol
          · exact ⟨_, hcase_put h1 h2 h3, rfl⟩
          · exfalso
            unfold gamma_scalper.follows at hfollows
            simp only [hfuture, hcall, hput, Option.map_some', Option.some.injEq] at hfollows
            rcases hfollows with h | h | h
            · exact h1 h.symm
            · exact h2 h.symm
            · exact h3 h.symm
    obtain ⟨attached, hattached, hsame⟩ := hattach
    have hwarm : attached.m_snapshots.length < 3 := by
      rw [hsame]
      exact lt_trans hsnapshots (by decide)
    unfold gamma_scalper.on_message_market_update
    rw [if_neg (not_lt.2 hlength)]
    simp only [bind, Except.bind, hattached]
    rw [if_pos hwarm]
    by_cases hknown : update.symbol ∈ attached.m_snapshots
    · simp only [hknown, if_true, hwarm]
      exact ⟨_, rfl⟩
    · have hcounted : (attached.m_snapshots ++ [update.symbol]).length < 3 := by
        rw [List.length_append, hsame]
        simp only [List.length_singleton]
        exact Nat.succ_lt_succ hsnapshots
      simp only [hknown, if_false, hcounted, if_true]
      exact ⟨_, rfl⟩
  · intro hmany
    unfold gamma_scalper.on_message_market_update
    rw [if_pos hmany]
    exact ⟨_, rfl, rfl⟩

/-- C30, on a concrete input: the perpetual has the market 3599 / 3601 and an
update brings one entry, a bid of volume 2 at 3590 marked DELETE: the new BBO
has this bid and no ask; the call and the put are as before. -/
theorem market_update_replaces_bbo_witness :
    ∃ next,
      ({ straddle_state 3599 3601 none [] with m_snapshots := [] }).on_message_market_update
        (constant_kernel (1 / 2) (1 / 2)) ⟨0, 0⟩
        { symbol := "BTC-PERPETUAL", contract_multiplier := none, underlying_symbol := none,
          underlying_mid_price := none,
          updates :=
            [{ update_type := market_update_action_t.DELETE, side := market_side_t.BID,
               level_volume := 2, level_price := 3590 }] } = Except.ok next ∧
      next.m_future =
        some
          { perpetual 3599 3601 with
            bbo := some { bid_volume := some 2, bid := some 3590, ask := none,
                          ask_volume := none } } ∧
      next.m_straddle_call = some (straddle_option "BTC-C" option_type_t.CALL) ∧
      next.m_straddle_put = some (straddle_option "BTC-P" option_type_t.PUT) := by
  have h :=
    market_update_replaces_bbo ({ straddle_state 3599 3601 none [] with m_snapshots := [] })
      (constant_kernel (1 / 2) (1 / 2)) ⟨0, 0⟩
      { symbol := "BTC-PERPETUAL", contract_multiplier := none, underlying_symbol := none,
        underlying_mid_price := none,
        updates :=
          [{ update_type := market_update_action_t.DELETE, side := market_side_t.BID,
             level_volume := 2, level_price := 3590 }] }
      (perpetual 3599 3601) (straddle_option "BTC-C" option_type_t.CALL)
      (straddle_option "BTC-P" option_type_t.PUT) rfl rfl rfl
  obtain ⟨next, hnext⟩ := h.2.2.1 (by decide) (by decide) (Or.inl rfl)
  obtain ⟨_, hcase, _, _⟩ := h.2.1 next hnext
  obtain ⟨a, b, c⟩ := hcase rfl
  exact ⟨next, hnext, a, b, c⟩

/-! ## Fills on an instrument that is not the future -/

theorem update_position_unknown (self : gamma_scalper) (report : execution_report_t)
    (symbol : String) (hsymbol : report.symbol = some symbol)
    (hunknown : self.m_positions.lookup symbol = none) :
    self.update_position report = Except.ok self := by
  unfold gamma_scalper.update_position
  simp only [hsymbol, gamma_scalper.deref, bind, Except.bind, hunknown]

theorem update_position_known (self : gamma_scalper) (report : execution_report_t)
    (symbol : String) (future : instrument_t) (info : position_info)
    (mid cm volume price : ℚ) (side : side_t)
    (hsymbol : report.symbol = some symbol) (hside : report.side = some side)
    (hprice : report.average_execution_price = some price)
    (hvolume : report.executed_volume = some volume)
    (hfuture : self.m_future = some future) (hmid : details.get_price future.bbo = some mid)
    (hcm : future.contract_multiplier = some cm)
    (hposition : self.m_positions.lookup symbol = some info) :
    ∃ next, self.update_position report = Except.ok next ∧
      self.m_levels.update_levels volume price side future = some next.m_levels := by
  obtain ⟨m_levels, hlevels⟩ :=
    update_levels_total future cm hcm price side self.m_levels.m_levels self.m_levels volume
      rfl
  unfold gamma_scalper.update_position
  simp only [hsymbol, hside, hprice, hvolume, hfuture, hmid, hposition, hlevels,
    gamma_scalper.deref, bind, Except.bind]
  exact ⟨_, rfl, rfl⟩

/-- C25. The levels stack does not record fills of the hedge instrument only.
In steady state, a FILLED or PARTIAL report that matches no working order, on
any symbol that has a position entry (the call or the put as well as the
future), carrying side, average execution price and executed volume, is
processed, and the levels book after it is the result of `update_levels` on the
fill: `update_position` does not compare the symbol of the report with the
symbol of the future. With an empty stack the fill becomes its single entry.
What holds: a report on a symbol without position entry leaves the levels book,
the PnL total included, as it is. -/
theorem execution_report_levels_any_symbol (self : gamma_scalper)
    (report : execution_report_t) (symbol : String) (status : order_status_t)
    (future : instrument_t) (info : position_info) (mid cm volume price : ℚ) (side : side_t)
    (hsteady : self.m_mass_reports_incoming ≤ 0) (hsymbol : report.symbol = some symbol)
    (hstatus : report.order_status = some status)
    (hfill : status = order_status_t.FILLED ∨ status = order_status_t.PARTIAL)
    (hunmatched : self.matching_order report = none) (hside : report.side = some side)
    (hprice : report.average_execution_price = some price)
    (hvolume : report.executed_volume = some volume)
    (hfuture : self.m_future = some future) (hmid : details.get_price future.bbo = some mid)
    (hcm : future.contract_multiplier = some cm)
    (hposition : self.m_positions.lookup symbol = some info) :
    (∃ next, self.on_message_execution_report report = Except.ok next ∧
      self.m_levels.update_levels volume price side future = some next.m_levels ∧
      (self.m_levels.m_levels = [] →
        next.m_levels.m_levels = [{ volume := volume, price := price, side := side }])) ∧
      ∀ (other : execution_report_t) (unknown : String) (after : gamma_scalper),
        other.symbol = some unknown → self.m_positions.lookup unknown = none →
        other.order_status = some status → self.matching_order other = none →
        self.on_message_execution_report other = Except.ok after →
        after.m_levels = self.m_levels := by
  have hnot : ¬ self.m_mass_reports_incoming > 0 := not_lt.2 hsteady
  constructor
  · obtain ⟨next, hnext, hlevels⟩ :=
      update_position_known self report symbol future info mid cm volume price side hsymbol
        hside hprice hvolume hfuture hmid hcm hposition
    refine ⟨next, ?_, hlevels, ?_⟩
    · unfold gamma_scalper.on_message_execution_report
      simp only [hnot, if_false, hsymbol, hstatus, hunmatched, gamma_scalper.deref, bind,
        Except.bind]
      rcases hfill with h | h <;> rw [h] <;> exact hnext
    · intro hempty
      rw [update_levels_nil self.m_levels volume price side future hempty] at hlevels
      simp only [Option.some.injEq] at hlevels
      rw [← hlevels]
      rfl
  · intro other unknown after hother hunknown hother_status hother_unmatched hafter
    have hsame := update_position_unknown self other unknown hother hunknown
    unfold gamma_scalper.on_message_execution_report at hafter
    simp only [hnot, if_false, hother, hother_status, hother_unmatched, gamma_scalper.deref,
      bind, Except.bind] at hafter
    rcases hfill with h | h
    · rw [h] at hafter
      simp only [hsame, Except.ok.injEq] at hafter
      rw [← hafter]
    · rw [h] at hafter
      simp only [hsame, Except.ok.injEq] at hafter
      rw [← hafter]

/-- C25, on a concrete input: with the levels stack empty, the report of a
manual fill on the call, 1 bought at 0.11, leaves the levels stack with the
entry `{1, 0.11, BUY}`, though the symbol of the report is not the symbol of the
future. -/
theorem execution_report_levels_any_symbol_witness :
    call_fill_report.symbol ≠ some (perpetual 3599 3601).symbol ∧
      (straddle_state 3599 3601 none []).m_levels.m_levels = [] ∧
      ∃ next,
        (straddle_state 3599 3601 none []).on_message_execution_report call_fill_report =
          Except.ok next ∧
        next.m_levels.m_levels = [{ volume := 1, price := 11 / 100, side := side_t.BUY }] := by
  obtain ⟨next, hnext, _, hempty⟩ :=
    (execution_report_levels_any_symbol (straddle_state 3599 3601 none []) call_fill_report
      "BTC-C" order_status_t.FILLED (perpetual 3599 3601) _ 3600 10 1 (11 / 100) side_t.BUY
      (le_refl _) rfl rfl (Or.inl rfl) rfl rfl rfl rfl rfl
      (by norm_num [details.get_price, perpetual]) rfl rfl).1
  exact ⟨by decide, rfl, next, hnext, hempty rfl⟩

/-! ## Sign of the deltas -/

theorem one_sided_deltas (c p : ℚ) (hc : 0 ≤ c) (hp : 0 ≤ p) :
    (straddle_state 3599 3601 none []).update_deltas (one_sided_kernel (some c) (some p))
        (1 / 12) =
      Except.ok (none,
        { straddle_state 3599 3601 none [] with
          m_delta_future := 0, m_delta_call := c * 1 * 10, m_delta_put := -p * 1 * 10 }) ∧
    (straddle_state 3599 3601 none []).update_deltas (one_sided_kernel none (some p))
        (1 / 12) =
      Except.ok (none,
        { straddle_state 3599 3601 none [] with
          m_delta_future := 0, m_delta_call := (1 + -p) * 1 * 10,
          m_delta_put := -p * 1 * 10 }) ∧
    (straddle_state 3599 3601 none []).update_deltas (one_sided_kernel (some c) none)
        (1 / 12) =
      Except.ok (none,
        { straddle_state 3599 3601 none [] with
          m_delta_future := 0, m_delta_call := c * 1 * 10,
          m_delta_put := (1 - c) * 1 * 10 }) := by
  have hnc : ¬ c < 0 := not_lt.2 hc
  have hnp : ¬ 0 < -p := by linarith
  refine ⟨?_, ?_, ?_⟩
  · simp [gamma_scalper.update_deltas, straddle_state, deref, bind, Except.bind,
      straddle_option, perpetual, details.get_price, details.get_call_price,
      details.get_put_price, details.get_delta, one_sided_kernel, double_t.neg,
      gamma_scalper.signed_position, List.lookup]
  · simp [gamma_scalper.update_deltas, straddle_state, deref, bind, Except.bind,
      straddle_option, perpetual, details.get_price, details.get_call_price,
      details.get_put_price, details.get_delta, one_sided_kernel, double_t.neg,
      gamma_scalper.signed_position, List.lookup, double_t.is_positive, double_t.add_to, hnp]
  · simp [gamma_scalper.update_deltas, straddle_state, deref, bind, Except.bind,
      straddle_option, perpetual, details.get_price, details.get_call_price,
      details.get_put_price, details.get_delta, one_sided_kernel, double_t.neg,
      gamma_scalper.signed_position, List.lookup, double_t.is_negative, double_t.sub_from,
      hnc]

/-- C26. Delta sign convention, on the long straddle of the end-to-end scenarios
(one call and one put bought, contract multipliers 10, so that the cached delta
of an option is ten times the delta that enters the portfolio delta), for kernel
deltas `c` of the call and `p` of the put in [0, 1]. When both deltas come from
the kernel, and when the call delta is absent and reconstructed as
`1 + put_delta`, `update_deltas` succeeds with a call delta >= 0 and a put delta
<= 0. When the put delta is absent, it is reconstructed as `1 - call_delta`:
`update_deltas` succeeds with the put delta `1 - c`, which is >= 0, and > 0
whenever `c < 1`, not <= 0. -/
theorem reconstructed_put_delta_sign (c p : ℚ) (hc0 : 0 ≤ c) (hc1 : c ≤ 1) (hp0 : 0 ≤ p)
    (_hp1 : p ≤ 1) :
    (∃ updated,
      (straddle_state 3599 3601 none []).update_deltas (one_sided_kernel (some c) (some p))
        (1 / 12) = Except.ok (none, updated) ∧
      0 ≤ updated.m_delta_call ∧ updated.m_delta_put ≤ 0) ∧
      (∃ updated,
        (straddle_state 3599 3601 none []).update_deltas (one_sided_kernel none (some p))
          (1 / 12) = Except.ok (none, updated) ∧
        0 ≤ updated.m_delta_call ∧ updated.m_delta_put ≤ 0) ∧
      ∃ updated,
        (straddle_state 3599 3601 none []).update_deltas (one_sided_kernel (some c) none)
          (1 / 12) = Except.ok (none, updated) ∧
        0 ≤ updated.m_delta_call ∧ updated.m_delta_put = (1 - c) * 1 * 10 ∧
        0 ≤ updated.m_delta_put ∧ (c < 1 → 0 < updated.m_delta_put) := by
  obtain ⟨hboth, hcall_absent, hput_absent⟩ := one_sided_deltas c p hc0 hp0
  refine ⟨⟨_, hboth, ?_, ?_⟩, ⟨_, hcall_absent, ?_, ?_⟩, ⟨_, hput_absent, ?_, rfl, ?_, ?_⟩⟩
  · show 0 ≤ c * 1 * 10
    linarith
  · show -p * 1 * 10 ≤ 0
    linarith
  · show 0 ≤ (1 + -p) * 1 * 10
    linarith
  · show -p * 1 * 10 ≤ 0
    linarith
  · show 0 ≤ c * 1 * 10
    linarith
  · show 0 ≤ (1 - c) * 1 * 10
    linarith
  · intro hlt
    show 0 < (1 - c) * 1 * 10
    linarith

/-- C26, on a concrete input: the kernel gives the call delta 0.62 and no
implied volatility for the put; the cached put delta of the long put is +3.8,
that is a put delta of +0.38. -/
theorem reconstructed_put_delta_sign_witness :
    ∃ updated,
      (straddle_state 3599 3601 none []).update_deltas
        (one_sided_kernel (some (62 / 100)) none) (1 / 12) = Except.ok (none, updated) ∧
      updated.m_delta_put = 19 / 5 := by
  obtain ⟨updated, hrun, _, hput, _, _⟩ :=
    (reconstructed_put_delta_sign (62 / 100) (38 / 100) (by norm_num) (by norm_num)
      (by norm_num) (by norm_num)).2.2
  refine ⟨updated, hrun, ?_⟩
  rw [hput]
  norm_num

/-! ## Normal distribution of the pricing kernel -/

theorem hart_rational_bounds {α : Type} [LinearOrderedField α] (y : α) (hy : 0 ≤ y) :
    0 ≤ ((((((0.0352624965998911 * y + 0.700383064443688) * y + 6.37396220353165) * y +
        33.912866078383) * y + 112.079291497871) * y + 221.213596169931) * y +
        220.206867912376 : α) /
      (((((((0.0883883476483184 * y + 1.75566716318264) * y + 16.064177579207) * y +
        86.7807322029461) * y + 296.564248779674) * y + 637.333633378831) * y +
        793.826512519948) * y + 440.413735824752) ∧
    ((((((0.0352624965998911 * y + 0.700383064443688) * y + 6.37396220353165) * y +
        33.912866078383) * y + 112.079291497871) * y + 221.213596169931) * y +
        220.206867912376 : α) /
      (((((((0.0883883476483184 * y + 1.75566716318264) * y + 16.064177579207) * y +
        86.7807322029461) * y + 296.564248779674) * y + 637.333633378831) * y +
        793.826512519948) * y + 440.413735824752) ≤ 1 := by
  have hb : (0 : α) <
      (((((((0.0883883476483184 * y + 1.75566716318264) * y + 16.064177579207) * y +
        86.7807322029461) * y + 296.564248779674) * y + 637.333633378831) * y +
        793.826512519948) * y + 440.413735824752) := by
    positivity
  have ha : (0 : α) ≤
      ((((((0.0352624965998911 * y + 0.700383064443688) * y + 6.37396220353165) * y +
        33.912866078383) * y + 112.079291497871) * y + 221.213596169931) * y +
        220.206867912376) := by
    positivity
  have hab :
      ((((((0.0352624965998911 * y + 0.700383064443688) * y + 6.37396220353165) * y +
        33.912866078383) * y + 112.079291497871) * y + 221.213596169931) * y +
        220.206867912376 : α) ≤
      (((((((0.0883883476483184 * y + 1.75566716318264) * y + 16.064177579207) * y +
        86.7807322029461) * y + 296.564248779674) * y + 637.333633378831) * y +
        793.826512519948) * y + 440.413735824752) := by
    rw [← sub_nonneg]
    ring_nf
    positivity
  exact ⟨div_nonneg ha (le_of_lt hb), (div_le_one hb).2 hab⟩

theorem hart_fraction_bounds {α : Type} [LinearOrderedField α] (y : α)
    (hy : ¬ y < 7.07106781186547) :
    (1 : α) ≤ (y + 1 / (y + 2 / (y + 3 / (y + 4 / (y + 0.65))))) * 2.506628274631 := by
  have hy7 : (7.07106781186547 : α) ≤ y := not_lt.1 hy
  have hpos : (0 : α) < y := lt_of_lt_of_le (by norm_num) hy7
  have h4 : (0 : α) ≤ 1 / (y + 2 / (y + 3 / (y + 4 / (y + 0.65)))) := by positivity
  have hsum : (7.07106781186547 : α) ≤ y + 1 / (y + 2 / (y + 3 / (y + 4 / (y + 0.65)))) := by
    linarith
  calc (1 : α) ≤ 7.07106781186547 * 2.506628274631 := by norm_num
    _ ≤ (y + 1 / (y + 2 / (y + 3 / (y + 4 / (y + 0.65))))) * 2.506628274631 :=
      mul_le_mul_of_nonneg_right hsum (by norm_num)

theorem hart_bounds {α : Type} [LinearOrderedField α] (exp : α → α)
    (hexp_nonneg : ∀ t, 0 ≤ exp t) (hexp_le_one : ∀ t, t ≤ 0 → exp t ≤ 1) (x : α) :
    0 ≤ details.cummulative_normal_distribution_hart exp x ∧
      details.cummulative_normal_distribution_hart exp x ≤ 1 := by
  have hy : (0 : α) ≤ |x| := abs_nonneg x
  have hE0 : 0 ≤ exp (-(|x| * |x|) / 2) := hexp_nonneg _
  have hE1 : exp (-(|x| * |x|) / 2) ≤ 1 := by
    apply hexp_le_one
    have : 0 ≤ |x| * |x| := mul_nonneg hy hy
    linarith
  have hsign : ∀ cnd : α, 0 ≤ cnd → cnd ≤ 1 →
      0 ≤ (if x > 0 then 1 - cnd else cnd) ∧ (if x > 0 then 1 - cnd else cnd) ≤ 1 := by
    intro cnd h0 h1
    split
    · exact ⟨by linarith, by linarith⟩
    · exact ⟨h0, h1⟩
  unfold details.cummulative_normal_distribution_hart
  simp only
  by_cases hfar : |x| > 37
  · rw [if_pos hfar]
    exact ⟨le_refl _, zero_le_one⟩
  · rw [if_neg hfar]
    apply hsign
    · by_cases hnear : |x| < 7.07106781186547
      · rw [if_pos hnear]
        exact mul_nonneg hE0 (hart_rational_bounds |x| hy).1
      · rw [if_neg hnear]
        have hden := hart_fraction_bounds |x| hnear
        exact div_nonneg hE0 (by linarith)
    · by_cases hnear : |x| < 7.07106781186547
      · rw [if_pos hnear]
        calc exp (-(|x| * |x|) / 2) * _ ≤ 1 * 1 :=
              mul_le_mul hE1 (hart_rational_bounds |x| hy).2 (hart_rational_bounds |x| hy).1
                zero_le_one
          _ = 1 := one_mul 1
      · rw [if_neg hnear]
        have hden := hart_fraction_bounds |x| hnear
        rw [div_le_one (by linarith)]
        linarith

/-- C22. Normal CDF bounds: for every real `x`,
`cummulative_normal_distribution_hart (x)`, with the arithmetic and the
exponential of the reals, lies in [0, 1], whichever branch computes it:
`|x| > 37`, the rational form for `|x| < 7.07106781186547`, or the continued
fraction. -/
theorem cummulative_normal_distribution_hart_bounds (x : ℝ) :
    0 ≤ details.cummulative_normal_distribution_hart Real.exp x ∧
      details.cummulative_normal_distribution_hart Real.exp x ≤ 1 :=
  hart_bounds Real.exp (fun t => le_of_lt (Real.exp_pos t))
    (fun _ ht => Real.exp_le_one_iff.2 ht) x

theorem hart_far {α : Type} [LinearOrderedField α] (exp : α → α) (x : α) (hfar : 37 < |x|) :
    details.cummulative_normal_distribution_hart exp x = 0 := by
  unfold details.cummulative_normal_distribution_hart
  simp only
  rw [if_pos hfar]

theorem hart_symmetry {α : Type} [LinearOrderedField α] (exp : α → α) (hexp : exp 0 = 1)
    (x : α) (hnear : ¬ 37 < |x|) :
    details.cummulative_normal_distribution_hart exp (-x) =
      1 - details.cummulative_normal_distribution_hart exp x := by
  rcases lt_trichotomy x 0 with hx | hx | hx
  · have h1 : ¬ x > 0 := not_lt.2 (le_of_lt hx)
    have h2 : -x > 0 := neg_pos.2 hx
    unfold details.cummulative_normal_distribution_hart
    simp only [abs_neg, gt_iff_lt, hnear, if_false]
    rw [if_pos h2, if_neg h1]
  · subst hx
    unfold details.cummulative_normal_distribution_hart
    simp only [neg_zero, abs_zero, gt_iff_lt, lt_irrefl, if_false, mul_zero, zero_div, hexp]
    norm_num
  · have h1 : x > 0 := hx
    have h2 : ¬ -x > 0 := not_lt.2 (le_of_lt (neg_neg_of_pos hx))
    unfold details.cummulative_normal_distribution_hart
    simp only [abs_neg, gt_iff_lt, hnear, if_false]
    rw [if_neg h2, if_pos h1]
    ring

/-- C23. Normal CDF symmetry. For every real `x` with `|x| ≤ 37`,
`cummulative_normal_distribution_hart (-x)` is exactly
`1 - cummulative_normal_distribution_hart (x)` in the arithmetic of the reals.
For `|x| > 37` the function returns 0 before the sign of `x` is looked at, on
the positive side as on the negative side: the value at 38 is 0, not 1, and the
value at `-x` differs from one minus the value at `x` by 1. -/
theorem cummulative_normal_distribution_hart_symmetry :
    (∀ x : ℝ, |x| ≤ 37 →
      details.cummulative_normal_distribution_hart Real.exp (-x) =
        1 - details.cummulative_normal_distribution_hart Real.exp x) ∧
      (∀ x : ℝ, 37 < |x| →
        details.cummulative_normal_distribution_hart Real.exp x = 0 ∧
        details.cummulative_normal_distribution_hart Real.exp (-x) = 0 ∧
        |details.cummulative_normal_distribution_hart Real.exp (-x) -
          (1 - details.cummulative_normal_distribution_hart Real.exp x)| = 1) ∧
      details.cummulative_normal_distribution_hart Real.exp 38 = 0 ∧
      details.cummulative_normal_distribution_hart Real.exp (-38) = 0 := by
  have hfar : ∀ x : ℝ, 37 < |x| →
      details.cummulative_normal_distribution_hart Real.exp x = 0 ∧
        details.cummulative_normal_distribution_hart Real.exp (-x) = 0 := by
    intro x hx
    exact ⟨hart_far Real.exp x hx, hart_far Real.exp (-x) (by rw [abs_neg]; exact hx)⟩
  refine ⟨fun x hx => hart_symmetry Real.exp Real.exp_zero x (not_lt.2 hx), ?_, ?_, ?_⟩
  · intro x hx
    obtain ⟨h1, h2⟩ := hfar x hx
    refine ⟨h1, h2, ?_⟩
    rw [h1, h2]
    norm_num
  · exact (hfar 38 (by rw [abs_of_pos (by norm_num)]; norm_num)).1
  · exact (hfar 38 (by rw [abs_of_pos (by norm_num)]; norm_num)).2

/-! ## Put-call parity of the pricing kernel -/

theorem bsm_parity {α : Type} [LinearOrderedField α] (exp log sqrt : α → α)
    (hexp : exp 0 = 1) (S K r T b σ : α)
    (h1 : ¬ 37 < |details.black_scholes_d1 log sqrt S K T b σ|)
    (h2 : ¬ 37 <
      |details.black_scholes_d2 sqrt T σ (details.black_scholes_d1 log sqrt S K T b σ)|) :
    generalized_black_scholes_merton exp log sqrt option_type_t.CALL S K r T b σ -
        generalized_black_scholes_merton exp log sqrt option_type_t.PUT S K r T b σ =
      S * exp ((b - r) * T) - K * exp ((-r) * T) := by
  unfold generalized_black_scholes_merton
  simp only [if_true]
  rw [if_neg (by decide)]
  rw [hart_symmetry exp hexp _ h1, hart_symmetry exp hexp _ h2]
  ring

theorem bsm_far {α : Type} [LinearOrderedField α] (exp log sqrt : α → α)
    (S K r T b σ : α)
    (h1 : 37 < |details.black_scholes_d1 log sqrt S K T b σ|)
    (h2 : 37 <
      |details.black_scholes_d2 sqrt T σ (details.black_scholes_d1 log sqrt S K T b σ)|) :
    generalized_black_scholes_merton exp log sqrt option_type_t.CALL S K r T b σ = 0 ∧
      generalized_black_scholes_merton exp log sqrt option_type_t.PUT S K r T b σ = 0 := by
  unfold generalized_black_scholes_merton
  simp only [if_true]
  rw [if_neg (by decide)]
  rw [hart_far exp _ h1, hart_far exp _ h2, hart_far exp _ (by rw [abs_neg]; exact h2),
    hart_far exp _ (by rw [abs_neg]; exact h1)]
  simp

/-- C24. BSM put-call parity, with the arithmetic, the exponential, the
logarithm and the square root of the reals. Whenever `|d1| ≤ 37` and
`|d2| ≤ 37`, the value of the call minus the value of the put is exactly
`S*e^((b-r)*T) - K*e^(-r*T)`. It fails when `d1` and `d2` exceed 37, where the
normal distribution of the kernel returns 0 on both sides: for `S = 2`, `K = 1`,
`T = 0.0001`, volatility 0.1 and `r = b = 0`, an option deep in the money close
to its maturity, the call and the put are both valued 0, and their difference is
0 where `S*e^((b-r)*T) - K*e^(-r*T)` is 1. -/
theorem generalized_black_scholes_merton_parity :
    (∀ S K r T b σ : ℝ,
      |details.black_scholes_d1 Real.log Real.sqrt S K T b σ| ≤ 37 →
      |details.black_scholes_d2 Real.sqrt T σ
        (details.black_scholes_d1 Real.log Real.sqrt S K T b σ)| ≤ 37 →
      generalized_black_scholes_merton Real.exp Real.log Real.sqrt option_type_t.CALL S K r T
          b σ -
        generalized_black_scholes_merton Real.exp Real.log Real.sqrt option_type_t.PUT S K r T
          b σ =
        S * Real.exp ((b - r) * T) - K * Real.exp ((-r) * T)) ∧
      generalized_black_scholes_merton Real.exp Real.log Real.sqrt option_type_t.CALL 2 1 0
        (1 / 10000) 0 (1 / 10) = 0 ∧
      generalized_black_scholes_merton Real.exp Real.log Real.sqrt option_type_t.PUT 2 1 0
        (1 / 10000) 0 (1 / 10) = 0 ∧
      (2 : ℝ) * Real.exp ((0 - 0) * (1 / 10000)) - 1 * Real.exp ((-0) * (1 / 10000)) = 1 := by
  have hsqrt : Real.sqrt (1 / 10000) = 1 / 100 := by
    rw [show (1 / 10000 : ℝ) = (1 / 100) ^ 2 by norm_num]
    exact Real.sqrt_sq (by norm_num)
  have hlog : (0.6931471803 : ℝ) < Real.log (2 / 1) := by
    rw [div_one]
    exact Real.log_two_gt_d9
  have hd1 : details.black_scholes_d1 Real.log Real.sqrt 2 1 (1 / 10000) 0 (1 / 10) =
      (Real.log (2 / 1) + 5 / 10000000) * 1000 := by
    unfold details.black_scholes_d1
    rw [hsqrt]
    ring
  have hd1_far : (37 : ℝ) <
      |details.black_scholes_d1 Real.log Real.sqrt 2 1 (1 / 10000) 0 (1 / 10)| := by
    rw [hd1]
    have hpos : (37 : ℝ) < (Real.log (2 / 1) + 5 / 10000000) * 1000 := by linarith
    exact lt_of_lt_of_le hpos (le_abs_self _)
  have hd2_far : (37 : ℝ) <
      |details.black_scholes_d2 Real.sqrt (1 / 10000) (1 / 10)
        (details.black_scholes_d1 Real.log Real.sqrt 2 1 (1 / 10000) 0 (1 / 10))| := by
    unfold details.black_scholes_d2
    rw [hd1, hsqrt]
    have hpos : (37 : ℝ) <
        (Real.log (2 / 1) + 5 / 10000000) * 1000 - 1 / 10 * (1 / 100) := by linarith
    exact lt_of_lt_of_le hpos (le_abs_self _)
  obtain ⟨hcall, hput⟩ :=
    bsm_far Real.exp Real.log Real.sqrt 2 1 0 (1 / 10000) 0 (1 / 10) hd1_far hd2_far
  refine ⟨?_, hcall, hput, ?_⟩
  · intro S K r T b σ h1 h2
    exact bsm_parity Real.exp Real.log Real.sqrt Real.exp_zero S K r T b σ (not_lt.2 h1)
      (not_lt.2 h2)
  · norm_num

/-! ## The hedge offsets the delta -/

end Deribit
